import Mathlib

/-!
A verification development for gobashd.

A shallow embedding of the execution engine of `gobashd` (shell quoting,
script parsing, parameter normalisation, the output readers and the run
registry) together with theorems about it.

Go strings are byte sequences, so text is modelled as a list of bytes. The
standard-library routines the program calls (`utf8`, `strings`, `bufio`,
`regexp`, `encoding/json`) are modelled as far as the program uses them.
-/

namespace Gobashd

/-! ## Bytes, text and UTF-8 -/

/-- One byte of a Go string. -/
abbrev Byte := Fin 256

/-- Go `string` and `[]byte`: an arbitrary sequence of bytes. -/
abbrev Text := List Byte

/-- The constant `utf8.RuneError` (U+FFFD). A Go `rune` is modelled as a
natural number: the runes that decoding produces are never negative. -/
def runeError : Nat := 0xFFFD

/-- The table `utf8.first` together with `utf8.acceptRanges`, for a lead byte
that is not ASCII: the length of the sequence and the range the second byte
must lie in; `none` is the table entry `xx` (an invalid lead byte). -/
def first (b : Byte) : Option (Nat × Nat × Nat) :=
  if b.val < 0xC2 then none
  else if b.val ≤ 0xDF then some (2, 0x80, 0xBF)
  else if b.val = 0xE0 then some (3, 0xA0, 0xBF)
  else if b.val ≤ 0xEC then some (3, 0x80, 0xBF)
  else if b.val = 0xED then some (3, 0x80, 0x9F)
  else if b.val ≤ 0xEF then some (3, 0x80, 0xBF)
  else if b.val = 0xF0 then some (4, 0x90, 0xBF)
  else if b.val ≤ 0xF3 then some (4, 0x80, 0xBF)
  else if b.val = 0xF4 then some (4, 0x80, 0x8F)
  else none

/-- Continuation byte test `locb <= b && b <= hicb`. -/
def isCont (b : Byte) : Bool := 0x80 ≤ b.val && b.val ≤ 0xBF

/-- Go `utf8.DecodeRuneInString`: the first rune of `s` and its width in
bytes. An encoding error gives `(RuneError, 1)`, the empty string
`(RuneError, 0)`. Masks and shifts are written with `%` and `*`. -/
def decodeRune : Text → Nat × Nat
  | [] => (runeError, 0)
  | s0 :: rest =>
    if s0.val < 0x80 then (s0.val, 1)
    else
      match first s0 with
      | none => (runeError, 1)
      | some (sz, lo, hi) =>
        if rest.length + 1 < sz then (runeError, 1)
        else
          match rest with
          | [] => (runeError, 1)
          | s1 :: rest1 =>
            if s1.val < lo ∨ hi < s1.val then (runeError, 1)
            else if sz ≤ 2 then (s0.val % 32 * 64 + s1.val % 64, 2)
            else
              match rest1 with
              | [] => (runeError, 1)
              | s2 :: rest2 =>
                if !isCont s2 then (runeError, 1)
                else if sz ≤ 3 then
                  (s0.val % 16 * 4096 + s1.val % 64 * 64 + s2.val % 64, 3)
                else
                  match rest2 with
                  | [] => (runeError, 1)
                  | s3 :: _ =>
                    if !isCont s3 then (runeError, 1)
                    else
                      (s0.val % 8 * 262144 + s1.val % 64 * 4096
                        + s2.val % 64 * 64 + s3.val % 64, 4)

/-- Go `utf8.AppendRune`, which `bytes.Buffer.WriteRune` uses: the UTF-8
encoding of `r`; surrogates and values above U+10FFFF are written as
U+FFFD. -/
def encodeRune (r : Nat) : Text :=
  if r ≤ 0x7F then [Fin.ofNat r]
  else if r ≤ 0x7FF then [Fin.ofNat (0xC0 + r / 64), Fin.ofNat (0x80 + r % 64)]
  else if 0x10FFFF < r ∨ (0xD800 ≤ r ∧ r ≤ 0xDFFF) then [0xEF, 0xBF, 0xBD]
  else if r ≤ 0xFFFF then
    [Fin.ofNat (0xE0 + r / 4096), Fin.ofNat (0x80 + r / 64 % 64), Fin.ofNat (0x80 + r % 64)]
  else
    [Fin.ofNat (0xF0 + r / 262144), Fin.ofNat (0x80 + r / 4096 % 64),
      Fin.ofNat (0x80 + r / 64 % 64), Fin.ofNat (0x80 + r % 64)]

/-- The runes a Go `for _, r := range s` loop visits, in order. Every step
consumes at least one byte, so `s.length` steps always suffice. -/
def runesFuel : Nat → Text → List Nat
  | 0, _ => []
  | _ + 1, [] => []
  | n + 1, b :: rest =>
    let d := decodeRune (b :: rest)
    d.1 :: runesFuel n ((b :: rest).drop d.2)

/-- The runes of a string, as `range` yields them. -/
def runes (s : Text) : List Nat := runesFuel s.length s

/-- Go `utf8.ValidString`: no decoding step reports an encoding error (the
rune U+FFFD with width 1). -/
def validFuel : Nat → Text → Bool
  | 0, _ => true
  | _ + 1, [] => true
  | n + 1, b :: rest =>
    let d := decodeRune (b :: rest)
    !(d.1 == runeError && d.2 == 1) && validFuel n ((b :: rest).drop d.2)

/-- Whether a string is valid UTF-8. -/
def validString (s : Text) : Bool := validFuel s.length s

/-- The bytes of a literal, encoded as UTF-8 the way Go source literals are. -/
def textOf (s : String) : Text := s.toList.flatMap (fun c => encodeRune c.toNat)

/-! ## escape.go -/

/-- One iteration of the loop of `escapeShellArg` on the rune `runeVal`,
appending to the buffer `quotedArg`. -/
def escapeRune (windows : Bool) (quotedArg : Text) (runeVal : Nat) : Text :=
  if windows then
    if runeVal = 0x22 ∨ runeVal = 0x25 then quotedArg ++ encodeRune 0x20
    else quotedArg ++ encodeRune runeVal
  else
    if runeVal = 0x27 then (quotedArg ++ [0x27, 0x5C, 0x27]) ++ encodeRune runeVal
    else quotedArg ++ encodeRune runeVal

/-- The function `escapeShellArg` of escape.go; `windows` stands for
`runtime.GOOS == "windows"`. -/
def escapeShellArg (windows : Bool) (arg : Text) : Text :=
  let quotedArg : Text := if windows then [0x22] else [0x27]
  let quotedArg := (runes arg).foldl (escapeRune windows) quotedArg
  if windows then quotedArg ++ [0x22] else quotedArg ++ [0x27]

/-- State of the reference reader of a POSIX shell word. -/
inductive ShState
  | outside
  | quoted
  | escaped
  deriving DecidableEq, Repr

/-- Reference decoding of a shell word made of single-quoted segments and
backslash escapes: inside single quotes every byte is literal, outside them a
backslash makes the next byte literal, and the segments are concatenated. Any
other unquoted byte, an unterminated quote, a trailing backslash or an escaped
newline is refused. -/
def shellDecodeFrom : ShState → Text → Option Text
  | .outside, [] => some []
  | _, [] => none
  | .outside, c :: rest =>
    if c = 0x27 then shellDecodeFrom .quoted rest
    else if c = 0x5C then shellDecodeFrom .escaped rest
    else none
  | .quoted, c :: rest =>
    if c = 0x27 then shellDecodeFrom .outside rest
    else (shellDecodeFrom .quoted rest).map (c :: ·)
  | .escaped, c :: rest =>
    if c = 0x0A then none
    else (shellDecodeFrom .outside rest).map (c :: ·)

/-- Decode a whole shell word. -/
def shellDecode (w : Text) : Option Text := shellDecodeFrom .outside w

/-! ## Standard-library text routines -/

/-- The byte of an ASCII character. -/
def ch (c : Char) : Byte := Fin.ofNat c.toNat

/-- Go `strings.HasPrefix`. -/
def hasPrefix (s pre : Text) : Bool := pre.isPrefixOf s

/-- Go `unicode.IsSpace`: the Latin-1 cases and the `White_Space` table. -/
def isSpaceRune (r : Nat) : Bool :=
  (0x09 ≤ r && r ≤ 0x0D) || r == 0x20 || r == 0x85 || r == 0xA0 || r == 0x1680
    || (0x2000 ≤ r && r ≤ 0x200A) || r == 0x2028 || r == 0x2029 || r == 0x202F
    || r == 0x205F || r == 0x3000

/-- Go `utf8.RuneStart`: the byte is not a continuation byte. -/
def runeStart (b : Byte) : Bool := !(0x80 ≤ b.val && b.val < 0xC0)

/-- How many bytes before the end `utf8.DecodeLastRuneInString` starts to
decode, given the bytes before the last one in reverse order: it steps back to
the nearest rune start among at most three further bytes, and otherwise to the
limit of its search (or the start of the string). -/
def lastRuneSpan : Text → Nat
  | [] => 1
  | b1 :: pre1 =>
    if runeStart b1 then 2
    else
      match pre1 with
      | [] => 2
      | b2 :: pre2 =>
        if runeStart b2 then 3
        else
          match pre2 with
          | [] => 3
          | b3 :: pre3 =>
            if runeStart b3 then 4
            else
              match pre3 with
              | [] => 4
              | _ :: _ => 5

/-- Go `utf8.DecodeLastRuneInString`: the last rune of `s` and its width. -/
def decodeLastRune (s : Text) : Nat × Nat :=
  match s.reverse with
  | [] => (runeError, 0)
  | b0 :: pre =>
    if b0.val < 0x80 then (b0.val, 1)
    else
      let n := lastRuneSpan pre
      let d := decodeRune (s.drop (s.length - n))
      if d.2 ≠ n then (runeError, 1) else d

/-- Go `strings.TrimLeftFunc(s, unicode.IsSpace)`. -/
def trimLeftFuel : Nat → Text → Text
  | 0, s => s
  | _ + 1, [] => []
  | n + 1, b :: rest =>
    let d := decodeRune (b :: rest)
    if isSpaceRune d.1 then trimLeftFuel n ((b :: rest).drop d.2) else b :: rest

/-- Go `strings.TrimRightFunc(s, unicode.IsSpace)`. -/
def trimRightFuel : Nat → Text → Text
  | 0, s => s
  | n + 1, s =>
    let d := decodeLastRune s
    if d.2 = 0 then s
    else if isSpaceRune d.1 then trimRightFuel n (s.take (s.length - d.2)) else s

/-- Go `strings.TrimSpace`: leading and trailing Unicode white space removed.
Every step drops at least one byte, so `s.length` steps suffice. -/
def trimSpace (s : Text) : Text :=
  let l := trimLeftFuel s.length s
  trimRightFuel l.length l

/-- The lines that a loop over `bufio.Reader.ReadString(0x0A)` gets before
the first error: every line ends with its newline, and what follows the last
newline comes with `io.EOF` and is not among them. `cur` holds the bytes of
the line being read. -/
def readLinesFrom : Text → Text → List Text
  | _, [] => []
  | cur, c :: rest =>
    if c = 0x0A then (cur ++ [c]) :: readLinesFrom [] rest
    else readLinesFrom (cur ++ [c]) rest

/-- The newline-terminated lines of a stream. -/
def readLines (data : Text) : List Text := readLinesFrom [] data

/-- Decimal digits of a number, least significant first. -/
def digitsRev : Nat → Nat → List Byte
  | 0, _ => []
  | fuel + 1, n => (Fin.ofNat (0x30 + n % 10)) :: (if n < 10 then [] else digitsRev fuel (n / 10))

/-- The verb `%d` of `fmt` on a number that is not negative, and
`strconv.FormatInt` in base 10 on such a number. -/
def formatNat (n : Nat) : Text := (digitsRev (n + 1) n).reverse

/-- The verb `%d` of `fmt` on an integer. -/
def formatInt (i : Int) : Text :=
  if i < 0 then 0x2D :: formatNat i.natAbs else formatNat i.natAbs

/-! ## encoding/json, as far as `json.Unmarshal` into an empty interface goes -/

/-- The scanner states of `encoding/json` (the `state...` step functions). -/
inductive Step
  | beginValue | beginValueOrEmpty | beginStringOrEmpty | beginString
  | endValue | endTop
  | inString | inStringEsc | inStringEscU | inStringEscU1 | inStringEscU12 | inStringEscU123
  | neg | one | zero | dot | dot0 | e | eSign | e0
  | t | tr | tru | f | fa | fal | fals | n | nu | nul
  deriving DecidableEq, Repr

/-- Entries of the scanner's parse-state stack. -/
inductive ParseState
  | objectKey | objectValue | arrayValue
  deriving DecidableEq, Repr

/-- The JSON scanner: its current step function, its parse-state stack (top
first) and whether the top-level value has ended. A scanner error is the
result `none` of a step. -/
structure Scanner where
  step : Step
  parseState : List ParseState
  endTop : Bool
  deriving DecidableEq, Repr

/-- The constant `maxNestingDepth` of the scanner. -/
def maxNestingDepth : Nat := 10000

/-- The scanner's `isSpace`. -/
def jsonSpace (c : Byte) : Bool := c = 0x20 || c = 0x09 || c = 0x0D || c = 0x0A

/-- ASCII decimal digit. -/
def isDigit (c : Byte) : Bool := 0x30 ≤ c.val && c.val ≤ 0x39

/-- ASCII hexadecimal digit. -/
def isHex (c : Byte) : Bool :=
  isDigit c || (0x61 ≤ c.val && c.val ≤ 0x66) || (0x41 ≤ c.val && c.val ≤ 0x46)

/-- The scanner's `pushParseState`. -/
def pushParseState (s : Scanner) (p : ParseState) (next : Step) : Option Scanner :=
  if s.parseState.length + 1 ≤ maxNestingDepth then
    some { s with step := next, parseState := p :: s.parseState }
  else none

/-- The scanner's `popParseState`. -/
def popParseState (s : Scanner) : Scanner :=
  match s.parseState.tail with
  | [] => { step := .endTop, parseState := [], endTop := true }
  | rest => { s with step := .endValue, parseState := rest }

/-- The scanner's `stateEndTop`. -/
def stateEndTop (s : Scanner) (c : Byte) : Option Scanner :=
  if !jsonSpace c then none else some s

/-- The scanner's `stateEndValue`. -/
def stateEndValue (s : Scanner) (c : Byte) : Option Scanner :=
  match s.parseState with
  | [] => stateEndTop { s with step := .endTop, endTop := true } c
  | ps :: rest =>
    if jsonSpace c then some { s with step := .endValue }
    else
      match ps with
      | .objectKey =>
        if c = 0x3A then some { s with step := .beginValue, parseState := .objectValue :: rest }
        else none
      | .objectValue =>
        if c = 0x2C then some { s with step := .beginString, parseState := .objectKey :: rest }
        else if c = 0x7D then some (popParseState s)
        else none
      | .arrayValue =>
        if c = 0x2C then some { s with step := .beginValue }
        else if c = 0x5D then some (popParseState s)
        else none

/-- The scanner's `stateBeginValue`. -/
def stateBeginValue (s : Scanner) (c : Byte) : Option Scanner :=
  if jsonSpace c then some s
  else if c = 0x7B then pushParseState s .objectKey .beginStringOrEmpty
  else if c = 0x5B then pushParseState s .arrayValue .beginValueOrEmpty
  else if c = 0x22 then some { s with step := .inString }
  else if c = 0x2D then some { s with step := .neg }
  else if c = 0x30 then some { s with step := .zero }
  else if c = ch 't' then some { s with step := .t }
  else if c = ch 'f' then some { s with step := .f }
  else if c = ch 'n' then some { s with step := .n }
  else if 0x31 ≤ c.val ∧ c.val ≤ 0x39 then some { s with step := .one }
  else none

/-- The scanner's `stateBeginString`. -/
def stateBeginString (s : Scanner) (c : Byte) : Option Scanner :=
  if jsonSpace c then some s
  else if c = 0x22 then some { s with step := .inString }
  else none

/-- The scanner's `state0`, also the tail of `state1`. -/
def state0 (s : Scanner) (c : Byte) : Option Scanner :=
  if c = 0x2E then some { s with step := .dot }
  else if c = ch 'e' ∨ c = ch 'E' then some { s with step := .e }
  else stateEndValue s c

/-- The scanner's `stateESign`, also the tail of `stateE`. -/
def stateESign (s : Scanner) (c : Byte) : Option Scanner :=
  if isDigit c then some { s with step := .e0 } else none

/-- A step that accepts exactly the byte `want`. -/
def expectByte (s : Scanner) (c want : Byte) (next : Step) : Option Scanner :=
  if c = want then some { s with step := next } else none

/-- A step that accepts one hexadecimal digit. -/
def expectHex (s : Scanner) (c : Byte) (next : Step) : Option Scanner :=
  if isHex c then some { s with step := next } else none

/-- One call `s.step(s, c)` of the scanner. -/
def scanStep (s : Scanner) (c : Byte) : Option Scanner :=
  match s.step with
  | .beginValue => stateBeginValue s c
  | .beginValueOrEmpty =>
    if jsonSpace c then some s
    else if c = 0x5D then stateEndValue s c
    else stateBeginValue s c
  | .beginStringOrEmpty =>
    if jsonSpace c then some s
    else if c = 0x7D then
      stateEndValue { s with parseState := .objectValue :: s.parseState.tail } c
    else stateBeginString s c
  | .beginString => stateBeginString s c
  | .endValue => stateEndValue s c
  | .endTop => stateEndTop s c
  | .inString =>
    if c = 0x22 then some { s with step := .endValue }
    else if c = 0x5C then some { s with step := .inStringEsc }
    else if c.val < 0x20 then none
    else some s
  | .inStringEsc =>
    if c = ch 'b' ∨ c = ch 'f' ∨ c = ch 'n' ∨ c = ch 'r' ∨ c = ch 't' ∨ c = 0x5C
        ∨ c = 0x2F ∨ c = 0x22 then
      some { s with step := .inString }
    else if c = ch 'u' then some { s with step := .inStringEscU }
    else none
  | .inStringEscU => expectHex s c .inStringEscU1
  | .inStringEscU1 => expectHex s c .inStringEscU12
  | .inStringEscU12 => expectHex s c .inStringEscU123
  | .inStringEscU123 => expectHex s c .inString
  | .neg =>
    if c = 0x30 then some { s with step := .zero }
    else if 0x31 ≤ c.val ∧ c.val ≤ 0x39 then some { s with step := .one }
    else none
  | .one => if isDigit c then some s else state0 s c
  | .zero => state0 s c
  | .dot => if isDigit c then some { s with step := .dot0 } else none
  | .dot0 =>
    if isDigit c then some s
    else if c = ch 'e' ∨ c = ch 'E' then some { s with step := .e }
    else stateEndValue s c
  | .e =>
    if c = 0x2B ∨ c = 0x2D then some { s with step := .eSign } else stateESign s c
  | .eSign => stateESign s c
  | .e0 => if isDigit c then some s else stateEndValue s c
  | .t => expectByte s c (ch 'r') .tr
  | .tr => expectByte s c (ch 'u') .tru
  | .tru => expectByte s c (ch 'e') .endValue
  | .f => expectByte s c (ch 'a') .fa
  | .fa => expectByte s c (ch 'l') .fal
  | .fal => expectByte s c (ch 's') .fals
  | .fals => expectByte s c (ch 'e') .endValue
  | .n => expectByte s c (ch 'u') .nu
  | .nu => expectByte s c (ch 'l') .nul
  | .nul => expectByte s c (ch 'l') .endValue

/-- The scanner run over the bytes of the input. -/
def scanBytes : Scanner → Text → Option Scanner
  | s, [] => some s
  | s, c :: rest =>
    match scanStep s c with
    | none => none
    | some s1 => scanBytes s1 rest

/-- The scanner's `eof`: whether the input ended at the end of a value. -/
def scanEof (s : Scanner) : Bool :=
  if s.endTop then true
  else
    match scanStep s 0x20 with
    | none => false
    | some s1 => s1.endTop

/-- The function `checkValid` of `encoding/json`: the input is one JSON value
with optional white space around it. -/
def checkValid (data : Text) : Bool :=
  match scanBytes { step := .beginValue, parseState := [], endTop := false } data with
  | none => false
  | some s => scanEof s

/-- A Go value held in an `interface{}`, as far as the program produces them.
A `float64` is carried as the decimal literal it was parsed from by
`strconv.ParseFloat` and an `int` as the literal of the `float64` it was
converted from; arrays and objects are carried as their JSON text. -/
inductive Value
  | nil
  | bool (b : Bool)
  | float (lit : Text)
  | int (ofFloat : Text)
  | str (s : Text)
  | arr (json : Text)
  | obj (json : Text)
  deriving DecidableEq, Repr

/-- Value of a hexadecimal digit. -/
def hexVal (c : Byte) : Nat :=
  if isDigit c then c.val - 0x30
  else if 0x61 ≤ c.val then c.val - 0x61 + 10
  else c.val - 0x41 + 10

/-- The decoder's `getu4`: the code unit of a leading `\uXXXX`, if any. -/
def getu4 : Text → Option Nat
  | b :: u :: h1 :: h2 :: h3 :: h4 :: _ =>
    if b = 0x5C ∧ u = ch 'u' ∧ isHex h1 ∧ isHex h2 ∧ isHex h3 ∧ isHex h4 then
      some (hexVal h1 * 4096 + hexVal h2 * 256 + hexVal h3 * 16 + hexVal h4)
    else none
  | _ => none

/-- Go `utf16.IsSurrogate`. -/
def isSurrogate (r : Nat) : Bool := 0xD800 ≤ r && r < 0xE000

/-- Go `utf16.DecodeRune`, the second argument being absent when `getu4`
found no escape. -/
def utf16DecodeRune (r1 : Nat) (r2 : Option Nat) : Nat :=
  match r2 with
  | none => runeError
  | some r2 =>
    if 0xD800 ≤ r1 ∧ r1 < 0xDC00 ∧ 0xDC00 ≤ r2 ∧ r2 < 0xE000 then
      (r1 - 0xD800) * 1024 + (r2 - 0xDC00) + 0x10000
    else runeError

/-- The byte a one-letter escape stands for, in the decoder's `unquoteBytes`. -/
def simpleEscape (c : Byte) : Option Byte :=
  if c = 0x22 ∨ c = 0x5C ∨ c = 0x2F ∨ c = 0x27 then some c
  else if c = ch 'b' then some 0x08
  else if c = ch 'f' then some 0x0C
  else if c = ch 'n' then some 0x0A
  else if c = ch 'r' then some 0x0D
  else if c = ch 't' then some 0x09
  else none

/-- The loop of the decoder's `unquoteBytes` on the text between the quotes:
escapes are replaced, and invalid UTF-8 and unpaired surrogates become
U+FFFD. Every step consumes at least one byte. -/
def unquoteFuel : Nat → Text → Option Text
  | 0, [] => some []
  | 0, _ :: _ => none
  | _ + 1, [] => some []
  | n + 1, c :: rest =>
    if c = 0x5C then
      match rest with
      | [] => none
      | e :: rest1 =>
        if e = ch 'u' then
          match getu4 (c :: rest) with
          | none => none
          | some rr =>
            let rest2 := rest1.drop 4
            if isSurrogate rr then
              let dec := utf16DecodeRune rr (getu4 rest2)
              if dec ≠ runeError then
                (unquoteFuel n (rest2.drop 6)).map (encodeRune dec ++ ·)
              else (unquoteFuel n rest2).map (encodeRune runeError ++ ·)
            else (unquoteFuel n rest2).map (encodeRune rr ++ ·)
        else
          match simpleEscape e with
          | none => none
          | some b => (unquoteFuel n rest1).map (b :: ·)
    else if c = 0x22 ∨ c.val < 0x20 then none
    else if c.val < 0x80 then (unquoteFuel n rest).map (c :: ·)
    else
      let d := decodeRune (c :: rest)
      (unquoteFuel n ((c :: rest).drop d.2)).map (encodeRune d.1 ++ ·)

/-- The decoder's `unquoteBytes` on a quoted literal. -/
def unquote (lit : Text) : Option Text :=
  match lit with
  | [] => none
  | q :: rest =>
    if q = 0x22 ∧ rest.getLast? = some 0x22 then
      unquoteFuel rest.dropLast.length rest.dropLast
    else none

/-- The number written by a run of decimal digits. -/
def digitsVal (ds : Text) : Nat := ds.foldl (fun acc d => acc * 10 + (d.val - 0x30)) 0

/-- Whether `strconv.ParseFloat(lit, 64)` succeeds on a JSON number literal,
which it does unless the nearest `float64` is infinite: the value written
must be below `2^1024 - 2^970`, half a unit in the last place above the
largest finite `float64`. -/
def floatInRange (lit : Text) : Bool :=
  let body := if hasPrefix lit [0x2D] then lit.drop 1 else lit
  let intDigits := body.takeWhile isDigit
  let rest := body.dropWhile isDigit
  let fracDigits := if hasPrefix rest [0x2E] then (rest.drop 1).takeWhile isDigit else []
  let rest := if hasPrefix rest [0x2E] then (rest.drop 1).dropWhile isDigit else rest
  let expBody := rest.drop 1
  let expNeg := hasPrefix expBody [0x2D]
  let expDigits := if expNeg ∨ hasPrefix expBody [0x2B] then expBody.drop 1 else expBody
  let mant := digitsVal (intDigits ++ fracDigits)
  let bound := 2 ^ 1024 - 2 ^ 970
  let ex : Int :=
    (if expNeg then - (digitsVal expDigits : Int) else (digitsVal expDigits : Int))
      - (fracDigits.length : Int)
  if 0 ≤ ex then decide (mant * 10 ^ ex.toNat < bound)
  else decide (mant < bound * 10 ^ (-ex).toNat)

/-- Bytes that can occur in a JSON number. -/
def isNumberByte (c : Byte) : Bool :=
  isDigit c || c = 0x2D || c = 0x2B || c = 0x2E || c = ch 'e' || c = ch 'E'

/-- Where the walk over the text of a valid JSON value stands. -/
inductive Walk
  | plain
  | inStr
  | inStrEsc
  | inNum (lit : Text)
  deriving DecidableEq, Repr

/-- Whether every number literal in the text of a valid JSON value is in the
range of `float64`; the decoder reports a number that is not as an error of
the whole call. Outside strings a number starts at a minus sign or digit. -/
def numbersInRange : Walk → Text → Bool
  | .inNum lit, [] => floatInRange lit
  | _, [] => true
  | .plain, c :: rest =>
    if c = 0x22 then numbersInRange .inStr rest
    else if isDigit c ∨ c = 0x2D then numbersInRange (.inNum [c]) rest
    else numbersInRange .plain rest
  | .inStr, c :: rest =>
    if c = 0x22 then numbersInRange .plain rest
    else if c = 0x5C then numbersInRange .inStrEsc rest
    else numbersInRange .inStr rest
  | .inStrEsc, _ :: rest => numbersInRange .inStr rest
  | .inNum lit, c :: rest =>
    if isNumberByte c then numbersInRange (.inNum (lit ++ [c])) rest
    else floatInRange lit && numbersInRange .plain rest

/-- The input without the white space the scanner skips around the value. -/
def trimJsonSpace (data : Text) : Text :=
  ((data.dropWhile jsonSpace).reverse.dropWhile jsonSpace).reverse

/-- Go `json.Unmarshal(data, &v)` for a variable `v` of type `interface{}`
that holds a value which is not a pointer: whatever `v` held, the decoder
stores the Go value of the JSON value, of the kind the JSON text has. The
result `none` is a returned error. -/
def jsonUnmarshal (data : Text) : Option Value :=
  if !checkValid data then none
  else
    let item := trimJsonSpace data
    match item with
    | [] => none
    | c :: _ =>
      if c = 0x22 then (unquote item).map Value.str
      else if c = ch 't' then some (.bool true)
      else if c = ch 'f' then some (.bool false)
      else if c = ch 'n' then some .nil
      else if !numbersInRange .plain item then none
      else if c = 0x5B then some (.arr item)
      else if c = 0x7B then some (.obj item)
      else some (.float item)

/-! ## script.go -/

/-- Outcome of a Go call that returns `(value, error)`: a value, an error
with its message, or a run-time panic. -/
inductive Result (α : Type)
  | ok (a : α)
  | error (msg : Text)
  | panic
  deriving DecidableEq, Repr

/-- The struct `ScriptDef`: one `@param` or `@output` declaration. -/
structure ScriptDef where
  Name : Text
  Type_ : Text
  DefaultStr : Text
  Default : Value
  Desc : Text
  deriving DecidableEq, Repr

/-- The struct `Script`. The embedded `*template.Template` is represented by
the text it was compiled from. -/
structure Script where
  Name : Text
  Help : Text
  Desc : Text
  ParamDefs : List ScriptDef
  OutputDefs : List ScriptDef
  Path : Text
  Template : Text
  ParsedTs : Int
  deriving DecidableEq, Repr

/-- A Go `map` with string keys, as a list of entries without repeated keys. -/
abbrev GoMap (α : Type) := List (Text × α)

/-- The map read `m[k]` with its presence flag. -/
def GoMap.get {α : Type} (m : GoMap α) (k : Text) : Option α :=
  match m with
  | [] => none
  | (k1, v) :: rest => if k1 = k then some v else GoMap.get rest k

/-- The map write `m[k] = v`: an existing entry is replaced in place. -/
def GoMap.set {α : Type} (m : GoMap α) (k : Text) (v : α) : GoMap α :=
  match m with
  | [] => [(k, v)]
  | (k1, v1) :: rest => if k1 = k then (k, v) :: rest else (k1, v1) :: GoMap.set rest k v

/-- The package `text/template`, which the program calls and does not
define: `parse name text` is the error of `template.New(name).Parse(text)`,
if any, and `execute text params` the outcome of `Execute` on the template
compiled from `text`. -/
structure TemplateEngine where
  parse : Text → Text → Option Text
  execute : Text → GoMap Value → Result Text

/-- What the program takes from its platform: whether `runtime.GOOS` is
`windows`, and the template engine. -/
structure Env where
  windows : Bool
  tpl : TemplateEngine

/-- The second half of `ScriptDef.toInterfaceVal`: the call of
`json.Unmarshal` on the input (quoted already for the string types) and the
type assertions that follow it. -/
def ScriptDef.unmarshal (env : Env) (self : ScriptDef) (inp : Text) : Result Value :=
  match jsonUnmarshal inp with
  | none =>
    .error (textOf "Unable to parse " ++ [0x60] ++ inp ++ [0x60] ++ textOf " as " ++ self.Name
      ++ textOf " (" ++ self.Type_ ++ textOf ")")
  | some v =>
    if self.Type_ = textOf "int" then
      match v with
      | .float lit => .ok (.int lit)
      | _ => .panic
    else if self.Type_ = textOf "string" then
      match v with
      | .str s => .ok (.str (escapeShellArg env.windows s))
      | _ => .panic
    else .ok v

/-- The method `ScriptDef.toInterfaceVal` of script.go. The value `v` is
preset before the call of `json.Unmarshal`, which does not look at it. -/
def ScriptDef.toInterfaceVal (env : Env) (self : ScriptDef) (inp : Text) : Result Value :=
  if self.Type_ = textOf "int" ∨ self.Type_ = textOf "float" then self.unmarshal env inp
  else if self.Type_ = textOf "string" ∨ self.Type_ = textOf "unsafe" then
    if !hasPrefix inp [0x22] then self.unmarshal env ([0x22] ++ inp ++ [0x22])
    else self.unmarshal env inp
  else if self.Type_ = textOf "bool" then self.unmarshal env inp
  else .error (textOf "Unrecognized type " ++ self.Type_ ++ textOf " for " ++ self.Name)

/-- The method `ScriptDef.makeDefault` of script.go. -/
def ScriptDef.makeDefault (env : Env) (self : ScriptDef) : Result ScriptDef :=
  match self.toInterfaceVal env self.DefaultStr with
  | .ok d => .ok { self with Default := d }
  | .error msg => .error msg
  | .panic => .panic

/-- The loop of `Script.normalizeParams` over the param defs still to do. -/
def normalizeLoop (env : Env) (iparams : GoMap Text) :
    List ScriptDef → GoMap Value → Result (GoMap Value)
  | [], oparams => .ok oparams
  | d :: rest, oparams =>
    match iparams.get d.Name with
    | some ival =>
      match d.toInterfaceVal env ival with
      | .ok oval => normalizeLoop env iparams rest (oparams.set d.Name oval)
      | .error msg => .error msg
      | .panic => .panic
    | none => normalizeLoop env iparams rest (oparams.set d.Name d.Default)

/-- The method `Script.normalizeParams` of script.go. -/
def Script.normalizeParams (env : Env) (self : Script) (iparams : GoMap Text) :
    Result (GoMap Value) :=
  normalizeLoop env iparams self.ParamDefs []

/-- The loop of `Script.getOutputIdxByName`, `i` being the index of the
first def of the list. -/
def outputIdxFrom (name : Text) : List ScriptDef → Int → Int
  | [], _ => -1
  | d :: rest, i => if d.Name = name then i else outputIdxFrom name rest (i + 1)

/-- The method `Script.getOutputIdxByName` of script.go. -/
def Script.getOutputIdxByName (self : Script) (name : Text) : Int :=
  outputIdxFrom name self.OutputDefs 0

/-- The class `\s` of Go regular expressions. -/
def reSpace (c : Byte) : Bool := c = 0x09 || c = 0x0A || c = 0x0C || c = 0x0D || c = 0x20

/-- The part `\s+` of a pattern, followed by something that cannot begin with
white space: the longest run of white space, which must not be empty. -/
def reSpaces1 (s : Text) : Option Text :=
  match s with
  | [] => none
  | c :: rest => if reSpace c then some (rest.dropWhile reSpace) else none

/-- A literal part of a pattern. -/
def reLit (lit s : Text) : Option Text :=
  if hasPrefix s lit then some (s.drop lit.length) else none

/-- The part `([^\s]+)\s+` of a pattern: the longest run of bytes that are
not white space, not empty, and the white space after it. -/
def reWord (s : Text) : Option (Text × Text) :=
  let w := s.takeWhile (fun c => !reSpace c)
  if w = [] then none
  else (reSpaces1 (s.dropWhile (fun c => !reSpace c))).map (fun rest => (w, rest))

/-- The common head `^#\s+@<word>` of the three patterns, tried at one
position. -/
def reHead (word s : Text) : Option Text :=
  (reLit [0x23] s).bind (fun r => (reSpaces1 r).bind (fun r => reLit (0x40 :: word) r))

/-- The first of the literals `alts` that the text starts with, and the text
after it; the alternatives of the patterns here exclude one another. -/
def reAlt (alts : List Text) (s : Text) : Option (Text × Text) :=
  match alts with
  | [] => none
  | a :: more => if hasPrefix s a then some (a, s.drop a.length) else reAlt more s

/-- The pattern `^#\s+@desc\s*(.*)$` tried at one position: the capture. -/
def descAt (s : Text) : Option Text :=
  (reHead (textOf "desc") s).map
    (fun r => (r.dropWhile reSpace).takeWhile (fun c => c ≠ 0x0A))

/-- The pattern for `@param` lines, tried at one position: the four
captures (name, type, default, description). -/
def paramAt (s : Text) : Option (Text × Text × Text × Text) :=
  (reHead (textOf "param") s).bind fun r =>
  (reSpaces1 r).bind fun r =>
  (reWord r).bind fun (name, r) =>
  (reAlt [textOf "int", textOf "float", textOf "string", textOf "bool", textOf "unsafe"] r).bind
    fun (ty, r) =>
  (reSpaces1 r).bind fun r =>
  (reLit [0x60] r).bind fun r =>
  let dflt := r.takeWhile (fun c => c ≠ 0x60)
  (reLit [0x60] (r.dropWhile (fun c => c ≠ 0x60))).bind fun r =>
  (reSpaces1 r).map fun r =>
  (name, ty, dflt, r.takeWhile (fun c => c ≠ 0x0A))

/-- The pattern `^#\s+@output\s+([^\s]+)\s+(a|w)$` tried at one position:
the two captures. -/
def outputAt (s : Text) : Option (Text × Text) :=
  (reHead (textOf "output") s).bind fun r =>
  (reSpaces1 r).bind fun r =>
  (reWord r).bind fun (name, r) =>
  (reAlt [textOf "a", textOf "w"] r).bind fun (ty, r) =>
  match r with
  | [] => some (name, ty)
  | c :: _ => if c = 0x0A then some (name, ty) else none

/-- Go `FindStringSubmatch` for a pattern that starts with `(?m)^`: the match
at the first line start (the start of the text or after a newline) where the
pattern matches. -/
def findAtLineStart {α : Type} (m : Text → Option α) : Bool → Text → Option α
  | _, [] => none
  | atStart, c :: rest =>
    match (if atStart then m (c :: rest) else none) with
    | some r => some r
    | none => findAtLineStart m (c = 0x0A) rest

/-- The captures of `descRe.FindStringSubmatch(line)`. -/
def descRe (line : Text) : Option Text := findAtLineStart descAt true line

/-- The captures of `paramRe.FindStringSubmatch(line)`. -/
def paramRe (line : Text) : Option (Text × Text × Text × Text) :=
  findAtLineStart paramAt true line

/-- The captures of `outputRe.FindStringSubmatch(line)`. -/
def outputRe (line : Text) : Option (Text × Text) := findAtLineStart outputAt true line

/-- Go `path.Base`. -/
def pathBase (path : Text) : Text :=
  if path = [] then [0x2E]
  else
    let p := (path.reverse.dropWhile (fun c => c = 0x2F)).reverse
    let last := (p.reverse.takeWhile (fun c => c ≠ 0x2F)).reverse
    if last = [] then [0x2F] else last

/-- The lines `<name>=<5+index>` that `newScript` writes for the output
defs, `idx` being the index of the first def of the list. -/
def outputFdLines : List ScriptDef → Nat → Text
  | [], _ => []
  | d :: rest, idx =>
    (d.Name ++ textOf "=" ++ formatNat (5 + idx) ++ textOf "\n") ++ outputFdLines rest (idx + 1)

/-- The local state of `newScript` while it reads the source. -/
structure ParseAcc where
  script : Script
  templateBuf : Text
  helpBuf : Text
  afterLeadingComments : Bool
  deriving DecidableEq, Repr

/-- The branch of the loop of `newScript` that ends the leading comments: at
the first line that does not start with `#` the lines that bind `_clear`,
`_timeout` and the outputs to their descriptors are written. -/
def leaveComments (st : ParseAcc) (line : Text) : ParseAcc :=
  if !st.afterLeadingComments && !hasPrefix line (textOf "#") then
    { st with
      templateBuf := st.templateBuf ++ textOf "_clear=3\n_timeout=4\n"
        ++ outputFdLines st.script.OutputDefs 0
      afterLeadingComments := true }
  else st

/-- The part of the loop of `newScript` that matches a line of the leading
comments against the three patterns. -/
def matchEntry (env : Env) (st : ParseAcc) (line : Text) : Result ParseAcc :=
  match descRe line with
  | some m =>
    .ok { st with
      script := { st.script with Desc := st.script.Desc ++ trimSpace m }
      helpBuf := st.helpBuf ++ line }
  | none =>
    match paramRe line with
    | some (name, ty, dflt, desc) =>
      let paramDef : ScriptDef :=
        { Name := name, Type_ := ty, DefaultStr := dflt, Default := .nil, Desc := desc }
      match paramDef.makeDefault env with
      | .error msg => .error msg
      | .panic => .panic
      | .ok paramDef =>
        .ok { st with
          script := { st.script with ParamDefs := st.script.ParamDefs ++ [paramDef] }
          helpBuf := st.helpBuf ++ line }
    | none =>
      match outputRe line with
      | some (name, ty) =>
        let outputDef : ScriptDef :=
          { Name := name, Type_ := ty, DefaultStr := [], Default := .nil, Desc := [] }
        .ok { st with
          script := { st.script with OutputDefs := st.script.OutputDefs ++ [outputDef] }
          helpBuf := st.helpBuf ++ line }
      | none => .ok st

/-- The body of the loop of `newScript` for one line that `ReadString`
returned without error. -/
def newScriptLine (env : Env) (st : ParseAcc) (line : Text) : Result ParseAcc :=
  let st := leaveComments st line
  let st := { st with templateBuf := st.templateBuf ++ line }
  if st.afterLeadingComments then .ok st else matchEntry env st line

/-- The loop of `newScript` over the lines of the source. -/
def newScriptLoop (env : Env) : ParseAcc → List Text → Result ParseAcc
  | st, [] => .ok st
  | st, line :: rest =>
    match newScriptLine env st line with
    | .ok st1 => newScriptLoop env st1 rest
    | .error msg => .error msg
    | .panic => .panic

/-- The function `newScript` of script.go; `now` is the value of
`time.Now().Unix()`. The loop ends at `io.EOF`, which `ReadString` returns
together with whatever follows the last newline. -/
def newScript (env : Env) (now : Int) (scriptPath source : Text) : Result Script :=
  let script : Script :=
    { Name := pathBase scriptPath, Help := [], Desc := [], ParamDefs := [], OutputDefs := [],
      Path := scriptPath, Template := [], ParsedTs := 0 }
  match newScriptLoop env
      { script := script, templateBuf := [], helpBuf := [], afterLeadingComments := false }
      (readLines source) with
  | .error msg => .error msg
  | .panic => .panic
  | .ok st =>
    let script := { st.script with Help := st.helpBuf }
    match env.tpl.parse script.Name st.templateBuf with
    | some tplErr => .error tplErr
    | none => .ok { script with Template := st.templateBuf, ParsedTs := now }

/-! ## run.go and server.go -/

/-- The struct `Request`, without its transport. -/
structure Request where
  ScriptName : Text
  Params : GoMap Text
  Ts : Int
  RemoteAddr : Text
  deriving DecidableEq, Repr

/-- The struct `ScriptRun`, without its command, channel and pipe ends. An
output buffer is its content; a lock is its state (held or not). -/
structure ScriptRun where
  Script : Script
  Request : Request
  Id : Text
  LogId : Text
  ExitCode : Int
  BashScript : Text
  TimeoutSetTs : Int
  Timeout : Nat
  Params : GoMap Value
  Outputs : List Text
  OutputLocks : List Bool
  StartTs : Int
  FinishTs : Int
  Finished : Bool
  deriving DecidableEq, Repr

/-- The struct `ScriptRunStatus`. The params are kept as typed values: their
rendering by the verb `%v` is not modelled. -/
structure ScriptRunStatus where
  ScriptName : Text
  Id : Text
  ScriptTs : Int
  Params : GoMap Value
  Outputs : GoMap Text
  TimeoutSetTs : Int
  StartTs : Int
  FinishTs : Int
  Finished : Bool
  ExitCode : Int
  deriving DecidableEq, Repr

/-- The struct `Response`; `Error` holds the message of the error value. -/
structure Response where
  StatusCode : Int
  Body : Text
  Error : Option Text
  ErrorStr : Text
  RunStatii : List ScriptRunStatus
  deriving DecidableEq, Repr

/-- The struct `Server`, without its locks. -/
structure Server where
  Scripts : GoMap Script
  ScriptRuns : List ScriptRun
  deriving DecidableEq, Repr

/-- What one call of `Handle` reads from outside the server: the clock
`time.Now().Unix()`, the outcome of `getUuid()`, and for each run the error of
`ScriptRun.kill`, if any. -/
structure World where
  now : Int
  uuid : Result Text
  kill : ScriptRun → Option Text

/-- The constant `VERSION` of main.go. -/
def VERSION : Text := textOf "1.6"

/-- The value of a Go `int64` computation whose exact result is `i`. -/
def wrapInt64 (i : Int) : Int := (i + 2 ^ 63) % 2 ^ 64 - 2 ^ 63

/-- Go `strconv.ParseUint(s, 10, 64)`. -/
def parseUint (s : Text) : Option Nat :=
  if s = [] ∨ !s.all isDigit then none
  else if digitsVal s < 2 ^ 64 then some (digitsVal s) else none

/-- The loop of `ScriptRun.Status` over the output buffers: the map from
output name to content. Each turn takes `OutputLocks[outputIdx]` and then
reads `OutputDefs[outputIdx]`; indexing either out of range panics (`none`). -/
def statusOutputs (defs : List ScriptDef) (locks : List Bool) :
    List Text → Nat → GoMap Text → Option (GoMap Text)
  | [], _, m => some m
  | out :: rest, idx, m =>
    if idx < locks.length then
      match defs.get? idx with
      | none => none
      | some d => statusOutputs defs locks rest (idx + 1) (m.set d.Name out)
    else none

/-- The method `ScriptRun.Status` of run.go; `none` is a panic. -/
def ScriptRun.Status (self : ScriptRun) : Option ScriptRunStatus :=
  (statusOutputs self.Script.OutputDefs self.OutputLocks self.Outputs 0 []).map fun outs =>
    { ScriptName := self.Script.Name, Id := self.Id, ScriptTs := self.Script.ParsedTs,
      Params := self.Params, Outputs := outs, TimeoutSetTs := self.TimeoutSetTs,
      StartTs := self.StartTs, FinishTs := self.FinishTs, Finished := self.Finished,
      ExitCode := self.ExitCode }

/-- The body of the loop of `ScriptRun.readOutput` for one line read from the
pipe of descriptor `fd`, at clock reading `now`; `none` is a panic (an index
out of range). Logging is not modelled. -/
def ScriptRun.readOutputLine (self : ScriptRun) (now : Int) (fd : Int) (line : Text) :
    Option ScriptRun :=
  if fd = 1 then some self
  else if fd = 2 then some self
  else if fd = 3 then
    let outputIdx := self.Script.getOutputIdxByName (trimSpace line)
    if outputIdx > 0 then
      if outputIdx.toNat < self.Outputs.length then
        some { self with Outputs := self.Outputs.set outputIdx.toNat [] }
      else none
    else some self
  else if fd = 4 then
    match parseUint (trimSpace line) with
    | some timeoutVal => some { self with Timeout := timeoutVal, TimeoutSetTs := now }
    | none => some self
  else
    let outputIdx := fd - 5
    if outputIdx < 0 then none
    else
      match self.Script.OutputDefs.get? outputIdx.toNat, self.Outputs.get? outputIdx.toNat with
      | some outputDef, some outputBuf =>
        if outputIdx.toNat < self.OutputLocks.length then
          let trimLine := trimSpace line
          let newBuf := if outputDef.Type_ = textOf "w" then trimLine else outputBuf ++ line
          some { self with Outputs := self.Outputs.set outputIdx.toNat newBuf }
        else none
      | _, _ => none

/-- The loop of `ScriptRun.readOutput` over the lines of its pipe; `now k` is
the clock reading at line `k`. -/
def readOutputLoop (now : Nat → Int) (fd : Int) : Nat → ScriptRun → List Text → Option ScriptRun
  | _, run, [] => some run
  | k, run, line :: rest =>
    match run.readOutputLine (now k) fd line with
    | none => none
    | some run1 => readOutputLoop now fd (k + 1) run1 rest

/-- The method `ScriptRun.readOutput` of run.go on a pipe that delivers the
bytes `data` and then ends: the loop stops at the first read error, so that
bytes after the last newline are not processed. -/
def ScriptRun.readOutput (self : ScriptRun) (now : Nat → Int) (fd : Int) (data : Text) :
    Option ScriptRun :=
  readOutputLoop now fd 0 self (readLines data)

/-- One line arriving on one of the pipes of a run. -/
structure PipeRecord where
  fd : Int
  line : Text
  now : Int
  deriving DecidableEq, Repr

/-- The readers of a run handling the lines of an interleaving of their
pipes, one after the other. -/
def ScriptRun.readRecords : ScriptRun → List PipeRecord → Option ScriptRun
  | run, [] => some run
  | run, r :: rest =>
    match run.readOutputLine r.now r.fd r.line with
    | none => none
    | some run1 => run1.readRecords rest

/-- The method `Server.getRunById` of server.go. -/
def Server.getRunById (self : Server) (id : Text) : Option ScriptRun :=
  self.ScriptRuns.find? (fun r => r.Id = id)

/-- The method `Server.purgeScriptRuns` of server.go at clock reading `now`:
the new server and the returned count. The comparison is made on `int64`. -/
def Server.purgeScriptRuns (self : Server) (now : Int) (maxAge : Nat) : Server × Int :=
  let newScriptRuns := self.ScriptRuns.foldl
    (fun acc scriptRun =>
      if !scriptRun.Finished
          || decide (wrapInt64 (now - scriptRun.FinishTs) ≤ wrapInt64 (maxAge % 2 ^ 64)) then
        acc ++ [scriptRun]
      else acc)
    []
  let numPurged : Int := (self.ScriptRuns.length : Int) - (newScriptRuns.length : Int)
  ({ self with ScriptRuns := newScriptRuns }, numPurged)

/-- The method `Server.getScriptHelp` of server.go; the scripts are visited
in the order of the list that stands for the map. -/
def Server.getScriptHelp (self : Server) : Text :=
  self.Scripts.foldl
    (fun helpBuf entry =>
      helpBuf ++ entry.1 ++ textOf "\n" ++ formatInt entry.2.ParsedTs ++ textOf "\n"
        ++ entry.2.Help ++ textOf "\n")
    (textOf "\n")

/-- The statuses of a list of runs; `none` is a panic. -/
def statusAll : List ScriptRun → Option (List ScriptRunStatus)
  | [] => some []
  | r :: rest =>
    match r.Status, statusAll rest with
    | some st, some sts => some (st :: sts)
    | _, _ => none

/-- The message of the error for an unknown run id. -/
def noSuchRun (id : Text) : Text :=
  textOf "ScriptRun with id " ++ id ++ textOf " does not exist"

/-- The method `Server.getRunStatii` of server.go. -/
def Server.getRunStatii (self : Server) (id : Text) : Result (List ScriptRunStatus) :=
  if id ≠ [] then
    match self.getRunById id with
    | none => .error (noSuchRun id)
    | some scriptRun =>
      match scriptRun.Status with
      | none => .panic
      | some st => .ok [st]
  else
    match statusAll self.ScriptRuns with
    | none => .panic
    | some sts => .ok sts

/-- The method `Server.getBashScript` of server.go. -/
def Server.getBashScript (self : Server) (id : Text) : Result Text :=
  match self.getRunById id with
  | none => .error (noSuchRun id)
  | some scriptRun => .ok scriptRun.BashScript

/-- The method `Server.killRun` of server.go: the returned error, if any. -/
def Server.killRun (self : Server) (w : World) (id : Text) : Option Text :=
  match self.getRunById id with
  | none => some (noSuchRun id)
  | some scriptRun => w.kill scriptRun

/-- The method `Server.makeScriptRun` of server.go: the new server and the
run, or the returned error. -/
def Server.makeScriptRun (env : Env) (w : World) (self : Server) (script : Script)
    (req : Request) : Result (Server × ScriptRun) :=
  match script.normalizeParams env req.Params with
  | .error msg => .error msg
  | .panic => .panic
  | .ok params =>
    match w.uuid with
    | .error msg => .error msg
    | .panic => .panic
    | .ok uuid =>
      let outputLocks := List.replicate script.OutputDefs.length false
      let scriptRun : ScriptRun :=
        { Script := script, Request := req, Id := uuid,
          LogId := (req.Params.get (textOf "logid")).getD [],
          ExitCode := 0, BashScript := [], TimeoutSetTs := w.now, Timeout := 0,
          Params := params, Outputs := outputLocks.map (fun _ => []),
          OutputLocks := outputLocks, StartTs := 0, FinishTs := 0, Finished := false }
      match env.tpl.execute script.Template scriptRun.Params with
      | .error msg => .error msg
      | .panic => .panic
      | .ok bashScript =>
        let scriptRun := { scriptRun with BashScript := bashScript }
        .ok ({ self with ScriptRuns := self.ScriptRuns ++ [scriptRun] }, scriptRun)

/-- A response that reports an error. -/
def errorResponse (code : Int) (msg : Text) : Response :=
  { StatusCode := code, Body := [], Error := some msg, ErrorStr := msg, RunStatii := [] }

/-- A response without error. -/
def okResponse (body : Text) (statii : List ScriptRunStatus) : Response :=
  { StatusCode := 200, Body := body, Error := none, ErrorStr := [], RunStatii := statii }

/-- The second half of `Server.Handle`, which handles script commands: the
catalog lookup, the making of the run and the first status snapshot. -/
def Server.handleScript (env : Env) (w : World) (self : Server) (req : Request) :
    Result (Server × Response) :=
  match self.Scripts.get req.ScriptName with
  | none => .ok (self, errorResponse 404 (textOf "Script or command does not exist"))
  | some script =>
    match self.makeScriptRun env w script req with
    | .error msg => .ok (self, errorResponse 400 msg)
    | .panic => .panic
    | .ok (server, scriptRun) =>
      match scriptRun.Status with
      | none => .panic
      | some st => .ok (server, okResponse [] [st])

/-- The method `Server.Handle` of server.go: the server after the call and
the response, or a panic. The supervisor that `Handle` starts for a new run
works after the call and is not part of it. -/
def Server.Handle (env : Env) (w : World) (self : Server) (req : Request) :
    Result (Server × Response) :=
  let id := (req.Params.get (textOf "id")).getD []
  if req.ScriptName = textOf "help" then
    .ok (self, okResponse self.getScriptHelp [])
  else if req.ScriptName = textOf "status" then
    match self.getRunStatii id with
    | .error msg => .ok (self, errorResponse 400 msg)
    | .panic => .panic
    | .ok statii => .ok (self, okResponse [] statii)
  else if req.ScriptName = textOf "view" then
    match self.getBashScript id with
    | .error msg => .ok (self, errorResponse 400 msg)
    | .panic => .panic
    | .ok bashScript => .ok (self, okResponse bashScript [])
  else if req.ScriptName = textOf "kill" then
    match self.killRun w id with
    | some msg => .ok (self, errorResponse 400 msg)
    | none => .ok (self, okResponse (textOf "Sent kill to ScriptRun " ++ id) [])
  else if req.ScriptName = textOf "version" then
    .ok (self, okResponse VERSION [])
  else if req.ScriptName = textOf "purge" then
    let purged := self.purgeScriptRuns w.now 0
    .ok (purged.1, okResponse
      (textOf "Purged " ++ formatInt purged.2 ++ textOf " ScriptRuns from status history") [])
  else self.handleScript env w req

/-- The names that `Handle` treats as built-in commands. -/
def builtins : List Text :=
  [textOf "help", textOf "status", textOf "view", textOf "kill", textOf "version", textOf "purge"]

/-- The value of a call that returned one, if it did. -/
def Result.toOption {α : Type} : Result α → Option α
  | .ok a => some a
  | _ => none

/-! ## A small template engine and the scripts of the scenarios -/

/-- Where the reading of a template text stands: in plain text, after one
opening brace, inside an action, or inside an action after one closing
brace. -/
inductive TplMode
  | text
  | open1
  | action (acc : Text)
  | close1 (acc : Text)
  deriving DecidableEq, Repr

/-- What the action `\x7b\x7b.name\x7d\x7d` prints: the string the param
holds. Actions of any other form, and params that hold no string, are outside
this engine and reported as errors. -/
def fieldAction (params : Option (GoMap Value)) (action : Text) : Result Text :=
  match trimSpace action with
  | [] => .error (textOf "unsupported action")
  | c :: name =>
    if c = 0x2E ∧ name ≠ [] ∧ name.all (fun b => !reSpace b && b ≠ 0x2E && b ≠ 0x7C) then
      match params with
      | none => .ok []
      | some m =>
        match m.get name with
        | some (.str v) => .ok v
        | _ => .error (textOf "unsupported value")
    else .error (textOf "unsupported action")

/-- The rendering of a template text whose actions are all of the form
`\x7b\x7b.name\x7d\x7d`; without params only the form of the text is
checked. -/
def fieldRender (params : Option (GoMap Value)) : TplMode → Text → Result Text
  | .text, [] => .ok []
  | .open1, [] => .ok [0x7B]
  | _, [] => .error (textOf "unclosed action")
  | .text, c :: rest =>
    if c = 0x7B then fieldRender params .open1 rest
    else
      match fieldRender params .text rest with
      | .ok out => .ok (c :: out)
      | r => r
  | .open1, c :: rest =>
    if c = 0x7B then fieldRender params (.action []) rest
    else
      match fieldRender params .text rest with
      | .ok out => .ok (0x7B :: c :: out)
      | r => r
  | .action acc, c :: rest =>
    if c = 0x7D then fieldRender params (.close1 acc) rest
    else fieldRender params (.action (acc ++ [c])) rest
  | .close1 acc, c :: rest =>
    if c = 0x7D then
      match fieldAction params acc, fieldRender params .text rest with
      | .ok v, .ok out => .ok (v ++ out)
      | .ok _, r => r
      | .error msg, _ => .error msg
      | .panic, _ => .panic
    else fieldRender params (.action (acc ++ [0x7D, c])) rest

/-- A template engine that agrees with `text/template` on the templates
whose only actions are `\x7b\x7b.name\x7d\x7d` with `name` a param that holds
a string, among them every text without an opening delimiter, which is
rendered unchanged. It refuses everything else. -/
def fieldEngine : TemplateEngine where
  parse := fun _ text =>
    match fieldRender none .text text with
    | .ok _ => none
    | .error msg => some msg
    | .panic => some []
  execute := fun text params => fieldRender (some params) .text text

/-- A POSIX platform with the small template engine. -/
def posixEnv : Env := { windows := false, tpl := fieldEngine }

/-- The source of the script `echo.sh` of scenarios S2 and S3. -/
def echoSource : Text :=
  textOf "# @param who string \x60\"world\"\x60 target\necho \x7b\x7b.who\x7d\x7d\n"

/-- The script that `newScript` makes of `echoSource` at clock reading 7. -/
def echoScript : Script :=
  { Name := textOf "echo.sh"
    Help := textOf "# @param who string \x60\"world\"\x60 target\n"
    Desc := []
    ParamDefs :=
      [{ Name := textOf "who", Type_ := textOf "string", DefaultStr := textOf "\"world\"",
         Default := .str (textOf "\x27world\x27"), Desc := textOf "target" }]
    OutputDefs := []
    Path := textOf "./echo.sh"
    Template := textOf "# @param who string \x60\"world\"\x60 target\n_clear=3\n_timeout=4\necho \x7b\x7b.who\x7d\x7d\n"
    ParsedTs := 7 }

/-- A server whose catalog holds `echo.sh` and whose registry is empty. -/
def echoServer : Server := { Scripts := [(textOf "echo.sh", echoScript)], ScriptRuns := [] }

/-- A clock reading, a UUID source that succeeds and kills that succeed. -/
def calmWorld : World := { now := 100, uuid := .ok (textOf "run-1"), kill := fun _ => none }

/-- A request for `echo.sh` with the raw value `raw` for `who`. -/
def echoRequest (raw : Text) : Request :=
  { ScriptName := textOf "echo.sh", Params := [(textOf "who", raw)], Ts := 100, RemoteAddr := [] }

/-- A source that declares the param `x` twice. -/
def dupSource : Text :=
  textOf "# @param x unsafe \x60a\x60 first\n# @param x unsafe \x60b\x60 second\necho hi\n"

/-- The first declaration of `x` in `dupSource`. -/
def dupFirst : ScriptDef :=
  { Name := textOf "x", Type_ := textOf "unsafe", DefaultStr := textOf "a",
    Default := .str (textOf "a"), Desc := textOf "first" }

/-- The script that `newScript` makes of `dupSource` at clock reading 7. -/
def dupScript : Script :=
  { Name := textOf "dup.sh"
    Help := textOf "# @param x unsafe \x60a\x60 first\n# @param x unsafe \x60b\x60 second\n"
    Desc := []
    ParamDefs :=
      [dupFirst,
       { Name := textOf "x", Type_ := textOf "unsafe", DefaultStr := textOf "b",
         Default := .str (textOf "b"), Desc := textOf "second" }]
    OutputDefs := []
    Path := textOf "./dup.sh"
    Template := textOf "# @param x unsafe \x60a\x60 first\n# @param x unsafe \x60b\x60 second\n_clear=3\n_timeout=4\necho hi\n"
    ParsedTs := 7 }

/-- A run of `echo.sh` with the given id that finished at `finishTs`. -/
def finishedRun (id : Text) (finishTs : Int) : ScriptRun :=
  { Script := echoScript, Request := echoRequest [], Id := id, LogId := [], ExitCode := 0,
    BashScript := [], TimeoutSetTs := 0, Timeout := 0, Params := [], Outputs := [],
    OutputLocks := [], StartTs := 0, FinishTs := finishTs, Finished := true }

/-- A run of `echo.sh` with the given id that has not finished. -/
def runningRun (id : Text) : ScriptRun :=
  { finishedRun id 0 with Finished := false }

/-- A request for a command without params. -/
def commandRequest (name : Text) : Request :=
  { ScriptName := name, Params := [], Ts := 100, RemoteAddr := [] }

/-- A registry of four runs and an empty catalog. -/
def fourRuns : Server :=
  { Scripts := [], ScriptRuns :=
      [finishedRun (textOf "a") 90, runningRun (textOf "b"), finishedRun (textOf "c") 100,
        finishedRun (textOf "d") 50] }

/-- A registry whose only run finished at clock reading 100. -/
def oneFinished : Server :=
  { Scripts := [], ScriptRuns := [finishedRun (textOf "a") 100] }

/-- Whether a text is one record as a line reader delivers it: it ends with
a newline and holds no other newline. -/
def isLine (r : Text) : Bool := r.getLast? = some 0x0A && !r.dropLast.contains 0x0A

/-- The run that `makeScriptRun` builds for a request without params, under
the small template engine and the calm world. -/
def startRun (script : Script) : Option ScriptRun :=
  ((Server.makeScriptRun posixEnv calmWorld { Scripts := [], ScriptRuns := [] } script
    (commandRequest script.Name)).toOption).map (fun p => p.2)

/-- The source of the script of scenario S5. -/
def appendSource : Text :=
  textOf "# @output a1 a\n# @output a2 w\necho x >&$a1; echo y >&$a1; echo z >&$a2; echo w >&$a2\n"

/-- The source of the script of scenario S6. -/
def clearSource : Text :=
  textOf "# @output a1 a\necho x >&$a1; echo a1 >&$_clear; echo y >&$a1\n"

/-- The outputs of a run, by name, as a status snapshot shows them. -/
def ScriptRun.outputsByName (run : ScriptRun) : Option (GoMap Text) :=
  run.Status.map (fun st => st.Outputs)

/-- The script that `newScript` makes of `appendSource` at clock reading 7. -/
def appendScript : Script :=
  { Name := textOf "append.sh"
    Help := textOf "# @output a1 a\n# @output a2 w\n"
    Desc := []
    ParamDefs := []
    OutputDefs :=
      [{ Name := textOf "a1", Type_ := textOf "a", DefaultStr := [], Default := .nil, Desc := [] },
       { Name := textOf "a2", Type_ := textOf "w", DefaultStr := [], Default := .nil, Desc := [] }]
    Path := textOf "./append.sh"
    Template := textOf "# @output a1 a\n# @output a2 w\n_clear=3\n_timeout=4\na1=5\na2=6\necho x >&$a1; echo y >&$a1; echo z >&$a2; echo w >&$a2\n"
    ParsedTs := 7 }

/-- The run that `makeScriptRun` builds for `appendScript`. -/
def appendRun : ScriptRun :=
  { Script := appendScript, Request := commandRequest (textOf "append.sh"),
    Id := textOf "run-1", LogId := [], ExitCode := 0, BashScript := appendScript.Template,
    TimeoutSetTs := 100, Timeout := 0, Params := [], Outputs := [[], []],
    OutputLocks := [false, false], StartTs := 0, FinishTs := 0, Finished := false }

/-- The script that `newScript` makes of `clearSource` at clock reading 7. -/
def clearScript : Script :=
  { Name := textOf "clear.sh"
    Help := textOf "# @output a1 a\n"
    Desc := []
    ParamDefs := []
    OutputDefs :=
      [{ Name := textOf "a1", Type_ := textOf "a", DefaultStr := [], Default := .nil, Desc := [] }]
    Path := textOf "./clear.sh"
    Template := textOf "# @output a1 a\n_clear=3\n_timeout=4\na1=5\necho x >&$a1; echo a1 >&$_clear; echo y >&$a1\n"
    ParsedTs := 7 }

/-- The run that `makeScriptRun` builds for `clearScript`. -/
def clearRun : ScriptRun :=
  { Script := clearScript, Request := commandRequest (textOf "clear.sh"),
    Id := textOf "run-1", LogId := [], ExitCode := 0, BashScript := clearScript.Template,
    TimeoutSetTs := 100, Timeout := 0, Params := [], Outputs := [[]],
    OutputLocks := [false], StartTs := 0, FinishTs := 0, Finished := false }

/-- The content of an output buffer after the records `recs`, for a buffer
that held `buf`: an overwrite output holds the trimmed last record, any other
output what it held followed by the records. -/
def bufferAfter (d : ScriptDef) (buf : Text) (recs : List Text) : Text :=
  if d.Type_ = textOf "w" then
    match recs.getLast? with
    | none => buf
    | some l => trimSpace l
  else buf ++ recs.flatten

/-- What `newScript` establishes for the param defs: the typed default of each
is what `toInterfaceVal` makes of its default text. -/
def DefaultsMade (env : Env) (defs : List ScriptDef) : Prop :=
  ∀ d ∈ defs, d.toInterfaceVal env d.DefaultStr = .ok d.Default

/-! ## The supervisor loop, the pipes and the locks of a run -/

/-- The declaration that decides what `normalizeParams` leaves under the name
`n`: the loop writes the map entry once for each def with that name, so the
last def with the name has the last word. -/
def lastNamed : List ScriptDef → Text → Option ScriptDef
  | [], _ => none
  | d :: rest, n =>
    match lastNamed rest n with
    | some d1 => some d1
    | none => if d.Name = n then some d else none

/-- What wakes the loop of `runWithTimeout`: the child has exited (`done`);
the reader of `_timeout` has assigned `timeoutVal` to `Timeout` and the clock
reading `now` to `TimeoutSetTs` and sent its notification (`TimeoutSet`); or
the timer has fired, the clock reading taken in that branch being `now`. -/
inductive WakeUp
  | done
  | timeoutSet (timeoutVal : Nat) (now : Int)
  | elapsed (now : Int)
  deriving DecidableEq, Repr

/-- The state of `runWithTimeout` in its loop: the run, the local `killed`
and whether the loop has been left. -/
structure Supervisor where
  run : ScriptRun
  killed : Bool
  left : Bool
  deriving DecidableEq, Repr

/-- The number of seconds `waitSecs` that the loop of `runWithTimeout` waits
for. -/
def waitSecs (timeout : Nat) : Nat := if timeout = 0 then 3600 else timeout

/-- The duration `time.Duration(waitSecs) * time.Second` handed to
`time.After`, in nanoseconds: a conversion to `int64` and an `int64`
product. -/
def waitNanos (timeout : Nat) : Int :=
  wrapInt64 (wrapInt64 (waitSecs timeout % 2 ^ 64) * 1000000000)

/-- The test of the timer branch of `runWithTimeout` at clock reading `now`:
whether the kill signal is sent. The comparison is made on `int64`. -/
def timedOut (st : Supervisor) (now : Int) : Bool :=
  !st.killed && decide (st.run.Timeout > 0)
    && decide (wrapInt64 (now - st.run.TimeoutSetTs) ≥ wrapInt64 (st.run.Timeout % 2 ^ 64))

/-- One turn of the loop of `runWithTimeout`: the state after it and whether
the kill signal was sent in it. -/
def Supervisor.step (st : Supervisor) (ev : WakeUp) : Supervisor × Bool :=
  if st.left then (st, false)
  else
    match ev with
    | .done => ({ st with left := true }, false)
    | .timeoutSet timeoutVal now =>
      ({ st with run := { st.run with Timeout := timeoutVal, TimeoutSetTs := now } }, false)
    | .elapsed now =>
      if timedOut st now then ({ st with killed := true }, true) else (st, false)

/-- The loop of `runWithTimeout` over a sequence of wake-ups: the final state
and the clock readings at which the kill signal was sent. -/
def Supervisor.steps : Supervisor → List WakeUp → Supervisor × List Int
  | st, [] => (st, [])
  | st, ev :: rest =>
    let r := st.step ev
    let more := Supervisor.steps r.1 rest
    match ev with
    | .elapsed now => (more.1, if r.2 then now :: more.2 else more.2)
    | _ => (more.1, more.2)

/-- The supervisor of a run as `runWithTimeout` starts it. -/
def ScriptRun.supervisor (run : ScriptRun) : Supervisor :=
  { run := run, killed := false, left := false }

/-- One end of the pipe made for the descriptor `fd`. -/
structure PipeEnd where
  fd : Int
  write : Bool
  deriving DecidableEq, Repr

/-- What `makePipes` sets up: the slots of `Cmd.ExtraFiles`, the ends kept
in `ExtraPipes`, and the descriptors for which a reader was started. -/
structure Pipes where
  ExtraFiles : List (Option PipeEnd)
  ExtraPipes : List PipeEnd
  readers : List Int
  deriving DecidableEq, Repr

/-- The loop of `ScriptRun.makePipes` over the descriptors still to do;
`pipeErr fd` is the error of the pipe call for `fd`, if any. The loop returns
what it has set up so far together with the error it returns, if any: a
failed pipe call ends it before anything is done for that descriptor. An
index out of the range of `ExtraFiles` panics (`none`). -/
def makePipesLoop (pipeErr : Int → Option Text) : List Int → Pipes → Option (Pipes × Option Text)
  | [], p => some (p, none)
  | fd :: rest, p =>
    match pipeErr fd with
    | some msg => some (p, some msg)
    | none =>
      if fd = 1 ∨ fd = 2 then
        makePipesLoop pipeErr rest { p with readers := p.readers ++ [fd] }
      else if 0 ≤ fd - 3 ∧ (fd - 3).toNat < p.ExtraFiles.length then
        makePipesLoop pipeErr rest
          { ExtraFiles := p.ExtraFiles.set (fd - 3).toNat (some { fd := fd, write := true })
            ExtraPipes := p.ExtraPipes ++ [{ fd := fd, write := false }, { fd := fd, write := true }]
            readers := p.readers ++ [fd] }
      else none

/-- The descriptors `1, ..., last` in the order of the loop of `makePipes`. -/
def fdsUpTo (last : Nat) : List Int :=
  (List.range last).map (fun (k : Nat) => (k : Int) + 1)

/-- The method `ScriptRun.makePipes` of run.go: what it has set up when it
returns, and the error it returns, if any; `none` is a panic. -/
def ScriptRun.makePipes (self : ScriptRun) (pipeErr : Int → Option Text) :
    Option (Pipes × Option Text) :=
  makePipesLoop pipeErr (fdsUpTo (4 + self.Outputs.length))
    { ExtraFiles := List.replicate (2 + self.Outputs.length) none, ExtraPipes := [],
      readers := [] }

/-- What a piece of code does to the output buffers and their locks. -/
inductive Access
  | lock (i : Nat)
  | unlock (i : Nat)
  | write (i : Nat)
  | reset (i : Nat)
  | read (i : Nat)
  deriving DecidableEq, Repr

/-- The accesses that the body of the loop of `ScriptRun.readOutput` makes
for one line of the pipe of descriptor `fd`, in program order. -/
def ScriptRun.readOutputAccesses (self : ScriptRun) (fd : Int) (line : Text) : List Access :=
  if fd = 1 then []
  else if fd = 2 then []
  else if fd = 3 then
    let outputIdx := self.Script.getOutputIdxByName (trimSpace line)
    if outputIdx > 0 then [.reset outputIdx.toNat] else []
  else if fd = 4 then []
  else
    let outputIdx := (fd - 5).toNat
    match self.Script.OutputDefs.get? outputIdx with
    | none => []
    | some outputDef =>
      [.lock outputIdx]
        ++ (if outputDef.Type_ = textOf "w" then [.reset outputIdx] else [])
        ++ [.write outputIdx, .unlock outputIdx]

/-- The accesses that the loop of `ScriptRun.Status` makes, `idx` being the
index of the first buffer of the list. -/
def statusAccesses : List Text → Nat → List Access
  | [], _ => []
  | _ :: rest, idx => [.lock idx, .read idx, .unlock idx] ++ statusAccesses rest (idx + 1)

/-- Whether every access to a buffer in a sequence of accesses of one task is
made while that task holds the lock of the buffer; `held` lists the locks it
holds at the start. -/
def guarded : List Nat → List Access → Bool
  | _, [] => true
  | held, .lock i :: rest => guarded (i :: held) rest
  | held, .unlock i :: rest => guarded (held.erase i) rest
  | held, .write i :: rest => held.contains i && guarded held rest
  | held, .reset i :: rest => held.contains i && guarded held rest
  | held, .read i :: rest => held.contains i && guarded held rest

/-- The source of the script `hello` of scenario S1, with an output, a line
of code and an annotation after the line of code added. -/
def helloSource : Text :=
  textOf "#!/bin/bash\n# @desc greet\n# @param who string \x60\"world\"\x60 target\n# @output log a\necho hello\n# @output late w\n"

/-- The newline-terminated lines of `helloSource`. -/
def helloLines : List Text :=
  [textOf "#!/bin/bash\n", textOf "# @desc greet\n",
   textOf "# @param who string \x60\"world\"\x60 target\n", textOf "# @output log a\n",
   textOf "echo hello\n", textOf "# @output late w\n"]

/-- A catalog that holds the script `echo.sh` under the names of two built-in
commands as well. -/
def shadowServer : Server :=
  { Scripts := [(textOf "purge", echoScript), (textOf "help", echoScript),
      (textOf "echo.sh", echoScript)],
    ScriptRuns := [finishedRun (textOf "a") 90, runningRun (textOf "b")] }

/-- What the entry of the result of `normalizeParams` under the name `n`
is, given the def that decides it: the converted raw value when the name is
supplied, the typed default when it is absent, and no entry when no def has
the name. -/
def paramEntry (env : Env) (m : GoMap Text) (decl : Option ScriptDef) (n : Text)
    (entry : Option Value) : Prop :=
  match decl with
  | none => entry = none
  | some d =>
    match m.get n with
    | some raw => ∃ v, d.toInterfaceVal env raw = .ok v ∧ entry = some v
    | none => entry = some d.Default

/-- The leading comment block of a source: its lines up to the first line
that does not start with `#`. -/
def leadingBlock (lines : List Text) : List Text :=
  lines.takeWhile (fun l => hasPrefix l (textOf "#"))

/-- Whether a line matches one of the three annotation patterns. -/
def isAnnotation (l : Text) : Bool :=
  (descRe l).isSome || (paramRe l).isSome || (outputRe l).isSome

/-- The script that `newScript` makes of `helloSource` at clock reading 7. -/
def helloScript : Script :=
  { Name := textOf "hello"
    Help := textOf "# @desc greet\n# @param who string \x60\"world\"\x60 target\n# @output log a\n"
    Desc := textOf "greet"
    ParamDefs :=
      [{ Name := textOf "who", Type_ := textOf "string", DefaultStr := textOf "\"world\"",
         Default := .str (textOf "\x27world\x27"), Desc := textOf "target" }]
    OutputDefs :=
      [{ Name := textOf "log", Type_ := textOf "a", DefaultStr := [], Default := .nil, Desc := [] }]
    Path := textOf "./hello"
    Template := textOf "#!/bin/bash\n# @desc greet\n# @param who string \x60\"world\"\x60 target\n# @output log a\n_clear=3\n_timeout=4\nlog=5\necho hello\n# @output late w\n"
    ParsedTs := 7 }

/-- The pipe calls when none of them fails. -/
def noPipeError : Int → Option Text := fun _ => none

/-- The pipe calls when the one for the descriptor `k` fails with the error
`msg`, as `os.Pipe` does when the process has no file descriptor left. -/
def pipeErrorAt (k : Int) (msg : Text) : Int → Option Text :=
  fun fd => if fd = k then some msg else none

/-! # Theorems -/

/-! ## Shell quoting -/

theorem ofNat_val (n : Nat) : ((Fin.ofNat n : Byte)).val = n % 256 := rfl

theorem foldl_escapeRune_posix (rs : List Nat) (acc : Text) :
    rs.foldl (escapeRune false) acc
      = acc ++ rs.flatMap (fun r => (if r = 0x27 then [0x27, 0x5C, 0x27] else []) ++ encodeRune r) := by
  induction rs generalizing acc with
  | nil => simp
  | cons r rs ih =>
    simp only [List.foldl_cons, ih, List.flatMap_cons, escapeRune]
    by_cases h : r = 0x27 <;> simp [h]

theorem quote_eq_ofNat {n : Nat} (h : (0x27 : Byte) = Fin.ofNat n) : n % 256 = 0x27 := by
  have := congrArg Fin.val h
  rw [ofNat_val] at this
  exact this.symm

theorem encodeRune_no_quote (r : Nat) (h : r ≠ 0x27) : (0x27 : Byte) ∉ encodeRune r := by
  intro hmem
  unfold encodeRune at hmem
  split_ifs at hmem <;>
    simp only [List.mem_cons, List.mem_singleton, List.not_mem_nil, or_false] at hmem
  · have hq := quote_eq_ofNat hmem; omega
  · rcases hmem with h | h <;> (have hq := quote_eq_ofNat h; omega)
  · revert hmem; decide
  · rcases hmem with h | h | h <;> (have hq := quote_eq_ofNat h; omega)
  · rcases hmem with h | h | h | h <;> (have hq := quote_eq_ofNat h; omega)

theorem sd_quoted_cons (c : Byte) (rest : Text) :
    shellDecodeFrom .quoted (c :: rest)
      = if c = 0x27 then shellDecodeFrom .outside rest
        else (shellDecodeFrom .quoted rest).map (c :: ·) := rfl

theorem sd_outside_cons (c : Byte) (rest : Text) :
    shellDecodeFrom .outside (c :: rest)
      = if c = 0x27 then shellDecodeFrom .quoted rest
        else if c = 0x5C then shellDecodeFrom .escaped rest else none := rfl

theorem sd_escaped_cons (c : Byte) (rest : Text) :
    shellDecodeFrom .escaped (c :: rest)
      = if c = 0x0A then none else (shellDecodeFrom .outside rest).map (c :: ·) := rfl

theorem shellDecode_quoted_plain (t rest : Text) (h : (0x27 : Byte) ∉ t) :
    shellDecodeFrom .quoted (t ++ rest) = (shellDecodeFrom .quoted rest).map (t ++ ·) := by
  induction t with
  | nil => simp
  | cons c t ih =>
    have hc : c ≠ 0x27 := fun e => h (by simp [e])
    have ht : (0x27 : Byte) ∉ t := fun e => h (by simp [e])
    rw [List.cons_append, sd_quoted_cons, if_neg hc, ih ht, Option.map_map]
    rfl

theorem shellDecode_quoted_runes (rs : List Nat) :
    shellDecodeFrom .quoted
      (rs.flatMap (fun r => (if r = 0x27 then [0x27, 0x5C, 0x27] else []) ++ encodeRune r) ++ [0x27])
      = some (rs.flatMap encodeRune) := by
  induction rs with
  | nil => rfl
  | cons r rs ih =>
    simp only [List.flatMap_cons, List.append_assoc]
    by_cases h : r = 0x27
    · subst h
      have e : encodeRune 0x27 = [0x27] := by decide
      rw [if_pos rfl, e]
      simp only [List.cons_append, List.nil_append]
      rw [sd_quoted_cons, if_pos rfl, sd_outside_cons, if_neg (by decide), if_pos rfl,
        sd_escaped_cons, if_neg (by decide), sd_outside_cons, if_pos rfl, ih]
      rfl
    · simp only [h, if_false, List.nil_append]
      rw [shellDecode_quoted_plain _ _ (encodeRune_no_quote r h), ih]
      rfl

theorem shellDecode_escapeShellArg (s : Text) :
    shellDecode (escapeShellArg false s) = some ((runes s).flatMap encodeRune) := by
  have e : escapeShellArg false s = 0x27 ::
      ((runes s).flatMap (fun r => (if r = 0x27 then [0x27, 0x5C, 0x27] else []) ++ encodeRune r)
        ++ [0x27]) := by
    simp [escapeShellArg, foldl_escapeRune_posix]
  rw [e, shellDecode, sd_outside_cons, if_pos rfl, shellDecode_quoted_runes]

theorem first_some {b : Byte} {sz lo hi : Nat} (h : first b = some (sz, lo, hi)) :
    (sz = 2 ∧ lo = 0x80 ∧ hi = 0xBF ∧ 0xC2 ≤ b.val ∧ b.val ≤ 0xDF) ∨
    (sz = 3 ∧ 0xE0 ≤ b.val ∧ b.val ≤ 0xEF ∧ 0x80 ≤ lo ∧ hi ≤ 0xBF ∧
      (b.val = 0xE0 → lo = 0xA0) ∧ (b.val = 0xED → hi = 0x9F)) ∨
    (sz = 4 ∧ 0xF0 ≤ b.val ∧ b.val ≤ 0xF4 ∧ 0x80 ≤ lo ∧ hi ≤ 0xBF ∧
      (b.val = 0xF0 → lo = 0x90) ∧ (b.val = 0xF4 → hi = 0x8F)) := by
  unfold first at h
  split_ifs at h <;> simp only [Option.some.injEq, Prod.mk.injEq, reduceCtorEq] at h <;> omega

theorem isCont_iff (b : Byte) : isCont b = true ↔ 0x80 ≤ b.val ∧ b.val ≤ 0xBF := by
  simp [isCont]

theorem decodeRune_size_pos (b : Byte) (rest : Text) : 1 ≤ (decodeRune (b :: rest)).2 := by
  generalize hd : decodeRune (b :: rest) = d
  simp only [decodeRune] at hd
  repeat' split at hd
  all_goals subst hd
  all_goals simp

theorem decode_encode_step (b : Byte) (rest : Text)
    (h : ¬ ((decodeRune (b :: rest)).1 = runeError ∧ (decodeRune (b :: rest)).2 = 1)) :
    encodeRune (decodeRune (b :: rest)).1 ++ (b :: rest).drop (decodeRune (b :: rest)).2
      = b :: rest := by
  generalize hd : decodeRune (b :: rest) = d at h ⊢
  simp only [decodeRune] at hd
  repeat' split at hd
  all_goals subst hd
  all_goals try (exfalso; exact h ⟨rfl, rfl⟩)
  all_goals simp only [encodeRune, List.drop_succ_cons, List.drop_zero]
  · rw [if_pos (show b.val ≤ 0x7F by omega)]
    simp only [List.singleton_append, List.cons.injEq, and_true]
    apply Fin.ext; rw [ofNat_val]; omega
  all_goals
    have hs := first_some (by assumption)
    simp only [Bool.not_eq_true', Bool.not_eq_true, Bool.not_eq_false, isCont_iff, not_or, not_lt,
      List.length_cons] at *
    split_ifs <;>
    first
    | (exfalso; omega)
    | (simp only [List.cons_append, List.nil_append, List.cons.injEq, and_true]
       refine ⟨?_, ?_⟩ <;> (apply Fin.ext; rw [ofNat_val]; omega))
    | (simp only [List.cons_append, List.nil_append, List.cons.injEq, and_true]
       refine ⟨?_, ?_, ?_⟩ <;> (apply Fin.ext; rw [ofNat_val]; omega))
    | (simp only [List.cons_append, List.nil_append, List.cons.injEq, and_true]
       refine ⟨?_, ?_, ?_, ?_⟩ <;> (apply Fin.ext; rw [ofNat_val]; omega))

theorem runesFuel_valid (n : Nat) (s : Text) (hlen : s.length ≤ n)
    (hv : validFuel n s = true) : (runesFuel n s).flatMap encodeRune = s := by
  induction n generalizing s with
  | zero =>
    have : s = [] := List.length_eq_zero.mp (Nat.le_zero.mp hlen)
    subst this; rfl
  | succ n ih =>
    cases s with
    | nil => rfl
    | cons b rest =>
      simp only [validFuel, Bool.and_eq_true, Bool.not_eq_true', Bool.and_eq_false_imp,
        beq_iff_eq] at hv
      have hpos := decodeRune_size_pos b rest
      have hdrop : ((b :: rest).drop (decodeRune (b :: rest)).2).length ≤ n := by
        rw [List.length_drop]; simp only [List.length_cons] at hlen ⊢; omega
      have hstep := decode_encode_step b rest (by
        rintro ⟨h1, h2⟩
        have := hv.1 h1
        simp [h2] at this)
      simp only [runesFuel, List.flatMap_cons]
      rw [ih _ hdrop hv.2, hstep]

theorem runes_valid (s : Text) (hv : validString s = true) :
    (runes s).flatMap encodeRune = s :=
  runesFuel_valid s.length s (le_refl _) hv


/-- C1 (as amended). On POSIX, for every string `s` the result of
`escapeShellArg` begins and ends with a single quote and decodes, as a POSIX
shell word, to `s` with every byte that is not part of a valid UTF-8 sequence
replaced by U+FFFD (the loop ranges over runes); for every valid UTF-8 string
`s` it therefore decodes to exactly `s`. -/
theorem escapeShellArg_posix_decodes (s : Text) :
    ((escapeShellArg false s).head? = some 0x27
      ∧ (escapeShellArg false s).getLast? = some 0x27
      ∧ 2 ≤ (escapeShellArg false s).length
      ∧ shellDecode (escapeShellArg false s) = some ((runes s).flatMap encodeRune))
    ∧ (validString s = true → shellDecode (escapeShellArg false s) = some s) := by
  have e : escapeShellArg false s = 0x27 ::
      ((runes s).flatMap (fun r => (if r = 0x27 then [0x27, 0x5C, 0x27] else []) ++ encodeRune r)
        ++ [0x27]) := by
    simp [escapeShellArg, foldl_escapeRune_posix]
  refine ⟨⟨?_, ?_, ?_, shellDecode_escapeShellArg s⟩, fun hv => ?_⟩
  · rw [e]; rfl
  · rw [e, List.getLast?_cons, List.getLast?_append]; rfl
  · rw [e]; simp
  · rw [shellDecode_escapeShellArg, runes_valid s hv]

/-- Witness for C1: the string `it's` is valid UTF-8 and its quoted form
decodes back to it. -/
theorem escapeShellArg_posix_decodes_witness :
    validString (textOf "it's") = true
      ∧ shellDecode (escapeShellArg false (textOf "it's")) = some (textOf "it's") :=
  ⟨by decide, (escapeShellArg_posix_decodes (textOf "it's")).2 (by decide)⟩

/-- Counterexample to C1 as stated: the one-byte string `0xFF` is not valid
UTF-8; the loop reads it as the rune U+FFFD and writes the three bytes of that
rune, so the quoted word decodes to `EF BF BD`, not to the string itself. -/
theorem escapeShellArg_invalid_utf8_not_roundtrip :
    escapeShellArg false [0xFF] = [0x27, 0xEF, 0xBF, 0xBD, 0x27]
      ∧ shellDecode (escapeShellArg false [0xFF]) = some [0xEF, 0xBF, 0xBD]
      ∧ shellDecode (escapeShellArg false [0xFF]) ≠ some [0xFF] := by
  decide

/-! ## Parameter normalisation -/

set_option exponentiation.threshold 2000 in
set_option maxRecDepth 1000000 in
/-- C2 (the code at failing inputs). A JSON value of another kind than the
declared one is not a parse failure: `json.Unmarshal` stores it in the
interface variable whatever that held. For an `int` param the type assertion
that follows then panics (`true`, `null`, `"x"`); for a `bool` param the
number `1` is returned as a float, and for a `float` param `true` is returned
as a boolean and `[1]` as an array. -/
theorem toInterfaceVal_other_kind (env : Env) :
    let intDef : ScriptDef := ⟨textOf "n", textOf "int", [], .nil, []⟩
    let boolDef : ScriptDef := ⟨textOf "b", textOf "bool", [], .nil, []⟩
    let floatDef : ScriptDef := ⟨textOf "x", textOf "float", [], .nil, []⟩
    intDef.toInterfaceVal env (textOf "true") = .panic
      ∧ intDef.toInterfaceVal env (textOf "null") = .panic
      ∧ intDef.toInterfaceVal env (textOf "\"x\"") = .panic
      ∧ boolDef.toInterfaceVal env (textOf "1") = .ok (.float (textOf "1"))
      ∧ floatDef.toInterfaceVal env (textOf "true") = .ok (.bool true)
      ∧ floatDef.toInterfaceVal env (textOf "[1]") = .ok (.arr (textOf "[1]")) :=
  ⟨rfl, rfl, rfl, rfl, rfl, rfl⟩

theorem unmarshal_none (env : Env) (d : ScriptDef) (inp : Text) (h : jsonUnmarshal inp = none) :
    d.unmarshal env inp = .error (textOf "Unable to parse " ++ [0x60] ++ inp ++ [0x60]
      ++ textOf " as " ++ d.Name ++ textOf " (" ++ d.Type_ ++ textOf ")") := by
  simp only [ScriptDef.unmarshal, h]

theorem toInterfaceVal_string_none (env : Env) (d : ScriptDef) (raw : Text)
    (ht : d.Type_ = textOf "string")
    (h : jsonUnmarshal (if hasPrefix raw [0x22] then raw else [0x22] ++ raw ++ [0x22]) = none) :
    d.toInterfaceVal env raw = .error (textOf "Unable to parse " ++ [0x60]
      ++ (if hasPrefix raw [0x22] then raw else [0x22] ++ raw ++ [0x22]) ++ [0x60]
      ++ textOf " as " ++ d.Name ++ textOf " (" ++ d.Type_ ++ textOf ")") := by
  have h1 : ¬ (d.Type_ = textOf "int" ∨ d.Type_ = textOf "float") := by
    rw [ht]; decide
  have h2 : d.Type_ = textOf "string" ∨ d.Type_ = textOf "unsafe" := Or.inl ht
  simp only [ScriptDef.toInterfaceVal, h1, h2, if_true, if_false]
  by_cases hp : hasPrefix raw [0x22] = true
  · simp only [hp, if_true] at h ⊢
    simp only [Bool.not_true, Bool.false_eq_true, if_false]
    exact unmarshal_none env d raw h
  · simp only [hp, if_false] at h ⊢
    simp only [Bool.not_eq_true] at hp
    simp only [hp, Bool.not_false, if_true]
    exact unmarshal_none env d _ h

theorem normalizeLoop_who_error (env : Env) (iparams : GoMap Text) (who raw : Text)
    (hget : iparams.get who = some raw)
    (h : jsonUnmarshal (if hasPrefix raw [0x22] then raw else [0x22] ++ raw ++ [0x22]) = none)
    (defs : List ScriptDef) (oparams : GoMap Value)
    (hothers : ∀ d ∈ defs, d.Name ≠ who → iparams.get d.Name = none)
    (hty : ∀ d ∈ defs, d.Name = who → d.Type_ = textOf "string")
    (hex : ∃ d ∈ defs, d.Name = who) :
    normalizeLoop env iparams defs oparams = .error (textOf "Unable to parse " ++ [0x60]
      ++ (if hasPrefix raw [0x22] then raw else [0x22] ++ raw ++ [0x22]) ++ [0x60]
      ++ textOf " as " ++ who ++ textOf " (" ++ textOf "string" ++ textOf ")") := by
  induction defs generalizing oparams with
  | nil => obtain ⟨d, hd, _⟩ := hex; simp at hd
  | cons d rest ih =>
    by_cases hn : d.Name = who
    · have ht := hty d (List.mem_cons_self _ _) hn
      simp only [normalizeLoop, hn, hget]
      rw [toInterfaceVal_string_none env d raw ht h, hn, ht]
    · have hnone := hothers d (List.mem_cons_self _ _) hn
      simp only [normalizeLoop, hnone]
      apply ih
      · intro d' hd'; exact hothers d' (List.mem_cons_of_mem _ hd')
      · intro d' hd'; exact hty d' (List.mem_cons_of_mem _ hd')
      · obtain ⟨d', hd', hn'⟩ := hex
        rcases List.mem_cons.mp hd' with e | e
        · subst e; exact absurd hn' hn
        · exact ⟨d', e, hn'⟩

theorem Handle_script (env : Env) (w : World) (srv : Server) (req : Request)
    (hb : req.ScriptName ∉ builtins) :
    srv.Handle env w req = srv.handleScript env w req := by
  simp only [builtins, List.mem_cons, List.mem_singleton, List.not_mem_nil, or_false, not_or] at hb
  obtain ⟨h1, h2, h3, h4, h5, h6⟩ := hb
  simp only [Server.Handle, h1, h2, h3, h4, h5, h6, if_false]

theorem unable_prefix (a b : Text) :
    textOf "Unable to parse" <:+: (textOf "Unable to parse " ++ a ++ b) := by
  have e : textOf "Unable to parse " = textOf "Unable to parse" ++ textOf " " := by decide
  rw [e, List.append_assoc, List.append_assoc]
  exact (List.prefix_append _ _).isInfix

/-- C3 (as amended). For a script in the catalog whose param `who` is declared
`string`, and a request that supplies `who` and no other declared param: if
the raw value of `who`, put between double quotes unless it begins with one,
is not valid JSON (as for the JSON array `["a"]`, but not for `[]`, which is
read as the string `[]`), then `Handle` returns status 400 with an error text
that contains "Unable to parse", and the registry of runs is unchanged. -/
theorem Handle_unparsable_who (env : Env) (w : World) (srv : Server) (req : Request)
    (script : Script) (raw : Text)
    (hb : req.ScriptName ∉ builtins)
    (hcat : srv.Scripts.get req.ScriptName = some script)
    (hdecl : ∃ d ∈ script.ParamDefs, d.Name = textOf "who")
    (hty : ∀ d ∈ script.ParamDefs, d.Name = textOf "who" → d.Type_ = textOf "string")
    (hothers : ∀ d ∈ script.ParamDefs, d.Name ≠ textOf "who" → req.Params.get d.Name = none)
    (hraw : req.Params.get (textOf "who") = some raw)
    (hbad : jsonUnmarshal (if hasPrefix raw [0x22] then raw else [0x22] ++ raw ++ [0x22]) = none) :
    ∃ resp, srv.Handle env w req = .ok (srv, resp)
      ∧ resp.StatusCode = 400
      ∧ textOf "Unable to parse" <:+: resp.ErrorStr
      ∧ resp.RunStatii = [] := by
  have hn := normalizeLoop_who_error env req.Params (textOf "who") raw hraw hbad
    script.ParamDefs [] hothers hty hdecl
  rw [Handle_script env w srv req hb]
  simp only [Server.handleScript, hcat, Server.makeScriptRun, Script.normalizeParams, hn]
  refine ⟨_, rfl, rfl, ?_, rfl⟩
  simp only [errorResponse, List.append_assoc]
  exact unable_prefix _ _

set_option maxRecDepth 1000000 in
/-- Witness for C3: the script `echo.sh` of scenario S3 and the raw value
`["a"]` for `who`. -/
theorem Handle_unparsable_who_witness :
    ∃ resp, echoServer.Handle posixEnv calmWorld (echoRequest (textOf "[\"a\"]"))
        = .ok (echoServer, resp)
      ∧ resp.StatusCode = 400
      ∧ textOf "Unable to parse" <:+: resp.ErrorStr
      ∧ resp.RunStatii = [] :=
  Handle_unparsable_who posixEnv calmWorld echoServer (echoRequest (textOf "[\"a\"]"))
    echoScript (textOf "[\"a\"]") (by decide) (by decide) (by decide) (by decide) (by decide)
    (by decide) (by decide)

set_option maxRecDepth 1000000 in
/-- Counterexample to C3 as stated: scenario S3 itself. `newScript` makes
`echoScript` of the source of `echo.sh`; for the raw value `[]` of `who`,
`toInterfaceVal` puts the value between double quotes, reads the string `[]`
and quotes it for the shell, so that `Handle` returns status 200 without error
and adds a run whose script echoes the quoted `[]`. -/
theorem Handle_empty_array_accepted :
    newScript posixEnv 7 (textOf "./echo.sh") echoSource = .ok echoScript
      ∧ echoScript.normalizeParams posixEnv [(textOf "who", textOf "[]")]
          = .ok [(textOf "who", .str (textOf "\x27[]\x27"))]
      ∧ (echoServer.Handle posixEnv calmWorld (echoRequest (textOf "[]"))).toOption.map
          (fun p => (p.2.StatusCode, p.2.Error, p.2.ErrorStr,
            p.1.ScriptRuns.map (fun (r : ScriptRun) => r.BashScript)))
        = some (200, none, [],
            [textOf "# @param who string \x60\"world\"\x60 target\n_clear=3\n_timeout=4\necho \x27[]\x27\n"]) := by
  decide

theorem GoMap.get_set_self {α : Type} (m : GoMap α) (k : Text) (v : α) :
    (m.set k v).get k = some v := by
  induction m with
  | nil => simp [GoMap.set, GoMap.get]
  | cons e rest ih =>
    obtain ⟨k1, v1⟩ := e
    by_cases h : k1 = k
    · simp [GoMap.set, GoMap.get, h]
    · simp [GoMap.set, GoMap.get, h, ih]

theorem GoMap.get_set_other {α : Type} (m : GoMap α) (k k' : Text) (v : α) (h : k' ≠ k) :
    (m.set k v).get k' = m.get k' := by
  induction m with
  | nil => simp [GoMap.set, GoMap.get, Ne.symm h]
  | cons e rest ih =>
    obtain ⟨k1, v1⟩ := e
    by_cases h1 : k1 = k
    · subst h1
      simp [GoMap.set, GoMap.get, Ne.symm h]
    · by_cases h2 : k1 = k'
      · subst h2
        simp [GoMap.set, GoMap.get, h1]
      · simp [GoMap.set, GoMap.get, h1, h2, ih]

theorem leaveComments_script (st : ParseAcc) (line : Text) :
    (leaveComments st line).script = st.script := by
  unfold leaveComments; split <;> rfl

theorem matchEntry_defaults (env : Env) (st st1 : ParseAcc) (line : Text)
    (h : matchEntry env st line = .ok st1) (hinv : DefaultsMade env st.script.ParamDefs) :
    DefaultsMade env st1.script.ParamDefs := by
  unfold matchEntry at h
  split at h
  · cases h; exact hinv
  · split at h
    · dsimp only at h
      split at h
      · cases h
      · cases h
      · rename_i pd hpd
        cases h
        simp only [ScriptDef.makeDefault] at hpd
        split at hpd
        · rename_i v hv
          cases hpd
          intro d hd
          rcases List.mem_append.mp hd with e | e
          · exact hinv d e
          · rw [List.mem_singleton] at e
            subst e
            exact hv
        · cases hpd
        · cases hpd
    · split at h
      · dsimp only at h; cases h; exact hinv
      · cases h; exact hinv

theorem newScriptLine_defaults (env : Env) (st st1 : ParseAcc) (line : Text)
    (h : newScriptLine env st line = .ok st1) (hinv : DefaultsMade env st.script.ParamDefs) :
    DefaultsMade env st1.script.ParamDefs := by
  simp only [newScriptLine] at h
  split at h
  · cases h; simpa only [leaveComments_script] using hinv
  · exact matchEntry_defaults env _ st1 line h (by simpa only [leaveComments_script] using hinv)

theorem newScriptLoop_defaults (env : Env) (lines : List Text) (st st1 : ParseAcc)
    (h : newScriptLoop env st lines = .ok st1) (hinv : DefaultsMade env st.script.ParamDefs) :
    DefaultsMade env st1.script.ParamDefs := by
  induction lines generalizing st with
  | nil => simp only [newScriptLoop] at h; cases h; exact hinv
  | cons line rest ih =>
    simp only [newScriptLoop] at h
    split at h
    · rename_i st2 h2
      exact ih st2 h (newScriptLine_defaults env st st2 line h2 hinv)
    · cases h
    · cases h

theorem newScript_defaults (env : Env) (now : Int) (scriptPath source : Text) (script : Script)
    (h : newScript env now scriptPath source = .ok script) :
    DefaultsMade env script.ParamDefs := by
  simp only [newScript] at h
  split at h
  · cases h
  · cases h
  · rename_i st hst
    split at h
    · cases h
    · cases h
      exact newScriptLoop_defaults env _ _ st hst (by intro d hd; simp at hd)

theorem normalizeLoop_default (env : Env) (m : GoMap Text) (name dflt : Text)
    (hm : m.get name = none) (defs : List ScriptDef) (oparams : GoMap Value)
    (hinv : ∀ d ∈ defs, d.Name = name → d.toInterfaceVal env dflt = .ok d.Default) :
    normalizeLoop env (m.set name dflt) defs oparams = normalizeLoop env m defs oparams := by
  induction defs generalizing oparams with
  | nil => rfl
  | cons d rest ih =>
    have hrest : ∀ d ∈ rest, d.Name = name → d.toInterfaceVal env dflt = .ok d.Default :=
      fun d' hd' => hinv d' (List.mem_cons_of_mem _ hd')
    by_cases hn : d.Name = name
    · have hd := hinv d (List.mem_cons_self _ _) hn
      simp only [normalizeLoop, hn, GoMap.get_set_self, hm]
      rw [← hn, hd, hn]
      exact ih _ hrest
    · simp only [normalizeLoop, GoMap.get_set_other m name d.Name dflt hn]
      cases m.get d.Name with
      | none => exact ih _ hrest
      | some ival =>
        simp only
        cases d.toInterfaceVal env ival with
        | ok v => exact ih _ hrest
        | error msg => rfl
        | panic => rfl

theorem normalizeLoop_get (env : Env) (m : GoMap Text) (name : Text) (v : Value)
    (hm : m.get name = none) (defs : List ScriptDef) (oparams o : GoMap Value)
    (h : normalizeLoop env m defs oparams = .ok o)
    (hv : ∀ d ∈ defs, d.Name = name → d.Default = v)
    (hex : (∃ d ∈ defs, d.Name = name) ∨ oparams.get name = some v) :
    o.get name = some v := by
  induction defs generalizing oparams with
  | nil =>
    simp only [normalizeLoop] at h
    cases h
    rcases hex with ⟨d, hd, _⟩ | hex
    · simp at hd
    · exact hex
  | cons d rest ih =>
    have hv' : ∀ d ∈ rest, d.Name = name → d.Default = v :=
      fun d' hd' => hv d' (List.mem_cons_of_mem _ hd')
    by_cases hn : d.Name = name
    · have hd := hv d (List.mem_cons_self _ _) hn
      simp only [normalizeLoop, hn, hm] at h
      exact ih _ h hv' (Or.inr (by rw [hd, GoMap.get_set_self]))
    · have hex' : ∀ x, (∃ d ∈ rest, d.Name = name) ∨ (oparams.set d.Name x).get name = some v := by
        intro x
        rcases hex with ⟨d', hd', hn'⟩ | hex
        · rcases List.mem_cons.mp hd' with e | e
          · subst e; exact absurd hn' hn
          · exact Or.inl ⟨d', e, hn'⟩
        · right; rw [GoMap.get_set_other _ _ _ _ (Ne.symm hn)]; exact hex
      simp only [normalizeLoop] at h
      split at h
      · split at h
        · exact ih _ h hv' (hex' _)
        · cases h
        · cases h
      · exact ih _ h hv' (hex' _)


/-- C4 (as amended). For every script returned by `newScript`, every param def
`p` of it such that every param def with the name of `p` is equal to `p` (the
name is not declared a second time with another type, default or
description), and every raw params map `m` without the key `p.Name`:
`normalizeParams` has the same outcome on `m` and on `m` extended with
`p.Name` mapped to the default text of `p`, and when it succeeds the result
maps `p.Name` to the typed default of `p`. -/
theorem normalizeParams_default (env : Env) (now : Int) (scriptPath source : Text)
    (script : Script) (p : ScriptDef) (m : GoMap Text)
    (hnew : newScript env now scriptPath source = .ok script)
    (hp : p ∈ script.ParamDefs)
    (honce : ∀ q ∈ script.ParamDefs, q.Name = p.Name → q = p)
    (hm : m.get p.Name = none) :
    script.normalizeParams env (m.set p.Name p.DefaultStr) = script.normalizeParams env m
      ∧ ∀ o, script.normalizeParams env m = .ok o → o.get p.Name = some p.Default := by
  have hinv := newScript_defaults env now scriptPath source script hnew
  constructor
  · apply normalizeLoop_default env m p.Name p.DefaultStr hm
    intro q hq hn
    rw [honce q hq hn]
    exact hinv p hp
  · intro o ho
    apply normalizeLoop_get env m p.Name p.Default hm script.ParamDefs [] o ho
    · intro q hq hn; rw [honce q hq hn]
    · exact Or.inl ⟨p, hp, rfl⟩

set_option maxRecDepth 1000000 in
/-- Witness for C4: the param `who` of the script `echo.sh` and a request
that carries only a `logid`. -/
theorem normalizeParams_default_witness :
    newScript posixEnv 7 (textOf "./echo.sh") echoSource = .ok echoScript
      ∧ echoScript.normalizeParams posixEnv
          (GoMap.set [(textOf "logid", textOf "7")] (textOf "who") (textOf "\"world\""))
        = echoScript.normalizeParams posixEnv [(textOf "logid", textOf "7")]
      ∧ ∀ o, echoScript.normalizeParams posixEnv [(textOf "logid", textOf "7")] = .ok o →
          o.get (textOf "who") = some (.str (textOf "\x27world\x27")) :=
  ⟨by decide,
    normalizeParams_default posixEnv 7 (textOf "./echo.sh") echoSource echoScript
      { Name := textOf "who", Type_ := textOf "string", DefaultStr := textOf "\"world\"",
        Default := .str (textOf "\x27world\x27"), Desc := textOf "target" }
      [(textOf "logid", textOf "7")] (by decide) (by decide) (by decide) (by decide)⟩

set_option maxRecDepth 1000000 in
/-- Counterexample to C4 as stated: `newScript` accepts a source that declares
the param `x` twice. For the first declaration, with default text `a`, and the
empty params map, omitting `x` gives `x` the default of the last declaration,
`b`, while supplying `a` gives `a`. -/
theorem normalizeParams_default_duplicate_name :
    newScript posixEnv 7 (textOf "./dup.sh") dupSource = .ok dupScript
      ∧ dupFirst ∈ dupScript.ParamDefs
      ∧ dupScript.normalizeParams posixEnv [] = .ok [(textOf "x", .str (textOf "b"))]
      ∧ dupScript.normalizeParams posixEnv (GoMap.set [] dupFirst.Name dupFirst.DefaultStr)
          = .ok [(textOf "x", .str (textOf "a"))] := by
  decide

/-! ## The run registry -/

theorem wrapInt64_id (i : Int) (h1 : -2 ^ 63 ≤ i) (h2 : i < 2 ^ 63) : wrapInt64 i = i := by
  unfold wrapInt64
  norm_num at h1 h2 ⊢
  omega

theorem purge_foldl (p : ScriptRun → Bool) (runs acc : List ScriptRun) :
    runs.foldl (fun acc r => if p r then acc ++ [r] else acc) acc = acc ++ runs.filter p := by
  induction runs generalizing acc with
  | nil => simp
  | cons r rest ih =>
    simp only [List.foldl_cons, ih, List.filter_cons]
    by_cases h : p r <;> simp [h]

theorem purgeScriptRuns_eq (srv : Server) (now : Int) (maxAge : Nat) :
    srv.purgeScriptRuns now maxAge =
      ({ srv with ScriptRuns := srv.ScriptRuns.filter (fun r => !r.Finished
            || decide (wrapInt64 (now - r.FinishTs) ≤ wrapInt64 (maxAge % 2 ^ 64))) },
        (srv.ScriptRuns.length : Int) - ((srv.ScriptRuns.filter (fun r => !r.Finished
            || decide (wrapInt64 (now - r.FinishTs) ≤ wrapInt64 (maxAge % 2 ^ 64)))).length : Int)) := by
  simp only [Server.purgeScriptRuns]
  rw [purge_foldl (fun r => !r.Finished
    || decide (wrapInt64 (now - r.FinishTs) ≤ wrapInt64 (maxAge % 2 ^ 64)))]
  simp

theorem filter_congr_mem {α : Type} (p q : α → Bool) (l : List α) (h : ∀ a ∈ l, p a = q a) :
    l.filter p = l.filter q := List.filter_congr h

theorem formatInt_sub (a b : Nat) (h : b ≤ a) :
    formatInt ((a : Int) - (b : Int)) = formatNat (a - b) := by
  have e : (a : Int) - (b : Int) = ((a - b : Nat) : Int) := by omega
  rw [e]
  simp [formatInt]

theorem purgeScriptRuns_spec (srv : Server) (now : Int) (maxAge : Nat)
    (hmax : maxAge < 2 ^ 63)
    (hts : ∀ r ∈ srv.ScriptRuns, -2 ^ 63 ≤ now - r.FinishTs ∧ now - r.FinishTs < 2 ^ 63) :
    (srv.purgeScriptRuns now maxAge).1.ScriptRuns
        = srv.ScriptRuns.filter (fun r => !r.Finished || decide (now - r.FinishTs ≤ maxAge))
      ∧ (srv.purgeScriptRuns now maxAge).2
        = (srv.ScriptRuns.length : Int) - ((srv.purgeScriptRuns now maxAge).1.ScriptRuns.length : Int)
      ∧ (srv.purgeScriptRuns now maxAge).1.Scripts = srv.Scripts := by
  rw [purgeScriptRuns_eq]
  refine ⟨?_, rfl, rfl⟩
  apply List.filter_congr
  intro r hr
  have h := hts r hr
  have e1 : wrapInt64 (now - r.FinishTs) = now - r.FinishTs := wrapInt64_id _ h.1 h.2
  have e2 : wrapInt64 ((maxAge : Int) % 2 ^ 64) = maxAge := by
    have hm : (maxAge : Int) % 2 ^ 64 = maxAge := by norm_num at hmax ⊢; omega
    rw [hm]
    apply wrapInt64_id
    · norm_num; omega
    · norm_num at hmax ⊢; omega
  simp only [e1, e2]


/-- C5 (as amended). For every registry, every clock value `now` and every
`max_age` below `2^63`, provided that `now - finish_ts` of every run lies in
the range of `int64`: `purgeScriptRuns(max_age)` replaces `script_runs` by
the old sequence filtered, order kept, to exactly the runs with
`finished = false` or `now - finish_ts <= max_age`, returns the old length
minus the new length, and leaves the catalog alone. -/
theorem purgeScriptRuns_filter (srv : Server) (now : Int) (maxAge : Nat)
    (hmax : maxAge < 2 ^ 63)
    (hts : ∀ r ∈ srv.ScriptRuns, -2 ^ 63 ≤ now - r.FinishTs ∧ now - r.FinishTs < 2 ^ 63) :
    (srv.purgeScriptRuns now maxAge).1.ScriptRuns
        = srv.ScriptRuns.filter (fun r => !r.Finished || decide (now - r.FinishTs ≤ maxAge))
      ∧ (srv.purgeScriptRuns now maxAge).2
        = (srv.ScriptRuns.length : Int) - ((srv.purgeScriptRuns now maxAge).1.ScriptRuns.length : Int)
      ∧ (srv.purgeScriptRuns now maxAge).1.Scripts = srv.Scripts :=
  purgeScriptRuns_spec srv now maxAge hmax hts

/-- Witness for C5: four runs at clock reading 100 and a maximal age of 10
seconds; the run that finished at 50 is dropped. -/
theorem purgeScriptRuns_filter_witness :
    (fourRuns.purgeScriptRuns 100 10).1.ScriptRuns
        = fourRuns.ScriptRuns.filter
            (fun r => !r.Finished || decide (100 - r.FinishTs ≤ ((10 : Nat) : Int)))
      ∧ (fourRuns.purgeScriptRuns 100 10).2
        = (fourRuns.ScriptRuns.length : Int)
            - ((fourRuns.purgeScriptRuns 100 10).1.ScriptRuns.length : Int)
      ∧ (fourRuns.purgeScriptRuns 100 10).1.Scripts = fourRuns.Scripts :=
  purgeScriptRuns_filter fourRuns 100 10 (by decide) (by decide)

/-- Counterexample to C5 as stated: with `max_age = 2^63` the conversion
`int64(maxAge)` is negative, so a run that finished in the current second,
which the filter of the claim retains, is dropped and counted. -/
theorem purgeScriptRuns_large_max_age :
    oneFinished.ScriptRuns.filter
        (fun r => !r.Finished || decide ((100 : Int) - r.FinishTs ≤ ((2 ^ 63 : Nat) : Int)))
        = [finishedRun (textOf "a") 100]
      ∧ (oneFinished.purgeScriptRuns 100 (2 ^ 63)).1.ScriptRuns = []
      ∧ (oneFinished.purgeScriptRuns 100 (2 ^ 63)).2 = 1 := by
  decide

/-- C6 (as amended). For every registry state and every clock value for which
`now - finish_ts` of every run lies in the range of `int64`: after `Handle`
processes the built-in `purge`, `script_runs` is the old sequence without the
finished runs whose `finish_ts` is earlier than the current second; every
unfinished run remains, and so does every finished run whose `finish_ts` is
the current second or later. The status is 200 and the body is
`Purged <n> ScriptRuns from status history` with `n` the number of runs
removed. -/
theorem Handle_purge (env : Env) (w : World) (srv : Server) (req : Request)
    (hname : req.ScriptName = textOf "purge")
    (hts : ∀ r ∈ srv.ScriptRuns, -2 ^ 63 ≤ w.now - r.FinishTs ∧ w.now - r.FinishTs < 2 ^ 63) :
    ∃ srv1 resp, srv.Handle env w req = .ok (srv1, resp)
      ∧ srv1.ScriptRuns = srv.ScriptRuns.filter (fun r => !r.Finished || decide (w.now ≤ r.FinishTs))
      ∧ srv1.Scripts = srv.Scripts
      ∧ resp.StatusCode = 200
      ∧ resp.Body = textOf "Purged "
          ++ formatNat (srv.ScriptRuns.length - srv1.ScriptRuns.length)
          ++ textOf " ScriptRuns from status history" := by
  have hp := purgeScriptRuns_spec srv w.now 0 (by norm_num) hts
  have hfilter : srv.ScriptRuns.filter (fun r => !r.Finished || decide (w.now - r.FinishTs ≤ ((0 : Nat) : Int)))
      = srv.ScriptRuns.filter (fun r => !r.Finished || decide (w.now ≤ r.FinishTs)) := by
    apply List.filter_congr
    intro r _
    congr 1
    apply decide_eq_decide.mpr
    constructor <;> intro h <;> omega
  have hlen : (srv.purgeScriptRuns w.now 0).1.ScriptRuns.length ≤ srv.ScriptRuns.length := by
    rw [hp.1]; exact List.length_filter_le _ _
  refine ⟨(srv.purgeScriptRuns w.now 0).1,
    okResponse (textOf "Purged " ++ formatInt (srv.purgeScriptRuns w.now 0).2
      ++ textOf " ScriptRuns from status history") [], ?_, ?_, hp.2.2, rfl, ?_⟩
  · have h1 : ¬ (textOf "purge" = textOf "help") := by decide
    have h2 : ¬ (textOf "purge" = textOf "status") := by decide
    have h3 : ¬ (textOf "purge" = textOf "view") := by decide
    have h4 : ¬ (textOf "purge" = textOf "kill") := by decide
    have h5 : ¬ (textOf "purge" = textOf "version") := by decide
    simp only [Server.Handle, hname, h1, h2, h3, h4, h5, if_true, if_false]
  · rw [hp.1, hfilter]
  · simp only [okResponse]
    rw [hp.2.1, formatInt_sub _ _ hlen]

/-- Witness for C6: the registry of four runs at clock reading 100. -/
theorem Handle_purge_witness :
    ∃ srv1 resp,
      fourRuns.Handle posixEnv calmWorld (commandRequest (textOf "purge")) = .ok (srv1, resp)
      ∧ srv1.ScriptRuns
          = fourRuns.ScriptRuns.filter (fun r => !r.Finished || decide (calmWorld.now ≤ r.FinishTs))
      ∧ srv1.Scripts = fourRuns.Scripts
      ∧ resp.StatusCode = 200
      ∧ resp.Body = textOf "Purged "
          ++ formatNat (fourRuns.ScriptRuns.length - srv1.ScriptRuns.length)
          ++ textOf " ScriptRuns from status history" :=
  Handle_purge posixEnv calmWorld fourRuns (commandRequest (textOf "purge")) (by decide)
    (by decide)

/-- Counterexample to C6 as stated: a run that finished in the current second
(clock reading 100) is still in `script_runs` after the built-in `purge`, with
`finished = true`, and the body reports that nothing was purged. -/
theorem Handle_purge_keeps_current_second :
    (oneFinished.Handle posixEnv calmWorld (commandRequest (textOf "purge"))).toOption.map
      (fun p => (p.1.ScriptRuns, p.2.Body))
      = some ([finishedRun (textOf "a") 100],
          textOf "Purged 0 ScriptRuns from status history")
      ∧ (finishedRun (textOf "a") 100).Finished = true
      ∧ (finishedRun (textOf "a") 100).FinishTs = calmWorld.now := by
  decide

/-! ## The output readers -/

theorem isLine_spec {r : Text} (h : isLine r = true) :
    ∃ body, r = body ++ [0x0A] ∧ (0x0A : Byte) ∉ body := by
  simp [isLine] at h
  refine ⟨r.dropLast, ?_, h.2⟩
  exact (List.dropLast_append_getLast? (0x0A : Byte) (by simpa using h.1)).symm

theorem readLinesFrom_cons (cur : Text) (c : Byte) (rest : Text) :
    readLinesFrom cur (c :: rest)
      = if c = 0x0A then (cur ++ [c]) :: readLinesFrom [] rest
        else readLinesFrom (cur ++ [c]) rest := rfl

theorem readLinesFrom_line (body rest cur : Text) (h : (0x0A : Byte) ∉ body) :
    readLinesFrom cur (body ++ 0x0A :: rest) = (cur ++ body ++ [0x0A]) :: readLinesFrom [] rest := by
  induction body generalizing cur with
  | nil => rw [List.nil_append, readLinesFrom_cons, if_pos rfl, List.append_nil]
  | cons c body ih =>
    have hc : c ≠ 0x0A := fun e => h (by simp [e])
    have hb : (0x0A : Byte) ∉ body := fun e => h (by simp [e])
    rw [List.cons_append, readLinesFrom_cons, if_neg hc, ih _ hb]
    simp

theorem readLinesFrom_tail (tail cur : Text) (h : (0x0A : Byte) ∉ tail) :
    readLinesFrom cur tail = [] := by
  induction tail generalizing cur with
  | nil => rfl
  | cons c tail ih =>
    have hc : c ≠ 0x0A := fun e => h (by simp [e])
    have hb : (0x0A : Byte) ∉ tail := fun e => h (by simp [e])
    rw [readLinesFrom_cons, if_neg hc]
    exact ih _ hb

theorem readLines_flatten (recs : List Text) (tail : Text)
    (hrecs : ∀ r ∈ recs, isLine r = true) (htail : (0x0A : Byte) ∉ tail) :
    readLines (recs.flatten ++ tail) = recs := by
  induction recs with
  | nil => simpa [readLines] using readLinesFrom_tail tail [] htail
  | cons r rest ih =>
    obtain ⟨body, hr, hb⟩ := isLine_spec (hrecs r (List.mem_cons_self _ _))
    have ih' := ih (fun r' hr' => hrecs r' (List.mem_cons_of_mem _ hr'))
    simp only [readLines] at ih' ⊢
    rw [List.flatten_cons, hr, List.append_assoc, List.append_assoc, List.singleton_append,
      readLinesFrom_line _ _ _ hb, ih']
    simp

theorem set_same {α : Type} (l : List α) (i : Nat) (a : α) (h : l.get? i = some a) :
    l.set i a = l := by
  induction l generalizing i with
  | nil => rfl
  | cons x xs ih =>
    cases i with
    | zero => simp at h; simp [h]
    | succ i => simp at h; simp [ih i (by simpa using h)]

theorem readOutputLine_var (run : ScriptRun) (now : Int) (i : Nat) (d : ScriptDef)
    (buf line : Text)
    (hdef : run.Script.OutputDefs.get? i = some d)
    (hbuf : run.Outputs.get? i = some buf)
    (hlock : i < run.OutputLocks.length) :
    run.readOutputLine now (5 + (i : Int)) line
      = some { run with Outputs :=
          (run.Outputs.set i (if d.Type_ = textOf "w" then trimSpace line else buf ++ line)) } := by
  have h1 : ¬ (5 + (i : Int) = 1) := by omega
  have h2 : ¬ (5 + (i : Int) = 2) := by omega
  have h3 : ¬ (5 + (i : Int) = 3) := by omega
  have h4 : ¬ (5 + (i : Int) = 4) := by omega
  have h5 : ¬ (5 + (i : Int) - 5 < 0) := by omega
  have h6 : (5 + (i : Int) - 5).toNat = i := by omega
  simp only [ScriptRun.readOutputLine, h1, h2, h3, h4, h5, h6, if_false, hdef, hbuf, hlock,
    if_true]

theorem readOutputLoop_var (now : Nat → Int) (i : Nat) (d : ScriptDef) (recs : List Text)
    (k : Nat) (run : ScriptRun) (buf : Text)
    (hdef : run.Script.OutputDefs.get? i = some d)
    (hbuf : run.Outputs.get? i = some buf)
    (hlock : i < run.OutputLocks.length) :
    readOutputLoop now (5 + (i : Int)) k run recs
      = some { run with Outputs := run.Outputs.set i (bufferAfter d buf recs) } := by
  induction recs generalizing k run buf with
  | nil =>
    have e : bufferAfter d buf [] = buf := by
      unfold bufferAfter; split <;> simp
    rw [e, set_same _ _ _ hbuf]
    rfl
  | cons r rest ih =>
    have hi : i < run.Outputs.length := by
      rcases List.get?_eq_some.mp hbuf with ⟨h, _⟩; exact h
    have hstep := ih (k + 1)
      { run with Outputs :=
          (run.Outputs.set i (if d.Type_ = textOf "w" then trimSpace r else buf ++ r)) }
      (if d.Type_ = textOf "w" then trimSpace r else buf ++ r) hdef
      (by simp [List.getElem?_set, hi]) hlock
    simp only [readOutputLoop, readOutputLine_var run (now k) i d buf r hdef hbuf hlock]
    rw [hstep]
    simp only [List.set_set]
    congr 3
    unfold bufferAfter
    by_cases hw : d.Type_ = textOf "w"
    · simp only [hw, if_true, List.getLast?_cons]
      cases rest.getLast? <;> rfl
    · simp only [hw, if_false, List.flatten_cons, List.append_assoc]

/-- C8. For every run, every output index `i` that is in bounds (as for every
run that `makeScriptRun` builds) and whose buffer is empty, and every sequence
of newline-terminated records read from descriptor `5+i` with nothing else in
between: the reader comes to its end without panic; if output `i` has type `a`
the buffer ends equal to the concatenation of the records with their
newlines; if it has type `w` it ends equal to the white-space-trimmed last
record, and empty when there is none; the buffers of the other outputs and
all other fields of the run are unchanged. -/
theorem readOutput_output_var (run : ScriptRun) (now : Nat → Int) (i : Nat) (d : ScriptDef)
    (recs : List Text)
    (hdef : run.Script.OutputDefs.get? i = some d)
    (hbuf : run.Outputs.get? i = some [])
    (hlock : i < run.OutputLocks.length)
    (hrecs : ∀ r ∈ recs, isLine r = true) :
    ∃ run1, run.readOutput now (5 + (i : Int)) recs.flatten = some run1
      ∧ (d.Type_ = textOf "a" → run1.Outputs.get? i = some recs.flatten)
      ∧ (d.Type_ = textOf "w" → run1.Outputs.get? i = some (trimSpace (recs.getLast?.getD [])))
      ∧ (∀ j, j ≠ i → run1.Outputs.get? j = run.Outputs.get? j)
      ∧ run1.Outputs.length = run.Outputs.length
      ∧ run1 = { run with Outputs := run1.Outputs } := by
  have hi : i < run.Outputs.length := by
    rcases List.get?_eq_some.mp hbuf with ⟨h, _⟩; exact h
  have hl := readLines_flatten recs [] hrecs (by simp)
  rw [List.append_nil] at hl
  refine ⟨{ run with Outputs := run.Outputs.set i (bufferAfter d [] recs) }, ?_, ?_, ?_, ?_, ?_, rfl⟩
  · rw [ScriptRun.readOutput, hl]
    exact readOutputLoop_var now i d recs 0 run [] hdef hbuf hlock
  · intro ha
    have hw : d.Type_ ≠ textOf "w" := by rw [ha]; decide
    simp [bufferAfter, hw, List.getElem?_set, hi]
  · intro hw
    have e : bufferAfter d [] recs = trimSpace (recs.getLast?.getD []) := by
      simp only [bufferAfter, hw, if_true]
      cases recs.getLast? <;> rfl
    simp [e, List.getElem?_set, hi]
  · intro j hj
    simp [List.getElem?_set, Ne.symm hj]
  · simp

set_option maxRecDepth 1000000 in
/-- Witness for C8: scenario S5. The run that `makeScriptRun` builds for the
script of S5 is `appendRun`; the records `x`, `y` on the append output `a1`
(descriptor 5) and the records `z`, `w` on the overwrite output `a2`
(descriptor 6) satisfy the hypotheses, and the readers leave `x\ny\n` in `a1`
and `w` in `a2`. -/
theorem readOutput_output_var_witness :
    ((newScript posixEnv 7 (textOf "./append.sh") appendSource).toOption.bind startRun
        = some appendRun)
      ∧ (appendRun.readOutput (fun _ => 100) 5 (textOf "x\ny\n")).map (fun r => r.Outputs)
          = some [textOf "x\ny\n", []]
      ∧ (appendRun.readOutput (fun _ => 100) 6 (textOf "z\nw\n")).map (fun r => r.Outputs)
          = some [[], textOf "w"]
      ∧ (∃ run1, appendRun.readOutput (fun _ => 100) (5 + ((0 : Nat) : Int))
            [textOf "x\n", textOf "y\n"].flatten = some run1
          ∧ (textOf "a" = textOf "a" → run1.Outputs.get? 0 = some [textOf "x\n", textOf "y\n"].flatten)
          ∧ (textOf "a" = textOf "w" → run1.Outputs.get? 0
              = some (trimSpace ([textOf "x\n", textOf "y\n"].getLast?.getD [])))
          ∧ (∀ j, j ≠ 0 → run1.Outputs.get? j = appendRun.Outputs.get? j)
          ∧ run1.Outputs.length = appendRun.Outputs.length
          ∧ run1 = { appendRun with Outputs := run1.Outputs })
      ∧ (∃ run1, appendRun.readOutput (fun _ => 100) (5 + ((1 : Nat) : Int))
            [textOf "z\n", textOf "w\n"].flatten = some run1
          ∧ (textOf "w" = textOf "a" → run1.Outputs.get? 1 = some [textOf "z\n", textOf "w\n"].flatten)
          ∧ (textOf "w" = textOf "w" → run1.Outputs.get? 1
              = some (trimSpace ([textOf "z\n", textOf "w\n"].getLast?.getD [])))
          ∧ (∀ j, j ≠ 1 → run1.Outputs.get? j = appendRun.Outputs.get? j)
          ∧ run1.Outputs.length = appendRun.Outputs.length
          ∧ run1 = { appendRun with Outputs := run1.Outputs }) :=
  ⟨by decide, by decide, by decide,
    readOutput_output_var appendRun (fun _ => 100) 0
      { Name := textOf "a1", Type_ := textOf "a", DefaultStr := [], Default := .nil, Desc := [] }
      [textOf "x\n", textOf "y\n"] (by decide) (by decide) (by decide) (by decide),
    readOutput_output_var appendRun (fun _ => 100) 1
      { Name := textOf "a2", Type_ := textOf "w", DefaultStr := [], Default := .nil, Desc := [] }
      [textOf "z\n", textOf "w\n"] (by decide) (by decide) (by decide) (by decide)⟩

set_option maxRecDepth 1000000 in
/-- C7 (the code at the failing input). Scenario S6: the run that
`makeScriptRun` builds for the script of S6 is `clearRun`, with the single
append output `a1` at index 0. The reader of `_clear` resets a buffer only
when the index found is greater than 0, so the record `a1` on descriptor 3
changes nothing, and after the records `x` to `a1`, `a1` to `_clear`, `y` to
`a1` the buffer of `a1` holds `x\ny\n`. -/
theorem readOutput_clear_first_output :
    ((newScript posixEnv 7 (textOf "./clear.sh") clearSource).toOption.bind startRun
        = some clearRun)
      ∧ clearRun.Script.getOutputIdxByName (trimSpace (textOf "a1\n")) = 0
      ∧ (clearRun.readOutputLine 100 5 (textOf "x\n")).bind
          (fun r => r.readOutputLine 100 3 (textOf "a1\n"))
          = clearRun.readOutputLine 100 5 (textOf "x\n")
      ∧ (clearRun.readRecords
            [⟨5, textOf "x\n", 100⟩, ⟨3, textOf "a1\n", 100⟩, ⟨5, textOf "y\n", 100⟩]).map
          (fun r => r.Outputs)
          = some [textOf "x\ny\n"] := by
  decide

/-! ## The template text -/

theorem readLines_flatten_append (recs : List Text) (rest : Text)
    (hrecs : ∀ r ∈ recs, isLine r = true) :
    readLines (recs.flatten ++ rest) = recs ++ readLines rest := by
  induction recs with
  | nil => rfl
  | cons r more ih =>
    obtain ⟨body, hr, hb⟩ := isLine_spec (hrecs r (List.mem_cons_self _ _))
    have ih' := ih (fun r' hr' => hrecs r' (List.mem_cons_of_mem _ hr'))
    simp only [readLines] at ih' ⊢
    rw [List.flatten_cons, hr, List.append_assoc, List.append_assoc, List.singleton_append,
      readLinesFrom_line _ _ _ hb, ih']
    simp

theorem matchEntry_frame (env : Env) (st st1 : ParseAcc) (line : Text)
    (h : matchEntry env st line = .ok st1) :
    st1.templateBuf = st.templateBuf ∧ st1.afterLeadingComments = st.afterLeadingComments := by
  unfold matchEntry at h
  split at h
  · cases h; exact ⟨rfl, rfl⟩
  · split at h
    · dsimp only at h
      split at h
      · cases h
      · cases h
      · cases h; exact ⟨rfl, rfl⟩
    · split at h
      · dsimp only at h; cases h; exact ⟨rfl, rfl⟩
      · cases h; exact ⟨rfl, rfl⟩

theorem newScriptLine_comment (env : Env) (st st1 : ParseAcc) (line : Text)
    (hline : hasPrefix line (textOf "#") = true) (hst : st.afterLeadingComments = false)
    (h : newScriptLine env st line = .ok st1) :
    st1.templateBuf = st.templateBuf ++ line ∧ st1.afterLeadingComments = false := by
  have hl : leaveComments st line = st := by
    simp [leaveComments, hline]
  simp only [newScriptLine, hl, hst, Bool.false_eq_true, if_false] at h
  have hf := matchEntry_frame env _ st1 line h
  exact ⟨hf.1, hf.2⟩

theorem newScriptLine_first (env : Env) (st : ParseAcc) (line : Text)
    (hline : hasPrefix line (textOf "#") = false) (hst : st.afterLeadingComments = false) :
    newScriptLine env st line
      = .ok { st with
          templateBuf := st.templateBuf ++ textOf "_clear=3\n_timeout=4\n"
            ++ outputFdLines st.script.OutputDefs 0 ++ line
          afterLeadingComments := true } := by
  simp [newScriptLine, leaveComments, hline, hst]

theorem newScriptLine_body (env : Env) (st : ParseAcc) (line : Text)
    (hst : st.afterLeadingComments = true) :
    newScriptLine env st line = .ok { st with templateBuf := st.templateBuf ++ line } := by
  simp [newScriptLine, leaveComments, hst]

theorem newScriptLoop_body (env : Env) (ls : List Text) (st : ParseAcc)
    (hst : st.afterLeadingComments = true) :
    newScriptLoop env st ls = .ok { st with templateBuf := st.templateBuf ++ ls.flatten } := by
  induction ls generalizing st with
  | nil => simp [newScriptLoop]
  | cons l ls ih =>
    simp only [newScriptLoop, newScriptLine_body env st l hst]
    rw [ih { st with templateBuf := st.templateBuf ++ l } hst]
    simp

theorem newScriptLoop_comments (env : Env) (cs rest : List Text) (st st2 : ParseAcc)
    (hcs : ∀ c ∈ cs, hasPrefix c (textOf "#") = true) (hst : st.afterLeadingComments = false)
    (h : newScriptLoop env st (cs ++ rest) = .ok st2) :
    ∃ st1, st1.afterLeadingComments = false ∧ st1.templateBuf = st.templateBuf ++ cs.flatten
      ∧ newScriptLoop env st1 rest = .ok st2 := by
  induction cs generalizing st with
  | nil => exact ⟨st, hst, by simp, h⟩
  | cons c cs ih =>
    simp only [List.cons_append, newScriptLoop] at h
    split at h
    · rename_i st1 h1
      have hc := newScriptLine_comment env st st1 c (hcs c (List.mem_cons_self _ _)) hst h1
      obtain ⟨st3, h3a, h3b, h3c⟩ :=
        ih st1 (fun c' hc' => hcs c' (List.mem_cons_of_mem _ hc')) hc.2 h
      exact ⟨st3, h3a, by rw [h3b, hc.1]; simp, h3c⟩
    · cases h
    · cases h

/-- The lines that bind the outputs to their descriptors, as the claim writes
them: one line `<name>=<5+i>` for each `output_defs[i]`, in order. -/
theorem outputFdLines_enum (defs : List ScriptDef) (k : Nat) :
    outputFdLines defs k
      = ((defs.enumFrom k).map
          (fun p => p.2.Name ++ textOf "=" ++ formatNat (5 + p.1) ++ textOf "\n")).flatten := by
  induction defs generalizing k with
  | nil => rfl
  | cons d rest ih => simp [outputFdLines, List.enumFrom_cons, ih]

theorem newScriptLoop_template (env : Env) (cs body : List Text) (st st2 : ParseAcc)
    (hcs : ∀ c ∈ cs, hasPrefix c (textOf "#") = true)
    (hbody : ∀ l, body.head? = some l → hasPrefix l (textOf "#") = false)
    (hst : st.afterLeadingComments = false)
    (h : newScriptLoop env st (cs ++ body) = .ok st2) :
    st2.templateBuf
      = st.templateBuf ++ cs.flatten
        ++ (if body = [] then []
            else textOf "_clear=3\n_timeout=4\n" ++ outputFdLines st2.script.OutputDefs 0
              ++ body.flatten) := by
  obtain ⟨st1, h1a, h1b, h1c⟩ := newScriptLoop_comments env cs body st st2 hcs hst h
  cases body with
  | nil =>
    simp only [newScriptLoop] at h1c
    cases h1c
    simp [h1b]
  | cons l ls =>
    have hl := hbody l rfl
    simp only [newScriptLoop, newScriptLine_first env st1 l hl h1a] at h1c
    rw [newScriptLoop_body env ls _ rfl] at h1c
    cases h1c
    simp [h1b]

/-- C9 (as amended). For every source made of newline-terminated lines that
`newScript` accepts, the lines being `cs`, all starting with `#`, followed by
`body`, whose first line, if there is one, does not start with `#`: when
`body` is not empty, the text handed to the template engine is exactly the
lines `cs`, then the block `_clear=3\n_timeout=4\n` followed by one line
`<name>=<5+i>\n` for each `output_defs[i]` in declaration order, then the
lines `body`, so that the block sits immediately before the first line that
does not start with `#`; when `body` is empty, it is the source itself,
without the block. -/
theorem newScript_preamble (env : Env) (now : Int) (scriptPath source : Text) (script : Script)
    (cs body : List Text)
    (hnew : newScript env now scriptPath source = .ok script)
    (hsrc : source = (cs ++ body).flatten)
    (hlines : ∀ l ∈ cs ++ body, isLine l = true)
    (hcs : ∀ c ∈ cs, hasPrefix c (textOf "#") = true)
    (hbody : ∀ l, body.head? = some l → hasPrefix l (textOf "#") = false) :
    script.Template
      = cs.flatten
        ++ (if body = [] then []
            else textOf "_clear=3\n_timeout=4\n"
              ++ (script.OutputDefs.enum.map
                  (fun p => p.2.Name ++ textOf "=" ++ formatNat (5 + p.1) ++ textOf "\n")).flatten
              ++ body.flatten) := by
  have hread : readLines source = cs ++ body := by
    have h := readLines_flatten (cs ++ body) [] hlines (by simp)
    rw [hsrc]; simpa using h
  simp only [newScript, hread] at hnew
  split at hnew
  · cases hnew
  · cases hnew
  · rename_i st2 hloop
    have ht := newScriptLoop_template env cs body _ st2 hcs hbody rfl hloop
    split at hnew
    · cases hnew
    · cases hnew
      simp only [ht, List.nil_append, outputFdLines_enum, List.enum]

set_option maxRecDepth 1000000 in
/-- Witness for C9: the script of scenario S5, with two output declarations
before its only line of code. -/
theorem newScript_preamble_witness :
    newScript posixEnv 7 (textOf "./append.sh") appendSource = .ok appendScript
      ∧ appendScript.Template
        = [textOf "# @output a1 a\n", textOf "# @output a2 w\n"].flatten
          ++ (if [textOf "echo x >&$a1; echo y >&$a1; echo z >&$a2; echo w >&$a2\n"] = [] then []
              else textOf "_clear=3\n_timeout=4\n"
                ++ (appendScript.OutputDefs.enum.map
                    (fun p => p.2.Name ++ textOf "=" ++ formatNat (5 + p.1)
                      ++ textOf "\n")).flatten
                ++ [textOf "echo x >&$a1; echo y >&$a1; echo z >&$a2; echo w >&$a2\n"].flatten)
      ∧ appendScript.Template
        = textOf "# @output a1 a\n# @output a2 w\n_clear=3\n_timeout=4\na1=5\na2=6\necho x >&$a1; echo y >&$a1; echo z >&$a2; echo w >&$a2\n" :=
  ⟨by decide,
    newScript_preamble posixEnv 7 (textOf "./append.sh") appendSource appendScript
      [textOf "# @output a1 a\n", textOf "# @output a2 w\n"]
      [textOf "echo x >&$a1; echo y >&$a1; echo z >&$a2; echo w >&$a2\n"]
      (by decide) (by decide) (by decide) (by decide) (by decide),
    by decide⟩

set_option maxRecDepth 1000000 in
/-- Counterexample to C9 as stated: `newScript` accepts a source made of a
comment line only, and hands it to the template engine as it is; the block
`_clear=3\n_timeout=4\n` is written at the first line that does not start with
`#`, and here there is none. -/
theorem newScript_comments_only_no_preamble :
    (newScript posixEnv 7 (textOf "./todo.sh") (textOf "# nothing to run yet\n")).toOption.map
        (fun s => s.Template)
      = some (textOf "# nothing to run yet\n")
      ∧ ¬ (textOf "_clear=3\n_timeout=4\n" <:+: textOf "# nothing to run yet\n") := by
  decide

set_option maxRecDepth 1000000 in
/-- C10 (the code at failing inputs). The loop of `newScript` leaves at
`io.EOF` before it writes the line that `ReadString` returned with it, so the
text after the last newline of the source never reaches the template buffer:
of the source `echo a\necho b` only `echo a\n` follows the preamble, and of
the source `echo hi` nothing is left, not even the preamble. -/
theorem newScript_drops_unterminated_line :
    (newScript posixEnv 7 (textOf "./two.sh") (textOf "echo a\necho b")).toOption.map
        (fun s => s.Template)
      = some (textOf "_clear=3\n_timeout=4\necho a\n")
      ∧ (newScript posixEnv 7 (textOf "./one.sh") (textOf "echo hi")).toOption.map
          (fun s => s.Template)
        = some [] := by
  decide

/-! ## String and unsafe params; params by name -/

theorem dropWhile_append_last {α : Type} (p : α → Bool) (l : List α) (a : α) (h : p a = false) :
    ∃ t, (l ++ [a]).dropWhile p = t ++ [a] := by
  induction l with
  | nil => exact ⟨[], by simp [List.dropWhile, h]⟩
  | cons x xs ih =>
    by_cases hx : p x = true
    · obtain ⟨t, ht⟩ := ih
      exact ⟨t, by simp [List.dropWhile, hx, ht]⟩
    · exact ⟨x :: xs, by simp [List.dropWhile, hx]⟩

theorem trimJsonSpace_quote (rest : Text) :
    ∃ t, trimJsonSpace (0x22 :: rest) = 0x22 :: t := by
  have h1 : (0x22 :: rest).dropWhile jsonSpace = 0x22 :: rest := by
    simp [List.dropWhile, show jsonSpace 0x22 = false by decide]
  obtain ⟨t, ht⟩ := dropWhile_append_last jsonSpace rest.reverse 0x22 (by decide)
  refine ⟨t.reverse, ?_⟩
  simp only [trimJsonSpace, h1, List.reverse_cons, ht, List.reverse_append, List.reverse_singleton,
    List.singleton_append]
  simp

theorem jsonUnmarshal_quote (rest : Text) :
    jsonUnmarshal (0x22 :: rest) = none ∨ ∃ s, jsonUnmarshal (0x22 :: rest) = some (.str s) := by
  obtain ⟨t, ht⟩ := trimJsonSpace_quote rest
  unfold jsonUnmarshal
  split
  · exact Or.inl rfl
  · simp only [ht, if_true]
    cases unquote (0x22 :: t) with
    | none => exact Or.inl rfl
    | some s => exact Or.inr ⟨s, rfl⟩

/-- The text that `toInterfaceVal` decodes for the string types: the input,
put between double quotes unless it begins with one. -/
theorem quoted_begins (inp : Text) :
    ∃ rest, (if (!hasPrefix inp [0x22]) = true then [0x22] ++ inp ++ [0x22] else inp)
      = 0x22 :: rest := by
  by_cases hp : hasPrefix inp [0x22] = true
  · simp only [hp, Bool.not_true, Bool.false_eq_true, if_false]
    cases inp with
    | nil => simp [hasPrefix] at hp
    | cons c rest =>
      refine ⟨rest, ?_⟩
      simp [hasPrefix, List.isPrefixOf] at hp
      rw [hp]
  · simp only [Bool.not_eq_true] at hp
    simp only [hp, Bool.not_false, if_true]
    exact ⟨inp ++ [0x22], by simp⟩

/-- C13. For every parameter name and every input string `inp`,
`toInterfaceVal` with declared type `string` succeeds exactly when
`toInterfaceVal` with declared type `unsafe` succeeds on the same input: either
both return an error, or the `unsafe` result is a string `s`, the JSON-decoded
string as it is, and the `string` result is `escapeShellArg` applied to `s`. -/
theorem toInterfaceVal_string_unsafe (env : Env) (name dflt desc inp : Text) (dv : Value) :
    let stringDef : ScriptDef :=
      { Name := name, Type_ := textOf "string", DefaultStr := dflt, Default := dv, Desc := desc }
    let unsafeDef : ScriptDef :=
      { Name := name, Type_ := textOf "unsafe", DefaultStr := dflt, Default := dv, Desc := desc }
    (∃ e1 e2, stringDef.toInterfaceVal env inp = .error e1
        ∧ unsafeDef.toInterfaceVal env inp = .error e2)
    ∨ (∃ s, unsafeDef.toInterfaceVal env inp = .ok (.str s)
        ∧ jsonUnmarshal (if (!hasPrefix inp [0x22]) = true then [0x22] ++ inp ++ [0x22] else inp)
            = some (.str s)
        ∧ stringDef.toInterfaceVal env inp = .ok (.str (escapeShellArg env.windows s))) := by
  intro stringDef unsafeDef
  obtain ⟨rest, hq⟩ := quoted_begins inp
  have hs : stringDef.toInterfaceVal env inp = stringDef.unmarshal env (0x22 :: rest) := by
    rw [← hq]
    simp only [ScriptDef.toInterfaceVal, stringDef]
    rw [if_neg (by decide), if_pos (by decide)]
    split <;> simp_all
  have hu : unsafeDef.toInterfaceVal env inp = unsafeDef.unmarshal env (0x22 :: rest) := by
    rw [← hq]
    simp only [ScriptDef.toInterfaceVal, unsafeDef]
    rw [if_neg (by decide), if_pos (by decide)]
    split <;> simp_all
  rw [hs, hu, hq]
  rcases jsonUnmarshal_quote rest with h | ⟨s, h⟩
  · left
    simp only [ScriptDef.unmarshal, h]
    exact ⟨_, _, rfl, rfl⟩
  · right
    refine ⟨s, ?_, h, ?_⟩
    · simp only [ScriptDef.unmarshal, h, unsafeDef]
      rw [if_neg (by decide), if_neg (by decide)]
    · simp only [ScriptDef.unmarshal, h, stringDef]
      rw [if_neg (by decide), if_pos (by decide)]

theorem normalizeLoop_congr (env : Env) (m1 m2 : GoMap Text) (defs : List ScriptDef)
    (oparams : GoMap Value) (h : ∀ d ∈ defs, m1.get d.Name = m2.get d.Name) :
    normalizeLoop env m1 defs oparams = normalizeLoop env m2 defs oparams := by
  induction defs generalizing oparams with
  | nil => rfl
  | cons d rest ih =>
    have hrest : ∀ d ∈ rest, m1.get d.Name = m2.get d.Name :=
      fun d1 hd1 => h d1 (List.mem_cons_of_mem _ hd1)
    simp only [normalizeLoop, h d (List.mem_cons_self _ _)]
    cases m2.get d.Name with
    | none => exact ih _ hrest
    | some ival =>
      simp only
      cases d.toInterfaceVal env ival with
      | ok v => exact ih _ hrest
      | error msg => rfl
      | panic => rfl

theorem lastNamed_none_iff (defs : List ScriptDef) (n : Text) :
    lastNamed defs n = none ↔ ∀ d ∈ defs, d.Name ≠ n := by
  induction defs with
  | nil => simp [lastNamed]
  | cons d rest ih =>
    simp only [lastNamed, List.mem_cons, forall_eq_or_imp]
    cases hl : lastNamed rest n with
    | some d1 =>
      have := ih.not.mp (by rw [hl]; simp)
      simp only [reduceCtorEq, false_iff, not_and]
      intro _
      exact this
    | none =>
      have hr := ih.mp hl
      by_cases hn : d.Name = n
      · simp [hn]
      · simp only [hn, if_false, true_iff]
        exact ⟨hn, hr⟩

theorem normalizeLoop_entries (env : Env) (m : GoMap Text) (n : Text) (defs : List ScriptDef)
    (oparams o : GoMap Value) (h : normalizeLoop env m defs oparams = .ok o) :
    match lastNamed defs n with
    | none => o.get n = oparams.get n
    | some d => paramEntry env m (some d) n (o.get n) := by
  induction defs generalizing oparams with
  | nil =>
    simp only [normalizeLoop] at h
    cases h
    simp [lastNamed]
  | cons d rest ih =>
    simp only [normalizeLoop] at h
    simp only [lastNamed]
    cases hm : m.get d.Name with
    | none =>
      simp only [hm] at h
      have ih1 := ih _ h
      cases hl : lastNamed rest n with
      | some d1 => simpa only [hl] using ih1
      | none =>
        simp only [hl] at ih1 ⊢
        by_cases hn : d.Name = n
        · simp only [hn, if_true, paramEntry]
          rw [hn] at hm
          rw [hn, GoMap.get_set_self] at ih1
          simp only [hm]
          exact ih1
        · simp only [hn, if_false]
          rw [GoMap.get_set_other _ _ _ _ (Ne.symm hn)] at ih1
          exact ih1
    | some ival =>
      simp only [hm] at h
      cases hv : d.toInterfaceVal env ival with
      | error msg => simp [hv] at h
      | panic => simp [hv] at h
      | ok v =>
        simp only [hv] at h
        have ih1 := ih _ h
        cases hl : lastNamed rest n with
        | some d1 => simpa only [hl] using ih1
        | none =>
          simp only [hl] at ih1 ⊢
          by_cases hn : d.Name = n
          · simp only [hn, if_true, paramEntry]
            rw [hn] at hm
            rw [hn, GoMap.get_set_self] at ih1
            simp only [hm]
            exact ⟨v, hv, ih1⟩
          · simp only [hn, if_false]
            rw [GoMap.get_set_other _ _ _ _ (Ne.symm hn)] at ih1
            exact ih1

/-- C12. For every script and every two raw params maps `m1` and `m2` that
agree on all declared param names, whatever they hold under other keys,
`normalizeParams` has the same outcome on both (the same error, the same
panic or the same map). Whenever `normalizeParams` succeeds, the keys of the
result are exactly the declared param names; under each name that the request
supplies the result holds `toInterfaceVal` of the raw value, and under each
name that it does not supply the precomputed default, in both cases of the
declaration of that name (the last one, should a name be declared twice). -/
theorem normalizeParams_declared_only (env : Env) (script : Script) (m1 m2 : GoMap Text)
    (hagree : ∀ d ∈ script.ParamDefs, m1.get d.Name = m2.get d.Name) :
    script.normalizeParams env m1 = script.normalizeParams env m2
      ∧ ∀ o, script.normalizeParams env m1 = .ok o →
          (∀ n, (o.get n ≠ none ↔ ∃ d ∈ script.ParamDefs, d.Name = n))
          ∧ (∀ d ∈ script.ParamDefs, lastNamed script.ParamDefs d.Name = some d →
              (∀ raw, m1.get d.Name = some raw →
                ∃ v, d.toInterfaceVal env raw = .ok v ∧ o.get d.Name = some v)
              ∧ (m1.get d.Name = none → o.get d.Name = some d.Default)) := by
  refine ⟨normalizeLoop_congr env m1 m2 script.ParamDefs [] hagree, ?_⟩
  intro o ho
  have hent : ∀ n, paramEntry env m1 (lastNamed script.ParamDefs n) n (o.get n) := by
    intro n
    have h := normalizeLoop_entries env m1 n script.ParamDefs [] o ho
    cases hl : lastNamed script.ParamDefs n with
    | none => simp only [hl] at h; simpa [paramEntry, GoMap.get] using h
    | some d => simpa only [hl] using h
  refine ⟨?_, ?_⟩
  · intro n
    have h := hent n
    cases hl : lastNamed script.ParamDefs n with
    | none =>
      rw [hl] at h
      have hno := (lastNamed_none_iff _ _).mp hl
      simp only [paramEntry] at h
      constructor
      · intro hne; exact absurd h hne
      · rintro ⟨d, hd, hn⟩; exact absurd hn (hno d hd)
    | some d =>
      rw [hl] at h
      have hex : ∃ d ∈ script.ParamDefs, d.Name = n := by
        by_contra hcon
        have : lastNamed script.ParamDefs n = none :=
          (lastNamed_none_iff _ _).mpr (fun d1 hd1 hn1 => hcon ⟨d1, hd1, hn1⟩)
        rw [this] at hl; cases hl
      simp only [paramEntry] at h
      constructor
      · intro _; exact hex
      · intro _
        cases hm : m1.get n with
        | none => rw [hm] at h; simp [h]
        | some raw => rw [hm] at h; obtain ⟨v, _, hv⟩ := h; simp [hv]
  · intro d _ hl
    have h := hent d.Name
    rw [hl] at h
    simp only [paramEntry] at h
    constructor
    · intro raw hraw
      rw [hraw] at h
      exact h
    · intro hnone
      rw [hnone] at h
      exact h

set_option maxRecDepth 1000000 in
/-- Witness for C12: the script `echo.sh` and two requests that supply the
same raw value for `who` and differ in the other keys. -/
theorem normalizeParams_declared_only_witness :
    echoScript.normalizeParams posixEnv [(textOf "who", textOf "a b"), (textOf "logid", textOf "7")]
        = echoScript.normalizeParams posixEnv [(textOf "zzz", textOf "[1]"), (textOf "who", textOf "a b")]
      ∧ echoScript.normalizeParams posixEnv [(textOf "who", textOf "a b"), (textOf "logid", textOf "7")]
        = .ok [(textOf "who", .str (textOf "\x27a b\x27"))] :=
  ⟨(normalizeParams_declared_only posixEnv echoScript
      [(textOf "who", textOf "a b"), (textOf "logid", textOf "7")]
      [(textOf "zzz", textOf "[1]"), (textOf "who", textOf "a b")] (by decide)).1,
    by decide⟩

/-! ## The annotations of a script -/

theorem findAtLineStart_skip {α : Type} (m : Text → Option α) (body : Text)
    (h : (0x0A : Byte) ∉ body) :
    findAtLineStart m false (body ++ [0x0A]) = none := by
  induction body with
  | nil => simp [findAtLineStart]
  | cons c body ih =>
    have hc : c ≠ 0x0A := fun e => h (by simp [e])
    have hb : (0x0A : Byte) ∉ body := fun e => h (by simp [e])
    simp only [List.cons_append, findAtLineStart, Bool.false_eq_true, if_false, hc, decide_False]
    exact ih hb

theorem findAtLineStart_line {α : Type} (m : Text → Option α) (l : Text)
    (h : isLine l = true) : findAtLineStart m true l = m l := by
  obtain ⟨body, hl, hb⟩ := isLine_spec h
  subst hl
  cases body with
  | nil =>
    simp only [List.nil_append, findAtLineStart, if_true]
    cases m [0x0A] <;> rfl
  | cons c body =>
    have hc : c ≠ 0x0A := fun e => hb (by simp [e])
    have hb1 : (0x0A : Byte) ∉ body := fun e => hb (by simp [e])
    simp only [List.cons_append, findAtLineStart, if_true, hc, decide_False]
    cases m (c :: (body ++ [0x0A])) with
    | some r => rfl
    | none => exact findAtLineStart_skip m body hb1

theorem reLit_some {lit s r : Text} (h : reLit lit s = some r) : lit <+: s := by
  unfold reLit at h
  split at h
  · rename_i hp
    exact List.isPrefixOf_iff_prefix.mp hp
  · cases h

theorem reHead_some {word s r : Text} (h : reHead word s = some r) :
    ∃ r0 r1, reLit [0x23] s = some r0 ∧ reSpaces1 r0 = some r1 ∧ (0x40 :: word) <+: r1 := by
  unfold reHead at h
  cases h0 : reLit [0x23] s with
  | none => simp [h0] at h
  | some r0 =>
    cases h1 : reSpaces1 r0 with
    | none => simp [h0, h1] at h
    | some r1 =>
      rw [h0, Option.some_bind, h1, Option.some_bind] at h
      exact ⟨r0, r1, rfl, h1, reLit_some h⟩

theorem reHead_exclusive {w1 w2 s r1 r2 : Text} (h1 : reHead w1 s = some r1)
    (h2 : reHead w2 s = some r2) :
    (0x40 :: w1) <+: (0x40 :: w2) ∨ (0x40 :: w2) <+: (0x40 :: w1) := by
  obtain ⟨a0, a1, ha0, ha1, hp1⟩ := reHead_some h1
  obtain ⟨b0, b1, hb0, hb1, hp2⟩ := reHead_some h2
  rw [ha0] at hb0; cases hb0
  rw [ha1] at hb1; cases hb1
  exact List.prefix_or_prefix_of_prefix hp1 hp2

theorem descAt_head {s m : Text} (h : descAt s = some m) :
    ∃ r, reHead (textOf "desc") s = some r := by
  unfold descAt at h
  cases hr : reHead (textOf "desc") s with
  | none => simp [hr] at h
  | some r => exact ⟨r, rfl⟩

theorem paramAt_head {s : Text} {p : Text × Text × Text × Text} (h : paramAt s = some p) :
    ∃ r, reHead (textOf "param") s = some r := by
  unfold paramAt at h
  cases hr : reHead (textOf "param") s with
  | none => simp [hr] at h
  | some r => exact ⟨r, rfl⟩

theorem outputAt_head {s : Text} {p : Text × Text} (h : outputAt s = some p) :
    ∃ r, reHead (textOf "output") s = some r := by
  unfold outputAt at h
  cases hr : reHead (textOf "output") s with
  | none => simp [hr] at h
  | some r => exact ⟨r, rfl⟩

/-- On a line, at most one of the three annotation patterns matches. -/
theorem annotation_exclusive (l : Text) (hl : isLine l = true) :
    (descRe l ≠ none → paramRe l = none ∧ outputRe l = none)
      ∧ (paramRe l ≠ none → outputRe l = none) := by
  simp only [descRe, paramRe, outputRe, findAtLineStart_line _ l hl]
  refine ⟨fun hd => ⟨?_, ?_⟩, fun hp => ?_⟩
  · cases hd1 : descAt l with
    | none => exact absurd hd1 hd
    | some m =>
      obtain ⟨r1, h1⟩ := descAt_head hd1
      cases hp1 : paramAt l with
      | none => rfl
      | some p =>
        obtain ⟨r2, h2⟩ := paramAt_head hp1
        have hx := reHead_exclusive h1 h2
        exact absurd hx (by decide)
  · cases hd1 : descAt l with
    | none => exact absurd hd1 hd
    | some m =>
      obtain ⟨r1, h1⟩ := descAt_head hd1
      cases hp1 : outputAt l with
      | none => rfl
      | some p =>
        obtain ⟨r2, h2⟩ := outputAt_head hp1
        have hx := reHead_exclusive h1 h2
        exact absurd hx (by decide)
  · cases hd1 : paramAt l with
    | none => exact absurd hd1 hp
    | some m =>
      obtain ⟨r1, h1⟩ := paramAt_head hd1
      cases hp1 : outputAt l with
      | none => rfl
      | some p =>
        obtain ⟨r2, h2⟩ := outputAt_head hp1
        have hx := reHead_exclusive h1 h2
        exact absurd hx (by decide)

theorem filterMap_cons_toList {α β : Type} (f : α → Option β) (c : α) (cs : List α) :
    (c :: cs).filterMap f = (f c).toList ++ cs.filterMap f := by
  cases h : f c <;> simp [List.filterMap_cons, h]

theorem matchEntry_step (env : Env) (st st1 : ParseAcc) (l : Text) (hl : isLine l = true)
    (h : matchEntry env st l = .ok st1) :
    st1.script.ParamDefs.map (fun d => (d.Name, d.Type_, d.DefaultStr, d.Desc))
        = st.script.ParamDefs.map (fun d => (d.Name, d.Type_, d.DefaultStr, d.Desc))
          ++ (paramRe l).toList
      ∧ st1.script.OutputDefs.map (fun d => (d.Name, d.Type_))
        = st.script.OutputDefs.map (fun d => (d.Name, d.Type_)) ++ (outputRe l).toList
      ∧ st1.helpBuf = st.helpBuf ++ (if isAnnotation l = true then l else [])
      ∧ st1.script.Desc = st.script.Desc ++ ((descRe l).map trimSpace).getD [] := by
  have hx := annotation_exclusive l hl
  unfold matchEntry at h
  split at h
  · rename_i m hm
    cases h
    have hp := (hx.1 (by rw [hm]; simp)).1
    have ho := (hx.1 (by rw [hm]; simp)).2
    simp [hp, ho, hm, isAnnotation]
  · rename_i hd
    split at h
    · rename_i name ty dflt desc hp
      have ho := hx.2 (by rw [hp]; simp)
      dsimp only at h
      split at h
      · cases h
      · cases h
      · rename_i pd hpd
        cases h
        simp only [ScriptDef.makeDefault] at hpd
        split at hpd
        · cases hpd
          simp [hp, ho, hd, isAnnotation]
        · cases hpd
        · cases hpd
    · rename_i hp
      split at h
      · rename_i name ty ho
        dsimp only at h
        cases h
        simp [hp, ho, hd, isAnnotation]
      · rename_i ho
        cases h
        simp [hp, ho, hd, isAnnotation]

theorem newScriptLoop_leading (env : Env) (cs : List Text) (st st1 : ParseAcc)
    (hcs : ∀ c ∈ cs, isLine c = true ∧ hasPrefix c (textOf "#") = true)
    (hst : st.afterLeadingComments = false)
    (h : newScriptLoop env st cs = .ok st1) :
    st1.afterLeadingComments = false
      ∧ st1.script.ParamDefs.map (fun d => (d.Name, d.Type_, d.DefaultStr, d.Desc))
        = st.script.ParamDefs.map (fun d => (d.Name, d.Type_, d.DefaultStr, d.Desc))
          ++ cs.filterMap paramRe
      ∧ st1.script.OutputDefs.map (fun d => (d.Name, d.Type_))
        = st.script.OutputDefs.map (fun d => (d.Name, d.Type_)) ++ cs.filterMap outputRe
      ∧ st1.helpBuf = st.helpBuf ++ (cs.filter isAnnotation).flatten
      ∧ st1.script.Desc = st.script.Desc ++ ((cs.filterMap descRe).map trimSpace).flatten := by
  induction cs generalizing st with
  | nil =>
    simp only [newScriptLoop] at h
    cases h
    simp [hst]
  | cons c cs ih =>
    have hc := hcs c (List.mem_cons_self _ _)
    simp only [newScriptLoop] at h
    split at h
    · rename_i st2 h2
      have hl : leaveComments st c = st := by simp [leaveComments, hc.2]
      simp only [newScriptLine, hl, hst, Bool.false_eq_true, if_false] at h2
      have hf := matchEntry_frame env _ st2 c h2
      have hs := matchEntry_step env _ st2 c hc.1 h2
      have ih1 := ih st2 (fun c1 hc1 => hcs c1 (List.mem_cons_of_mem _ hc1)) (hf.2.trans rfl) h
      refine ⟨ih1.1, ?_, ?_, ?_, ?_⟩
      · rw [ih1.2.1, hs.1, filterMap_cons_toList, List.append_assoc]
      · rw [ih1.2.2.1, hs.2.1, filterMap_cons_toList, List.append_assoc]
      · rw [ih1.2.2.2.1, hs.2.2.1, List.filter_cons]
        by_cases ha : isAnnotation c = true <;> simp [ha]
      · rw [ih1.2.2.2.2, hs.2.2.2, filterMap_cons_toList]
        cases descRe c <;> simp
    · cases h
    · cases h

theorem newScriptLoop_split (env : Env) (cs rest : List Text) (st st2 : ParseAcc)
    (h : newScriptLoop env st (cs ++ rest) = .ok st2) :
    ∃ st1, newScriptLoop env st cs = .ok st1 ∧ newScriptLoop env st1 rest = .ok st2 := by
  induction cs generalizing st with
  | nil => exact ⟨st, rfl, h⟩
  | cons c cs ih =>
    simp only [List.cons_append, newScriptLoop] at h ⊢
    cases h3 : newScriptLine env st c with
    | ok st3 =>
      rw [h3] at h
      exact ih st3 h
    | error msg => rw [h3] at h; cases h
    | panic => rw [h3] at h; cases h

theorem newScriptLoop_rest (env : Env) (rest : List Text) (st st2 : ParseAcc)
    (hst : st.afterLeadingComments = false)
    (hrest : ∀ l, rest.head? = some l → hasPrefix l (textOf "#") = false)
    (h : newScriptLoop env st rest = .ok st2) :
    st2.script = st.script ∧ st2.helpBuf = st.helpBuf := by
  cases rest with
  | nil => simp only [newScriptLoop] at h; cases h; exact ⟨rfl, rfl⟩
  | cons l ls =>
    have hl := hrest l rfl
    simp only [newScriptLoop, newScriptLine_first env st l hl hst] at h
    rw [newScriptLoop_body env ls _ rfl] at h
    cases h
    exact ⟨rfl, rfl⟩

theorem dropWhile_head_false {α : Type} (p : α → Bool) (l : List α) (a : α)
    (h : (l.dropWhile p).head? = some a) : p a = false := by
  induction l with
  | nil => simp at h
  | cons x xs ih =>
    by_cases hx : p x = true
    · simp only [List.dropWhile_cons, hx, if_true] at h
      exact ih h
    · simp only [List.dropWhile_cons, hx] at h
      simp only [Bool.false_eq_true, if_false, List.head?_cons, Option.some.injEq] at h
      rw [← h]
      simpa using hx

/-- C11. For every source made of newline-terminated lines that `newScript`
accepts: `param_defs` lists exactly the lines of the leading `#` block that
match the `@param` pattern, in source order, each with the name, type,
default text and description written on the line, and with the typed default
that `toInterfaceVal` makes of the default text; `output_defs` lists exactly
the lines of the leading block that match the `@output` pattern, in source
order, with their name and type; `help` is the concatenation, in order, of the
lines of the leading block that match one of the three patterns, verbatim;
`desc` is the concatenation of the trimmed `@desc` texts. Lines after the
first line that does not start with `#` contribute to none of these, and no
line matches two of the patterns. -/
theorem newScript_annotations (env : Env) (now : Int) (scriptPath source : Text)
    (script : Script) (lines : List Text)
    (hnew : newScript env now scriptPath source = .ok script)
    (hsrc : source = lines.flatten)
    (hlines : ∀ l ∈ lines, isLine l = true) :
    script.ParamDefs.map (fun d => (d.Name, d.Type_, d.DefaultStr, d.Desc))
        = (leadingBlock lines).filterMap paramRe
      ∧ (∀ d ∈ script.ParamDefs, d.toInterfaceVal env d.DefaultStr = .ok d.Default)
      ∧ script.OutputDefs.map (fun d => (d.Name, d.Type_))
        = (leadingBlock lines).filterMap outputRe
      ∧ script.Help = ((leadingBlock lines).filter isAnnotation).flatten
      ∧ script.Desc = (((leadingBlock lines).filterMap descRe).map trimSpace).flatten
      ∧ (∀ l ∈ lines, (descRe l ≠ none → paramRe l = none ∧ outputRe l = none)
          ∧ (paramRe l ≠ none → outputRe l = none)) := by
  have hdef := newScript_defaults env now scriptPath source script hnew
  have hread : readLines source = lines := by
    have h := readLines_flatten lines [] hlines (by simp)
    rw [hsrc]; simpa using h
  have hsplit : lines = leadingBlock lines
      ++ lines.dropWhile (fun l => hasPrefix l (textOf "#")) :=
    (List.takeWhile_append_dropWhile _ _).symm
  have hlead : ∀ c ∈ leadingBlock lines, isLine c = true ∧ hasPrefix c (textOf "#") = true := by
    intro c hc
    exact ⟨hlines c ((List.takeWhile_sublist _).subset hc),
      List.mem_takeWhile_imp (p := fun l => hasPrefix l (textOf "#")) hc⟩
  simp only [newScript, hread] at hnew
  split at hnew
  · cases hnew
  · cases hnew
  · rename_i st2 hloop
    rw [hsplit] at hloop
    obtain ⟨st1, h1, h2⟩ := newScriptLoop_split env _ _ _ st2 hloop
    have hl := newScriptLoop_leading env _ _ st1 hlead rfl h1
    have hr := newScriptLoop_rest env _ st1 st2 hl.1
      (fun l hh => dropWhile_head_false _ lines l hh) h2
    split at hnew
    · cases hnew
    · cases hnew
      refine ⟨?_, hdef, ?_, ?_, ?_, fun l hl1 => annotation_exclusive l (hlines l hl1)⟩
      · simpa [hr.1] using hl.2.1
      · simpa [hr.1] using hl.2.2.1
      · simpa [hr.2] using hl.2.2.2.1
      · simpa [hr.1] using hl.2.2.2.2

set_option maxRecDepth 1000000 in
/-- Witness for C11: the script `hello` of scenario S1, with an `@output`
line in the leading block and another one after the first line of code, which
is not taken. -/
theorem newScript_annotations_witness :
    helloScript.ParamDefs.map (fun d => (d.Name, d.Type_, d.DefaultStr, d.Desc))
        = (leadingBlock helloLines).filterMap paramRe
      ∧ (∀ d ∈ helloScript.ParamDefs, d.toInterfaceVal posixEnv d.DefaultStr = .ok d.Default)
      ∧ helloScript.OutputDefs.map (fun d => (d.Name, d.Type_))
        = (leadingBlock helloLines).filterMap outputRe
      ∧ helloScript.Help = ((leadingBlock helloLines).filter isAnnotation).flatten
      ∧ helloScript.Desc = (((leadingBlock helloLines).filterMap descRe).map trimSpace).flatten
      ∧ (∀ l ∈ helloLines, (descRe l ≠ none → paramRe l = none ∧ outputRe l = none)
          ∧ (paramRe l ≠ none → outputRe l = none)) :=
  newScript_annotations posixEnv 7 (textOf "./hello") helloSource helloScript helloLines
    (by decide) (by decide) (by decide)

/-! ## The supervisor of a run -/

theorem Supervisor.step_killed (st : Supervisor) (ev : WakeUp) (h : st.killed = true) :
    (st.step ev).1.killed = true ∧ (st.step ev).2 = false := by
  unfold Supervisor.step
  split
  · exact ⟨h, rfl⟩
  · cases ev with
    | done => exact ⟨h, rfl⟩
    | timeoutSet t n => exact ⟨h, rfl⟩
    | elapsed now => simp [timedOut, h]

theorem Supervisor.step_kill (st : Supervisor) (ev : WakeUp) (h : (st.step ev).2 = true) :
    ∃ now, ev = .elapsed now ∧ st.left = false ∧ timedOut st now = true
      ∧ (st.step ev).1 = { st with killed := true } := by
  unfold Supervisor.step at h ⊢
  split at h
  · cases h
  · rename_i hleft
    cases ev with
    | done => cases h
    | timeoutSet t n => cases h
    | elapsed now =>
      dsimp only at h
      split at h
      · rename_i ht
        refine ⟨now, rfl, by simpa using hleft, ht, ?_⟩
        simp [hleft, ht]
      · cases h

theorem Supervisor.steps_killed (evs : List WakeUp) (st : Supervisor) (h : st.killed = true) :
    (st.steps evs).2 = [] := by
  induction evs generalizing st with
  | nil => rfl
  | cons ev rest ih =>
    have hs := Supervisor.step_killed st ev h
    have hr := ih (st.step ev).1 hs.1
    cases ev <;> simp [Supervisor.steps, hr, hs.2]

/-- Of `runWithTimeout`: a turn of the loop sends
the kill signal only in the timer branch, only while `killed` is false and
`Timeout` is positive, and it then sets `killed`; over any sequence of
wake-ups the signal is sent at most once. -/
theorem Supervisor.steps_at_most_one_kill (evs : List WakeUp) (st : Supervisor) :
    (st.steps evs).2.length ≤ 1 := by
  induction evs generalizing st with
  | nil => simp [Supervisor.steps]
  | cons ev rest ih =>
    cases ev with
    | done => simpa [Supervisor.steps] using ih _
    | timeoutSet t n => simpa [Supervisor.steps] using ih _
    | elapsed now =>
      by_cases hk : (st.step (.elapsed now)).2 = true
      · obtain ⟨_, _, _, _, hst⟩ := Supervisor.step_kill st _ hk
        have hr := Supervisor.steps_killed rest (st.step (.elapsed now)).1 (by rw [hst])
        simp [Supervisor.steps, hk, hr]
      · simpa [Supervisor.steps, hk] using ih _

/-- The timer branch of `runWithTimeout` sends no kill signal while `Timeout`
is zero, and for a `Timeout` below `2^63` and clock readings less than `2^63`
seconds apart it sends none earlier than `Timeout` seconds after
`TimeoutSetTs`. -/
theorem Supervisor.step_kill_not_early (st : Supervisor) (ev : WakeUp)
    (h : (st.step ev).2 = true) :
    ∃ now, ev = .elapsed now ∧ st.killed = false ∧ st.run.Timeout > 0
      ∧ (st.run.Timeout < 2 ^ 63 → - 2 ^ 63 ≤ now - st.run.TimeoutSetTs
          → now - st.run.TimeoutSetTs < 2 ^ 63
          → now - st.run.TimeoutSetTs ≥ (st.run.Timeout : Int)) := by
  obtain ⟨now, hev, _, ht, _⟩ := Supervisor.step_kill st ev h
  simp only [timedOut, Bool.and_eq_true, Bool.not_eq_true', decide_eq_true_eq] at ht
  refine ⟨now, hev, ht.1.1, ht.1.2, ?_⟩
  intro h1 h2 h3
  have e1 : wrapInt64 (now - st.run.TimeoutSetTs) = now - st.run.TimeoutSetTs :=
    wrapInt64_id _ h2 h3
  have e2 : wrapInt64 ((st.run.Timeout : Int) % 2 ^ 64) = (st.run.Timeout : Int) := by
    have h4 : (st.run.Timeout : Int) < 2 ^ 63 := by exact_mod_cast h1
    have h5 : (0 : Int) ≤ (st.run.Timeout : Int) := Int.ofNat_nonneg _
    rw [Int.emod_eq_of_lt h5 (by omega)]
    exact wrapInt64_id _ (by omega) h4
  have h6 := ht.2
  rw [e1] at h6
  have h7 : wrapInt64 (((st.run.Timeout % 2 ^ 64 : Nat) : Int)) = (st.run.Timeout : Int) := by
    rw [← e2]; congr 1
  omega

set_option maxRecDepth 1000000 in
/-- C14. The test of the timer branch of `runWithTimeout` compares
`now - TimeoutSetTs` with `int64(Timeout)`, which is negative for a `Timeout`
of `2^63` or more. A script that writes `9223372036854775808` to its
`_timeout` descriptor at clock reading 100 sets `Timeout` to `2^63`; the
duration handed to the timer is then `0`, and the timer branch taken at the
same clock reading 100 sends the kill signal, although no second of the
`2^63` has passed. -/
theorem runWithTimeout_kills_before_deadline :
    (runningRun (textOf "r")).readOutputLine 100 4 (textOf "9223372036854775808\n")
        = some { runningRun (textOf "r") with Timeout := 2 ^ 63, TimeoutSetTs := 100 }
      ∧ waitNanos (2 ^ 63) = 0
      ∧ ((runningRun (textOf "r")).supervisor.steps
            [.timeoutSet (2 ^ 63) 100, .elapsed 100]).2 = [100]
      ∧ ¬ ((100 : Int) - 100 ≥ ((2 ^ 63 : Nat) : Int)) := by
  refine ⟨by decide, by decide, by decide, by decide⟩

/-! ## Script commands -/

theorem unmarshal_error_ne_nil (env : Env) (d : ScriptDef) (inp msg : Text)
    (h : d.unmarshal env inp = .error msg) : msg ≠ [] := by
  unfold ScriptDef.unmarshal at h
  split at h
  · cases h
    have e : textOf "Unable to parse " = 0x55 :: textOf "nable to parse " := by decide
    rw [e]
    simp
  · split at h
    · split at h <;> cases h
    · split at h
      · split at h <;> cases h
      · cases h

theorem toInterfaceVal_error_ne_nil (env : Env) (d : ScriptDef) (inp msg : Text)
    (h : d.toInterfaceVal env inp = .error msg) : msg ≠ [] := by
  unfold ScriptDef.toInterfaceVal at h
  split at h
  · exact unmarshal_error_ne_nil env d _ msg h
  · split at h
    · split at h <;> exact unmarshal_error_ne_nil env d _ msg h
    · split at h
      · exact unmarshal_error_ne_nil env d _ msg h
      · cases h
        have e : textOf "Unrecognized type " = 0x55 :: textOf "nrecognized type " := by decide
        rw [e]
        simp

theorem normalizeLoop_error_ne_nil (env : Env) (m : GoMap Text) (defs : List ScriptDef)
    (acc : GoMap Value) (msg : Text)
    (h : normalizeLoop env m defs acc = .error msg) : msg ≠ [] := by
  induction defs generalizing acc with
  | nil => cases h
  | cons d rest ih =>
    simp only [normalizeLoop] at h
    split at h
    · split at h
      · exact ih _ h
      · rename_i msg1 he
        cases h
        exact toInterfaceVal_error_ne_nil env d _ _ he
      · cases h
    · exact ih _ h

theorem statusOutputs_some (defs : List ScriptDef) (locks : List Bool) (outs : List Text)
    (idx : Nat) (m : GoMap Text)
    (h : idx + outs.length ≤ defs.length) (hl : idx + outs.length ≤ locks.length) :
    ∃ r, statusOutputs defs locks outs idx m = some r := by
  induction outs generalizing idx m with
  | nil => exact ⟨m, rfl⟩
  | cons o rest ih =>
    simp only [List.length_cons] at h hl
    have hlt : idx < defs.length := by omega
    have hlk : idx < locks.length := by omega
    have hd : defs.get? idx = some (defs.get ⟨idx, hlt⟩) := List.get?_eq_get hlt
    simp only [statusOutputs, hd, hlk, if_true]
    exact ih (idx + 1) _ (by omega) (by omega)

theorem statusOutputs_fresh (defs done : List ScriptDef) (rest : List ScriptDef)
    (locks : List Bool) (m : GoMap Text)
    (hdefs : defs = done ++ rest) (hl : locks.length = defs.length) :
    statusOutputs defs locks (List.replicate rest.length []) done.length m
      = some (rest.foldl (fun acc d => acc.set d.Name []) m) := by
  induction rest generalizing done m with
  | nil => rfl
  | cons d rest ih =>
    have hlk : done.length < locks.length := by rw [hl, hdefs]; simp
    have hd : defs.get? done.length = some d := by
      rw [hdefs, List.get?_eq_getElem?, List.getElem?_append_right (le_refl _)]
      simp
    simp only [List.length_cons, List.replicate_succ, statusOutputs, hlk, if_true, hd,
      List.foldl_cons]
    have h := ih (done ++ [d]) (m.set d.Name []) (by rw [hdefs]; simp)
    simpa using h

theorem makeScriptRun_ok (env : Env) (w : World) (srv srv1 : Server) (script : Script)
    (req : Request) (run : ScriptRun)
    (h : srv.makeScriptRun env w script req = .ok (srv1, run)) :
    srv1 = { srv with ScriptRuns := srv.ScriptRuns ++ [run] }
      ∧ run.Script = script
      ∧ run.Outputs = List.replicate script.OutputDefs.length []
      ∧ run.OutputLocks = List.replicate script.OutputDefs.length false
      ∧ run.Finished = false
      ∧ w.uuid = .ok run.Id
      ∧ script.normalizeParams env req.Params = .ok run.Params
      ∧ env.tpl.execute script.Template run.Params = .ok run.BashScript := by
  unfold Server.makeScriptRun at h
  split at h
  · cases h
  · cases h
  · rename_i params hp
    split at h
    · cases h
    · cases h
    · rename_i uuid hu
      dsimp only at h
      split at h
      · cases h
      · cases h
      · rename_i bash hb
        cases h
        refine ⟨rfl, rfl, ?_, rfl, rfl, hu, hp, hb⟩
        simp

theorem makeScriptRun_error (env : Env) (w : World) (srv : Server) (script : Script)
    (req : Request) (msg : Text)
    (h : srv.makeScriptRun env w script req = .error msg) :
    script.normalizeParams env req.Params = .error msg ∨ w.uuid = .error msg
      ∨ ∃ params, env.tpl.execute script.Template params = .error msg := by
  unfold Server.makeScriptRun at h
  split at h
  · rename_i msg1 hp
    cases h
    exact Or.inl hp
  · cases h
  · split at h
    · rename_i msg1 hu
      cases h
      exact Or.inr (Or.inl hu)
    · cases h
    · dsimp only at h
      split at h
      · rename_i msg1 hb
        cases h
        exact Or.inr (Or.inr ⟨_, hb⟩)
      · cases h
      · cases h

theorem makeScriptRun_panic (env : Env) (w : World) (srv : Server) (script : Script)
    (req : Request)
    (h : srv.makeScriptRun env w script req = .panic) :
    script.normalizeParams env req.Params = .panic ∨ w.uuid = .panic
      ∨ ∃ params, env.tpl.execute script.Template params = .panic := by
  unfold Server.makeScriptRun at h
  split at h
  · cases h
  · rename_i hp
    exact Or.inl hp
  · split at h
    · cases h
    · rename_i hu
      exact Or.inr (Or.inl hu)
    · dsimp only at h
      split at h
      · cases h
      · rename_i hb
        exact Or.inr (Or.inr ⟨_, hb⟩)
      · cases h

theorem fieldAction_error_ne_nil (params : Option (GoMap Value)) (action msg : Text)
    (h : fieldAction params action = .error msg) : msg ≠ [] := by
  have e1 : textOf "unsupported action" ≠ [] := by decide
  have e2 : textOf "unsupported value" ≠ [] := by decide
  unfold fieldAction at h
  split at h
  · cases h; exact e1
  · split at h
    · split at h
      · cases h
      · split at h
        · cases h
        · cases h; exact e2
    · cases h; exact e1

theorem fieldRender_error_ne_nil (params : Option (GoMap Value)) (text : Text) (mode : TplMode)
    (msg : Text) (h : fieldRender params mode text = .error msg) : msg ≠ [] := by
  have e1 : textOf "unclosed action" ≠ [] := by decide
  induction text generalizing mode msg with
  | nil =>
    cases mode with
    | text => cases h
    | open1 => cases h
    | action acc => simp only [fieldRender] at h; cases h; exact e1
    | close1 acc => simp only [fieldRender] at h; cases h; exact e1
  | cons c rest ih =>
    cases mode with
    | text =>
      simp only [fieldRender] at h
      split at h
      · exact ih _ _ h
      · split at h
        · cases h
        · exact ih _ _ h
    | open1 =>
      simp only [fieldRender] at h
      split at h
      · exact ih _ _ h
      · split at h
        · cases h
        · exact ih _ _ h
    | action acc =>
      simp only [fieldRender] at h
      split at h <;> exact ih _ _ h
    | close1 acc =>
      simp only [fieldRender] at h
      split at h
      · split at h
        · cases h
        · exact ih _ _ h
        · rename_i m1 ha
          cases h
          exact fieldAction_error_ne_nil params acc _ ha
        · cases h
      · exact ih _ _ h

/-- C15. For every server, and every request whose script name is not a
built-in command, provided the errors of `getUuid` and of the template
engine carry a non-empty text, `Handle` does exactly this. When the name is
not in the catalog it returns status 404 with the error text "Script or
command does not exist". Otherwise it returns status 400 with the error text
of the first of these steps that fails, a non-empty text: the normalisation of
the params of the request, `getUuid`, the execution of the template of the
script on the normalised params; and when none fails it returns status 200
with the one snapshot of the new run, which it has appended at the end of the
registry. A step that panics makes `Handle` panic. So whenever `Handle`
returns: the status is 404, 400 or 200; with a status of 400 or more the
server is unchanged, the error text is non-empty and there is no snapshot;
with status 200 the registry is the old one with exactly one new, unfinished
run at its end, the catalog is unchanged, and `RunStatii` holds exactly the
snapshot of that run, with its id. -/
theorem Handle_script_outcome (env : Env) (w : World) (srv : Server) (req : Request)
    (hname : req.ScriptName ∉ builtins)
    (huuid : ∀ msg, w.uuid = .error msg → msg ≠ [])
    (htpl : ∀ text params msg, env.tpl.execute text params = .error msg → msg ≠ []) :
    (srv.Scripts.get req.ScriptName = none →
        srv.Handle env w req
          = .ok (srv, errorResponse 404 (textOf "Script or command does not exist")))
      ∧ (∀ script, srv.Scripts.get req.ScriptName = some script →
          (∀ msg, script.normalizeParams env req.Params = .error msg →
              msg ≠ [] ∧ srv.Handle env w req = .ok (srv, errorResponse 400 msg))
          ∧ (script.normalizeParams env req.Params = .panic → srv.Handle env w req = .panic)
          ∧ ∀ params, script.normalizeParams env req.Params = .ok params →
              (∀ msg, w.uuid = .error msg →
                  msg ≠ [] ∧ srv.Handle env w req = .ok (srv, errorResponse 400 msg))
              ∧ (w.uuid = .panic → srv.Handle env w req = .panic)
              ∧ ∀ uuid, w.uuid = .ok uuid →
                  (∀ msg, env.tpl.execute script.Template params = .error msg →
                      msg ≠ [] ∧ srv.Handle env w req = .ok (srv, errorResponse 400 msg))
                  ∧ (env.tpl.execute script.Template params = .panic →
                      srv.Handle env w req = .panic)
                  ∧ ∀ bash, env.tpl.execute script.Template params = .ok bash →
                      srv.Handle env w req
                        = .ok ({ srv with ScriptRuns := srv.ScriptRuns ++
                              [{ Script := script, Request := req, Id := uuid,
                                 LogId := (req.Params.get (textOf "logid")).getD [],
                                 ExitCode := 0, BashScript := bash, TimeoutSetTs := w.now,
                                 Timeout := 0, Params := params,
                                 Outputs := List.replicate script.OutputDefs.length [],
                                 OutputLocks := List.replicate script.OutputDefs.length false,
                                 StartTs := 0, FinishTs := 0, Finished := false }] },
                            okResponse []
                              [{ ScriptName := script.Name, Id := uuid,
                                 ScriptTs := script.ParsedTs, Params := params,
                                 Outputs := script.OutputDefs.foldl
                                   (fun acc d => acc.set d.Name []) [],
                                 TimeoutSetTs := w.now, StartTs := 0, FinishTs := 0,
                                 Finished := false, ExitCode := 0 }]))
      ∧ (∀ srv1 resp, srv.Handle env w req = .ok (srv1, resp) →
          (resp.StatusCode = 404 ∨ resp.StatusCode = 400 ∨ resp.StatusCode = 200)
          ∧ (resp.StatusCode = 404 ↔ srv.Scripts.get req.ScriptName = none)
          ∧ (resp.StatusCode = 404 →
              resp.ErrorStr = textOf "Script or command does not exist")
          ∧ (resp.StatusCode ≥ 400 →
              srv1 = srv ∧ resp.ErrorStr ≠ [] ∧ resp.RunStatii = [])
          ∧ (resp.StatusCode = 200 →
              resp.ErrorStr = []
              ∧ ∃ run st, srv1.ScriptRuns = srv.ScriptRuns ++ [run]
                ∧ srv1.Scripts = srv.Scripts ∧ run.Finished = false
                ∧ resp.RunStatii = [st] ∧ run.Status = some st ∧ st.Id = run.Id)) := by
  have hH := Handle_script env w srv req hname
  have e404 : textOf "Script or command does not exist" ≠ [] := by decide
  -- the run and the snapshot that the last step makes
  have hrun : ∀ (script : Script) (params : GoMap Value) (uuid bash : Text),
      ScriptRun.Status
          { Script := script, Request := req, Id := uuid,
            LogId := (req.Params.get (textOf "logid")).getD [],
            ExitCode := 0, BashScript := bash, TimeoutSetTs := w.now,
            Timeout := 0, Params := params,
            Outputs := List.replicate script.OutputDefs.length [],
            OutputLocks := List.replicate script.OutputDefs.length false,
            StartTs := 0, FinishTs := 0, Finished := false }
        = some { ScriptName := script.Name, Id := uuid,
                 ScriptTs := script.ParsedTs, Params := params,
                 Outputs := script.OutputDefs.foldl (fun acc d => acc.set d.Name []) [],
                 TimeoutSetTs := w.now, StartTs := 0, FinishTs := 0,
                 Finished := false, ExitCode := 0 } := by
    intro script params uuid bash
    have h := statusOutputs_fresh script.OutputDefs [] script.OutputDefs
      (List.replicate script.OutputDefs.length false) [] rfl (by simp)
    simp only [List.length_nil] at h
    simp only [ScriptRun.Status, List.length_replicate, h, Option.map_some']
  have hfwd : (srv.Scripts.get req.ScriptName = none →
        srv.Handle env w req
          = .ok (srv, errorResponse 404 (textOf "Script or command does not exist")))
      ∧ (∀ script, srv.Scripts.get req.ScriptName = some script →
          (∀ msg, script.normalizeParams env req.Params = .error msg →
              msg ≠ [] ∧ srv.Handle env w req = .ok (srv, errorResponse 400 msg))
          ∧ (script.normalizeParams env req.Params = .panic → srv.Handle env w req = .panic)
          ∧ ∀ params, script.normalizeParams env req.Params = .ok params →
              (∀ msg, w.uuid = .error msg →
                  msg ≠ [] ∧ srv.Handle env w req = .ok (srv, errorResponse 400 msg))
              ∧ (w.uuid = .panic → srv.Handle env w req = .panic)
              ∧ ∀ uuid, w.uuid = .ok uuid →
                  (∀ msg, env.tpl.execute script.Template params = .error msg →
                      msg ≠ [] ∧ srv.Handle env w req = .ok (srv, errorResponse 400 msg))
                  ∧ (env.tpl.execute script.Template params = .panic →
                      srv.Handle env w req = .panic)
                  ∧ ∀ bash, env.tpl.execute script.Template params = .ok bash →
                      srv.Handle env w req
                        = .ok ({ srv with ScriptRuns := srv.ScriptRuns ++
                              [{ Script := script, Request := req, Id := uuid,
                                 LogId := (req.Params.get (textOf "logid")).getD [],
                                 ExitCode := 0, BashScript := bash, TimeoutSetTs := w.now,
                                 Timeout := 0, Params := params,
                                 Outputs := List.replicate script.OutputDefs.length [],
                                 OutputLocks := List.replicate script.OutputDefs.length false,
                                 StartTs := 0, FinishTs := 0, Finished := false }] },
                            okResponse []
                              [{ ScriptName := script.Name, Id := uuid,
                                 ScriptTs := script.ParsedTs, Params := params,
                                 Outputs := script.OutputDefs.foldl
                                   (fun acc d => acc.set d.Name []) [],
                                 TimeoutSetTs := w.now, StartTs := 0, FinishTs := 0,
                                 Finished := false, ExitCode := 0 }])) := by
    refine ⟨?_, ?_⟩
    · intro hs
      rw [hH]
      simp only [Server.handleScript, hs]
    · intro script hs
      refine ⟨?_, ?_, ?_⟩
      · intro msg hn
        refine ⟨normalizeLoop_error_ne_nil env _ _ _ msg hn, ?_⟩
        rw [hH]
        simp only [Server.handleScript, hs, Server.makeScriptRun, hn]
      · intro hn
        rw [hH]
        simp only [Server.handleScript, hs, Server.makeScriptRun, hn]
      · intro params hn
        refine ⟨?_, ?_, ?_⟩
        · intro msg hu
          refine ⟨huuid msg hu, ?_⟩
          rw [hH]
          simp only [Server.handleScript, hs, Server.makeScriptRun, hn, hu]
        · intro hu
          rw [hH]
          simp only [Server.handleScript, hs, Server.makeScriptRun, hn, hu]
        · intro uuid hu
          refine ⟨?_, ?_, ?_⟩
          · intro msg he
            refine ⟨htpl _ _ msg he, ?_⟩
            rw [hH]
            simp only [Server.handleScript, hs, Server.makeScriptRun, hn, hu, he]
          · intro he
            rw [hH]
            simp only [Server.handleScript, hs, Server.makeScriptRun, hn, hu, he]
          · intro bash he
            rw [hH]
            simp only [Server.handleScript, hs, Server.makeScriptRun, hn, hu, he,
              hrun script params uuid bash, List.map_replicate]
  refine ⟨hfwd.1, hfwd.2, ?_⟩
  intro srv1 resp hret
  cases hs : srv.Scripts.get req.ScriptName with
  | none =>
    rw [hfwd.1 hs] at hret
    cases hret
    simp [errorResponse, e404]
  | some script =>
    obtain ⟨f1, f2, f3⟩ := hfwd.2 script hs
    cases hn : script.normalizeParams env req.Params with
    | error msg =>
      rw [(f1 msg hn).2] at hret
      cases hret
      simp [errorResponse, (f1 msg hn).1]
    | panic => rw [f2 hn] at hret; cases hret
    | ok params =>
      obtain ⟨g1, g2, g3⟩ := f3 params hn
      cases hu : w.uuid with
      | error msg =>
        rw [(g1 msg hu).2] at hret
        cases hret
        simp [errorResponse, (g1 msg hu).1]
      | panic => rw [g2 hu] at hret; cases hret
      | ok uuid =>
        obtain ⟨k1, k2, k3⟩ := g3 uuid hu
        cases he : env.tpl.execute script.Template params with
        | error msg =>
          rw [(k1 msg he).2] at hret
          cases hret
          simp [errorResponse, (k1 msg he).1]
        | panic => rw [k2 he] at hret; cases hret
        | ok bash =>
          rw [k3 bash he] at hret
          cases hret
          refine ⟨by simp [okResponse], by simp [okResponse], by simp [okResponse],
            by simp [okResponse], fun _ => ⟨rfl, _, _, rfl, rfl, rfl, rfl, ?_, rfl⟩⟩
          exact hrun script params uuid bash

set_option maxRecDepth 1000000 in
/-- Witness for C15: the server of scenario S2 with the script `echo.sh`. The
request that names it with `who` set to `bob` passes the three steps and gets
status 200 and the snapshot of the run `run-1`, now the only run of the
registry; the request with `who` set to `["a"]` fails in the normalisation and
gets status 400. -/
theorem Handle_script_outcome_witness :
    (echoRequest (textOf "bob")).ScriptName ∉ builtins
      ∧ echoServer.Handle posixEnv calmWorld (echoRequest (textOf "bob"))
        = .ok ({ echoServer with ScriptRuns :=
              [{ Script := echoScript, Request := echoRequest (textOf "bob"),
                 Id := textOf "run-1", LogId := [], ExitCode := 0,
                 BashScript := textOf "# @param who string \x60\"world\"\x60 target\n_clear=3\n_timeout=4\necho \x27bob\x27\n",
                 TimeoutSetTs := 100, Timeout := 0,
                 Params := [(textOf "who", .str (textOf "\x27bob\x27"))],
                 Outputs := [], OutputLocks := [], StartTs := 0, FinishTs := 0,
                 Finished := false }] },
            okResponse []
              [{ ScriptName := textOf "echo.sh", Id := textOf "run-1", ScriptTs := 7,
                 Params := [(textOf "who", .str (textOf "\x27bob\x27"))], Outputs := [],
                 TimeoutSetTs := 100, StartTs := 0, FinishTs := 0, Finished := false,
                 ExitCode := 0 }])
      ∧ (textOf "Unable to parse \x60\"[\"a\"]\"\x60 as who (string)" ≠ []
        ∧ echoServer.Handle posixEnv calmWorld (echoRequest (textOf "[\"a\"]"))
          = .ok (echoServer, errorResponse 400
              (textOf "Unable to parse \x60\"[\"a\"]\"\x60 as who (string)"))) :=
  ⟨by decide,
    ((((Handle_script_outcome posixEnv calmWorld echoServer (echoRequest (textOf "bob"))
        (by decide) (fun msg h => by cases h)
        (fun text params msg h => fieldRender_error_ne_nil (some params) text .text msg h)).2.1
      echoScript (by decide)).2.2
      [(textOf "who", .str (textOf "\x27bob\x27"))] (by decide)).2.2
      (textOf "run-1") rfl).2.2
      (textOf "# @param who string \x60\"world\"\x60 target\n_clear=3\n_timeout=4\necho \x27bob\x27\n")
      (by decide),
    ((Handle_script_outcome posixEnv calmWorld echoServer (echoRequest (textOf "[\"a\"]"))
        (by decide) (fun msg h => by cases h)
        (fun text params msg h => fieldRender_error_ne_nil (some params) text .text msg h)).2.1
      echoScript (by decide)).1
      (textOf "Unable to parse \x60\"[\"a\"]\"\x60 as who (string)") (by decide)⟩

/-! ## The locks of the output buffers -/

theorem statusAccesses_guarded (outs : List Text) (idx : Nat) (held : List Nat) :
    guarded held (statusAccesses outs idx) = true := by
  induction outs generalizing idx with
  | nil => rfl
  | cons o rest ih =>
    simp only [statusAccesses, List.cons_append, List.nil_append, guarded, List.contains_cons,
      beq_self_eq_true, Bool.true_or, Bool.true_and, List.erase_cons_head]
    exact ih (idx + 1)

theorem readOutputAccesses_var_guarded (run : ScriptRun) (fd : Int) (line : Text)
    (hfd : 5 ≤ fd) : guarded [] (run.readOutputAccesses fd line) = true := by
  have h1 : ¬ fd = 1 := by omega
  have h2 : ¬ fd = 2 := by omega
  have h3 : ¬ fd = 3 := by omega
  have h4 : ¬ fd = 4 := by omega
  simp only [ScriptRun.readOutputAccesses, h1, h2, h3, h4, if_false]
  split
  · rfl
  · split <;> simp [guarded]

theorem readOutputAccesses_clear_unguarded (run : ScriptRun) (line : Text)
    (hidx : run.Script.getOutputIdxByName (trimSpace line) > 0) :
    run.readOutputAccesses 3 line
        = [.reset (run.Script.getOutputIdxByName (trimSpace line)).toNat]
      ∧ guarded [] (run.readOutputAccesses 3 line) = false := by
  have e : run.readOutputAccesses 3 line
      = [.reset (run.Script.getOutputIdxByName (trimSpace line)).toNat] := by
    simp [ScriptRun.readOutputAccesses, hidx]
  rw [e]
  exact ⟨rfl, rfl⟩

set_option maxRecDepth 1000000 in
/-- C16. In the run of scenario S5, with the outputs `a1` and `a2`, the reader
of descriptor 6 writes the buffer of `a2` with its lock held, and `Status`
reads every buffer with its lock held, but the reader of `_clear` that is
handed the record `a2` resets the buffer of `a2` without taking any lock: its
only access is that reset, made while no lock is held. The reader does empty
the buffer. -/
theorem readOutput_clear_without_lock :
    appendRun.readOutputAccesses 6 (textOf "z\n") = [.lock 1, .reset 1, .write 1, .unlock 1]
      ∧ guarded [] (appendRun.readOutputAccesses 6 (textOf "z\n")) = true
      ∧ statusAccesses appendRun.Outputs 0
          = [.lock 0, .read 0, .unlock 0, .lock 1, .read 1, .unlock 1]
      ∧ guarded [] (statusAccesses appendRun.Outputs 0) = true
      ∧ appendRun.Script.getOutputIdxByName (trimSpace (textOf "a2\n")) = 1
      ∧ appendRun.readOutputAccesses 3 (textOf "a2\n") = [.reset 1]
      ∧ guarded [] (appendRun.readOutputAccesses 3 (textOf "a2\n")) = false
      ∧ ({ appendRun with Outputs := [textOf "x\n", textOf "z"] }).readOutputLine 100 3
            (textOf "a2\n")
          = some { appendRun with Outputs := [textOf "x\n", []] } := by
  refine ⟨by decide, by decide, by decide, by decide, by decide, by decide, by decide,
    by decide⟩

/-! ## The pipes and the outputs of a run -/

theorem mem_fdsUpTo (last : Nat) (fd : Int) : fd ∈ fdsUpTo last ↔ 1 ≤ fd ∧ fd ≤ last := by
  unfold fdsUpTo
  rw [List.mem_map]
  constructor
  · rintro ⟨k, hk, rfl⟩
    rw [List.mem_range] at hk
    omega
  · intro h
    exact ⟨(fd - 1).toNat, List.mem_range.mpr (by omega), by omega⟩

theorem fdsUpTo_prefix (m : Nat) (done rest : List Int) (h : fdsUpTo m = done ++ rest) :
    done = fdsUpTo done.length ∧ done.length + rest.length = m
      ∧ ∀ fd, rest.head? = some fd → fd = (done.length : Int) + 1 := by
  have hlen : done.length + rest.length = m := by
    have h1 := congrArg List.length h
    simp only [fdsUpTo, List.length_map, List.length_range, List.length_append] at h1
    omega
  have hsplit : fdsUpTo m = fdsUpTo done.length
      ++ (List.range rest.length).map (fun (k : Nat) => ((done.length + k : Nat) : Int) + 1) := by
    rw [← hlen]
    simp only [fdsUpTo, List.range_add, List.map_append, List.map_map]
    rfl
  rw [hsplit] at h
  have hinj := List.append_inj h (by simp [fdsUpTo])
  refine ⟨hinj.1.symm, hlen, ?_⟩
  intro fd hfd
  rw [← hinj.2] at hfd
  cases hr : rest.length with
  | zero => rw [hr] at hfd; simp at hfd
  | succ n =>
    rw [hr, List.range_succ_eq_map] at hfd
    simp at hfd
    omega

theorem makePipesLoop_spec (pipeErr : Int → Option Text) (fds : List Int) (p : Pipes)
    (hrange : ∀ fd ∈ fds, 1 ≤ fd ∧ fd ≤ 2 + (p.ExtraFiles.length : Int)) :
    ∃ done rest p1 err, fds = done ++ rest ∧ makePipesLoop pipeErr fds p = some (p1, err)
      ∧ (∀ fd ∈ done, pipeErr fd = none)
      ∧ (rest = [] → err = none)
      ∧ (∀ fd, rest.head? = some fd → pipeErr fd = err ∧ err ≠ none)
      ∧ p1.readers = p.readers ++ done
      ∧ p1.ExtraFiles.length = p.ExtraFiles.length
      ∧ ∀ k : Nat, k < p.ExtraFiles.length →
          p1.ExtraFiles.get? k
            = if ((k : Int) + 3) ∈ done then some (some { fd := (k : Int) + 3, write := true })
              else p.ExtraFiles.get? k := by
  induction fds generalizing p with
  | nil =>
    exact ⟨[], [], p, none, rfl, rfl, by simp, fun _ => rfl, by simp, by simp, rfl, by simp⟩
  | cons fd rest0 ih =>
    have hfd := hrange fd (List.mem_cons_self _ _)
    cases he : pipeErr fd with
    | some msg =>
      refine ⟨[], fd :: rest0, p, some msg, rfl, by simp [makePipesLoop, he], by simp,
        by simp, ?_, by simp, rfl, by simp⟩
      intro x hx
      simp only [List.head?_cons, Option.some.injEq] at hx
      rw [← hx]
      exact ⟨he, by simp⟩
    | none =>
      simp only [makePipesLoop, he]
      by_cases h12 : fd = 1 ∨ fd = 2
      · simp only [h12, if_true]
        obtain ⟨done, rest, p1, err, h0, h1, hn, hr, hh, h2, h3, h4⟩ :=
          ih { p with readers := p.readers ++ [fd] }
            (fun x hx => hrange x (List.mem_cons_of_mem _ hx))
        refine ⟨fd :: done, rest, p1, err, by rw [h0]; rfl, h1, ?_, hr, hh,
          by rw [h2]; simp, h3, ?_⟩
        · intro x hx
          rcases List.mem_cons.mp hx with e | e
          · rw [e]; exact he
          · exact hn x e
        · intro k hk
          rw [h4 k hk]
          have hne : ¬ ((k : Int) + 3 = fd) := by omega
          simp only [List.mem_cons, hne, false_or]
      · have hin : 0 ≤ fd - 3 ∧ (fd - 3).toNat < p.ExtraFiles.length := by omega
        simp only [h12, if_false, hin, and_self, if_true]
        obtain ⟨done, rest, p1, err, h0, h1, hn, hr, hh, h2, h3, h4⟩ := ih
          { ExtraFiles := p.ExtraFiles.set (fd - 3).toNat (some { fd := fd, write := true })
            ExtraPipes := p.ExtraPipes ++ [{ fd := fd, write := false }, { fd := fd, write := true }]
            readers := p.readers ++ [fd] }
          (fun x hx => by simpa using hrange x (List.mem_cons_of_mem _ hx))
        refine ⟨fd :: done, rest, p1, err, by rw [h0]; rfl, h1, ?_, hr, hh,
          by rw [h2]; simp, by rw [h3]; simp, ?_⟩
        · intro x hx
          rcases List.mem_cons.mp hx with e | e
          · rw [e]; exact he
          · exact hn x e
        · intro k hk
          rw [h4 k (by simpa using hk)]
          by_cases hd : ((k : Int) + 3) ∈ done
          · simp [hd]
          · by_cases hk3 : (k : Int) + 3 = fd
            · have e : (fd - 3).toNat = k := by omega
              simp [hd, hk3, e, List.getElem?_set, hk]
            · have e : (fd - 3).toNat ≠ k := by omega
              simp [hd, hk3, List.getElem?_set, e]

theorem outputIdxFrom_range (name : Text) (defs : List ScriptDef) (i : Int) :
    outputIdxFrom name defs i = -1
      ∨ (i ≤ outputIdxFrom name defs i ∧ outputIdxFrom name defs i < i + defs.length) := by
  induction defs generalizing i with
  | nil => exact Or.inl rfl
  | cons d rest ih =>
    simp only [outputIdxFrom, List.length_cons]
    split
    · right
      constructor <;> push_cast <;> omega
    · rcases ih (i + 1) with h | h
      · exact Or.inl h
      · right
        constructor <;> push_cast <;> omega

theorem readOutputLine_aligned (run : ScriptRun) (now : Int) (fd : Int) (line : Text)
    (hO : run.Outputs.length = run.Script.OutputDefs.length)
    (hL : run.OutputLocks.length = run.Script.OutputDefs.length)
    (hfd : 1 ≤ fd ∧ fd ≤ 4 + (run.Outputs.length : Int)) :
    ∃ run1, run.readOutputLine now fd line = some run1 ∧ run1.Script = run.Script
      ∧ run1.Outputs.length = run.Outputs.length ∧ run1.OutputLocks = run.OutputLocks := by
  by_cases h1 : fd = 1
  · exact ⟨run, by simp [ScriptRun.readOutputLine, h1], rfl, rfl, rfl⟩
  by_cases h2 : fd = 2
  · exact ⟨run, by simp [ScriptRun.readOutputLine, h2], rfl, rfl, rfl⟩
  by_cases h3 : fd = 3
  · subst h3
    simp only [ScriptRun.readOutputLine, Script.getOutputIdxByName]
    have hr := outputIdxFrom_range (trimSpace line) run.Script.OutputDefs 0
    by_cases hpos : outputIdxFrom (trimSpace line) run.Script.OutputDefs 0 > 0
    · have hlt : (outputIdxFrom (trimSpace line) run.Script.OutputDefs 0).toNat
          < run.Outputs.length := by omega
      exact ⟨{ run with Outputs := (run.Outputs.set
          (outputIdxFrom (trimSpace line) run.Script.OutputDefs 0).toNat []) },
        by simp [hpos, hlt], rfl, by simp, rfl⟩
    · exact ⟨run, by simp [hpos], rfl, rfl, rfl⟩
  by_cases h4 : fd = 4
  · subst h4
    simp only [ScriptRun.readOutputLine]
    cases parseUint (trimSpace line) with
    | none => exact ⟨run, by simp, rfl, rfl, rfl⟩
    | some t => exact ⟨{ run with Timeout := t, TimeoutSetTs := now }, by simp, rfl, rfl, rfl⟩
  · have hi : (fd - 5).toNat < run.Outputs.length := by omega
    have hi2 : (fd - 5).toNat < run.Script.OutputDefs.length := by omega
    have e : fd = 5 + (((fd - 5).toNat : Nat) : Int) := by omega
    have hv := readOutputLine_var run now (fd - 5).toNat
      (run.Script.OutputDefs.get ⟨_, hi2⟩) (run.Outputs.get ⟨_, hi⟩) line
      (List.get?_eq_get hi2) (List.get?_eq_get hi) (by omega)
    rw [← e] at hv
    exact ⟨_, hv, rfl, by simp, rfl⟩

theorem readRecords_aligned (recs : List PipeRecord) (run : ScriptRun)
    (hO : run.Outputs.length = run.Script.OutputDefs.length)
    (hL : run.OutputLocks.length = run.Script.OutputDefs.length)
    (hrecs : ∀ r ∈ recs, 1 ≤ r.fd ∧ r.fd ≤ 4 + (run.Outputs.length : Int)) :
    ∃ run1, run.readRecords recs = some run1 ∧ run1.Script = run.Script
      ∧ run1.Outputs.length = run.Outputs.length ∧ run1.OutputLocks = run.OutputLocks := by
  induction recs generalizing run with
  | nil => exact ⟨run, rfl, rfl, rfl, rfl⟩
  | cons r rest ih =>
    obtain ⟨run1, h1, h2, h3, h4⟩ := readOutputLine_aligned run r.now r.fd r.line hO hL
      (hrecs r (List.mem_cons_self _ _))
    obtain ⟨run2, k1, k2, k3, k4⟩ := ih run1 (by rw [h3, h2]; exact hO)
      (by rw [h4, h2]; exact hL)
      (fun x hx => by rw [h3]; exact hrecs x (List.mem_cons_of_mem _ hx))
    refine ⟨run2, ?_, k2.trans h2, k3.trans h3, k4.trans h4⟩
    simp only [ScriptRun.readRecords, h1]
    exact k1

/-- C17 (as amended). For every run that `makeScriptRun` builds: `Outputs` and
`OutputLocks` have the length of the `OutputDefs` of its script. `makePipes`
never indexes `ExtraFiles` out of range; it goes through the descriptors
`1, ..., 4 + len(Outputs)` in order and starts a reader for each until a pipe
call fails, which ends it with that error: the descriptors with a reader are
`1, ..., j`, each once, where `j = 4 + len(Outputs)` and no error is returned
when no pipe call fails, and `j + 1` is the first descriptor whose pipe call
fails otherwise. `ExtraFiles` has length `2 + len(Outputs)` and holds at
`ExtraFiles[fd-3]` the write end of the pipe of every descriptor `fd >= 3` with
a reader, and nothing for the others. For every descriptor `fd >= 5` with a
reader the index `fd - 5` is in the range of `Outputs`, `OutputLocks` and
`OutputDefs`; the readers handle any sequence of lines on the descriptors
`1, ..., 4 + len(Outputs)` without an index out of range and keep the three
lengths, and `Status` then returns its snapshot. When the script was made by
`newScript` of newline-terminated lines among which one does not start with
`#`, its template, of which the engine makes the bash script of the run, has
the line `<name>=<5+i>` for each `OutputDefs[i]` in the block before that
line; the reader of descriptor `5+i` works with `OutputDefs[i]` and writes
`Outputs[i]`. -/
theorem makeScriptRun_outputs_aligned (env : Env) (w : World) (srv srv1 : Server)
    (script : Script) (req : Request) (run : ScriptRun) (pipeErr : Int → Option Text)
    (hmk : srv.makeScriptRun env w script req = .ok (srv1, run)) :
    run.Script = script
      ∧ run.Outputs.length = script.OutputDefs.length
      ∧ run.OutputLocks.length = script.OutputDefs.length
      ∧ (∃ pipes err, run.makePipes pipeErr = some (pipes, err)
          ∧ pipes.readers = fdsUpTo pipes.readers.length
          ∧ pipes.readers.Nodup
          ∧ pipes.readers.length ≤ 4 + run.Outputs.length
          ∧ (∀ fd ∈ pipes.readers, pipeErr fd = none)
          ∧ (pipes.readers.length = 4 + run.Outputs.length → err = none)
          ∧ (pipes.readers.length < 4 + run.Outputs.length →
              err = pipeErr ((pipes.readers.length : Int) + 1) ∧ err ≠ none)
          ∧ ((∀ fd : Int, 1 ≤ fd → fd ≤ 4 + (run.Outputs.length : Int) → pipeErr fd = none) →
              err = none ∧ pipes.readers = fdsUpTo (4 + run.Outputs.length)
                ∧ ∀ fd : Int,
                    fd ∈ pipes.readers ↔ 1 ≤ fd ∧ fd ≤ 4 + (run.Outputs.length : Int))
          ∧ pipes.ExtraFiles.length = 2 + run.Outputs.length
          ∧ (∀ fd : Int, 3 ≤ fd → fd ≤ 4 + (run.Outputs.length : Int) →
              pipes.ExtraFiles.get? (fd - 3).toNat
                = some (if fd ∈ pipes.readers then some { fd := fd, write := true } else none))
          ∧ ∀ fd ∈ pipes.readers, 5 ≤ fd →
              (fd - 5).toNat < run.Outputs.length ∧ (fd - 5).toNat < run.OutputLocks.length
                ∧ (fd - 5).toNat < script.OutputDefs.length)
      ∧ (∀ recs : List PipeRecord,
          (∀ r ∈ recs, 1 ≤ r.fd ∧ r.fd ≤ 4 + (run.Outputs.length : Int)) →
          ∃ run1 st, run.readRecords recs = some run1 ∧ run1.Status = some st
            ∧ run1.Script = script
            ∧ run1.Outputs.length = script.OutputDefs.length
            ∧ run1.OutputLocks.length = script.OutputDefs.length)
      ∧ (∀ (now : Int) (scriptPath source : Text) (cs body : List Text),
          newScript env now scriptPath source = .ok script →
          source = (cs ++ body).flatten →
          (∀ l ∈ cs ++ body, isLine l = true) →
          (∀ c ∈ cs, hasPrefix c (textOf "#") = true) →
          (∀ l, body.head? = some l → hasPrefix l (textOf "#") = false) →
          body ≠ [] →
          script.Template
            = cs.flatten ++ textOf "_clear=3\n_timeout=4\n"
              ++ ((script.OutputDefs.enumFrom 0).map
                  (fun p => p.2.Name ++ textOf "=" ++ formatNat (5 + p.1) ++ textOf "\n")).flatten
              ++ body.flatten)
      ∧ env.tpl.execute script.Template run.Params = .ok run.BashScript
      ∧ (∀ (i : Nat) (d : ScriptDef), script.OutputDefs.get? i = some d →
          (script.OutputDefs.enumFrom 0).get? i = some (i, d)
            ∧ ∀ (now : Int) (line : Text),
                run.readOutputLine now (5 + (i : Int)) line
                  = some { run with Outputs :=
                      (run.Outputs.set i
                        (if d.Type_ = textOf "w" then trimSpace line else line)) }) := by
  obtain ⟨_, hS, hO, hL, _, _, _, hB⟩ := makeScriptRun_ok env w srv srv1 script req run hmk
  have hOl : run.Outputs.length = script.OutputDefs.length := by rw [hO]; simp
  have hLl : run.OutputLocks.length = script.OutputDefs.length := by rw [hL]; simp
  have hrange : ∀ fd ∈ fdsUpTo (4 + run.Outputs.length),
      1 ≤ fd ∧ fd ≤ 2 + (((List.replicate (2 + run.Outputs.length)
        (none : Option PipeEnd)).length : Nat) : Int) := by
    intro fd hfd
    have h := (mem_fdsUpTo _ fd).mp hfd
    simp only [List.length_replicate]
    push_cast at h ⊢
    omega
  refine ⟨hS, hOl, hLl, ?_, ?_, ?_, hB, ?_⟩
  · obtain ⟨done, rest, p1, err, h0, h1, hn, hr, hh, h2, h3, h4⟩ :=
      makePipesLoop_spec pipeErr (fdsUpTo (4 + run.Outputs.length))
        { ExtraFiles := List.replicate (2 + run.Outputs.length) none, ExtraPipes := [],
          readers := [] } hrange
    obtain ⟨hd1, hd2, hd3⟩ := fdsUpTo_prefix _ done rest h0
    have hrd : p1.readers = done := by rw [h2]; simp
    have hmem : ∀ fd : Int, fd ∈ done ↔ 1 ≤ fd ∧ fd ≤ (done.length : Int) := by
      intro fd
      rw [hd1, mem_fdsUpTo]
      simp [fdsUpTo]
    refine ⟨p1, err, h1, ?_, ?_, ?_, ?_, ?_, ?_, ?_, ?_, ?_, ?_⟩
    · rw [hrd]; exact hd1
    · rw [hrd, hd1]
      unfold fdsUpTo
      refine List.Nodup.map ?_ (List.nodup_range _)
      intro a b hab
      simpa using hab
    · rw [hrd]; omega
    · rw [hrd]; exact hn
    · rw [hrd]
      intro hlen
      exact hr (List.length_eq_zero.mp (by omega))
    · rw [hrd]
      intro hlen
      cases rest with
      | nil => simp at hd2; omega
      | cons x xs =>
        have hx := hd3 x rfl
        have hp := hh x rfl
        rw [hx] at hp
        exact ⟨hp.1.symm, hp.2⟩
    · intro hall
      have hrest : rest = [] := by
        cases rest with
        | nil => rfl
        | cons x xs =>
          have hx := hd3 x rfl
          have hp := hh x rfl
          have hlen : done.length + (xs.length + 1) = 4 + run.Outputs.length := by
            simpa using hd2
          have hnone := hall x (by omega) (by omega)
          rw [hp.1] at hnone
          exact absurd hnone hp.2
      have hlen : done.length = 4 + run.Outputs.length := by
        rw [hrest] at hd2; simpa using hd2
      refine ⟨hr hrest, by rw [hrd, ← hlen]; exact hd1, ?_⟩
      intro fd
      rw [hrd, hmem, hlen]
      push_cast
      exact Iff.rfl
    · rw [h3]; simp
    · intro fd h3' hle
      have hk : (fd - 3).toNat < 2 + run.Outputs.length := by omega
      have e : (((fd - 3).toNat : Nat) : Int) + 3 = fd := by omega
      have h5 := h4 (fd - 3).toNat (by simpa using hk)
      rw [e] at h5
      rw [h5, hrd]
      by_cases hin : fd ∈ done
      · simp [hin]
      · simp [hin, List.getElem?_replicate, hk]
    · intro fd hfd h5
      rw [hrd] at hfd
      have hb := (hmem fd).mp hfd
      omega
  · intro recs hrecs
    obtain ⟨run1, k1, k2, k3, k4⟩ := readRecords_aligned recs run (by rw [hS]; exact hOl)
      (by rw [hS]; exact hLl) hrecs
    obtain ⟨outs, ho⟩ := statusOutputs_some run1.Script.OutputDefs run1.OutputLocks
      run1.Outputs 0 [] (by rw [k3, k2, hS, hOl]; omega) (by rw [k3, k4, hLl, hOl]; omega)
    have hst : ∃ st, run1.Status = some st :=
      ⟨_, by simp only [ScriptRun.Status, ho, Option.map_some']; rfl⟩
    obtain ⟨st, hst⟩ := hst
    exact ⟨run1, st, k1, hst, k2.trans hS, k3.trans hOl, by rw [k4]; exact hLl⟩
  · intro now scriptPath source cs body hnew hsrc hlines hcs hbody hne
    have hread : readLines source = cs ++ body := by
      have h := readLines_flatten (cs ++ body) [] hlines (by simp)
      rw [hsrc]; simpa using h
    simp only [newScript, hread] at hnew
    split at hnew
    · cases hnew
    · cases hnew
    · rename_i st2 hloop
      have ht := newScriptLoop_template env cs body _ st2 hcs hbody rfl hloop
      split at hnew
      · cases hnew
      · cases hnew
        simp only [ht, hne, if_false, List.nil_append, outputFdLines_enum, List.append_assoc]
  · intro i d hd
    have hi : i < script.OutputDefs.length := by
      rcases List.get?_eq_some.mp hd with ⟨h, _⟩; exact h
    refine ⟨?_, ?_⟩
    · simp only [List.get?_eq_getElem?] at hd ⊢
      simp [List.getElem?_enumFrom, hd]
    · intro now line
      have hbuf : run.Outputs.get? i = some [] := by
        rw [hO]
        simp [List.getElem?_replicate, hi]
      have hv := readOutputLine_var run now i d [] line (by rw [hS]; exact hd) hbuf
        (by rw [hLl]; exact hi)
      simpa using hv

set_option maxRecDepth 1000000 in
/-- Witness for C17: the run that `makeScriptRun` builds for the script of
scenario S5, which has two outputs, with no failing pipe call. -/
theorem makeScriptRun_outputs_aligned_witness :
    Server.makeScriptRun posixEnv calmWorld { Scripts := [], ScriptRuns := [] } appendScript
          (commandRequest (textOf "append.sh"))
        = .ok ({ Scripts := [], ScriptRuns := [appendRun] }, appendRun)
      ∧ newScript posixEnv 7 (textOf "./append.sh") appendSource = .ok appendScript
      ∧ (appendRun.Script = appendScript
      ∧ appendRun.Outputs.length = appendScript.OutputDefs.length
      ∧ appendRun.OutputLocks.length = appendScript.OutputDefs.length
      ∧ (∃ pipes err, appendRun.makePipes noPipeError = some (pipes, err)
          ∧ pipes.readers = fdsUpTo pipes.readers.length
          ∧ pipes.readers.Nodup
          ∧ pipes.readers.length ≤ 4 + appendRun.Outputs.length
          ∧ (∀ fd ∈ pipes.readers, noPipeError fd = none)
          ∧ (pipes.readers.length = 4 + appendRun.Outputs.length → err = none)
          ∧ (pipes.readers.length < 4 + appendRun.Outputs.length →
              err = noPipeError ((pipes.readers.length : Int) + 1) ∧ err ≠ none)
          ∧ ((∀ fd : Int, 1 ≤ fd → fd ≤ 4 + (appendRun.Outputs.length : Int) → noPipeError fd = none) →
              err = none ∧ pipes.readers = fdsUpTo (4 + appendRun.Outputs.length)
                ∧ ∀ fd : Int,
                    fd ∈ pipes.readers ↔ 1 ≤ fd ∧ fd ≤ 4 + (appendRun.Outputs.length : Int))
          ∧ pipes.ExtraFiles.length = 2 + appendRun.Outputs.length
          ∧ (∀ fd : Int, 3 ≤ fd → fd ≤ 4 + (appendRun.Outputs.length : Int) →
              pipes.ExtraFiles.get? (fd - 3).toNat
                = some (if fd ∈ pipes.readers then some { fd := fd, write := true } else none))
          ∧ ∀ fd ∈ pipes.readers, 5 ≤ fd →
              (fd - 5).toNat < appendRun.Outputs.length ∧ (fd - 5).toNat < appendRun.OutputLocks.length
                ∧ (fd - 5).toNat < appendScript.OutputDefs.length)
      ∧ (∀ recs : List PipeRecord,
          (∀ r ∈ recs, 1 ≤ r.fd ∧ r.fd ≤ 4 + (appendRun.Outputs.length : Int)) →
          ∃ run1 st, appendRun.readRecords recs = some run1 ∧ run1.Status = some st
            ∧ run1.Script = appendScript
            ∧ run1.Outputs.length = appendScript.OutputDefs.length
            ∧ run1.OutputLocks.length = appendScript.OutputDefs.length)
      ∧ (∀ (now : Int) (scriptPath source : Text) (cs body : List Text),
          newScript posixEnv now scriptPath source = .ok appendScript →
          source = (cs ++ body).flatten →
          (∀ l ∈ cs ++ body, isLine l = true) →
          (∀ c ∈ cs, hasPrefix c (textOf "#") = true) →
          (∀ l, body.head? = some l → hasPrefix l (textOf "#") = false) →
          body ≠ [] →
          appendScript.Template
            = cs.flatten ++ textOf "_clear=3\n_timeout=4\n"
              ++ ((appendScript.OutputDefs.enumFrom 0).map
                  (fun p => p.2.Name ++ textOf "=" ++ formatNat (5 + p.1) ++ textOf "\n")).flatten
              ++ body.flatten)
      ∧ posixEnv.tpl.execute appendScript.Template appendRun.Params = .ok appendRun.BashScript
      ∧ (∀ (i : Nat) (d : ScriptDef), appendScript.OutputDefs.get? i = some d →
          (appendScript.OutputDefs.enumFrom 0).get? i = some (i, d)
            ∧ ∀ (now : Int) (line : Text),
                appendRun.readOutputLine now (5 + (i : Int)) line
                  = some { appendRun with Outputs :=
                      (appendRun.Outputs.set i
                        (if d.Type_ = textOf "w" then trimSpace line else line)) })) :=
  ⟨by decide, by decide, makeScriptRun_outputs_aligned posixEnv calmWorld { Scripts := [], ScriptRuns := [] }
    { Scripts := [], ScriptRuns := [appendRun] } appendScript
    (commandRequest (textOf "append.sh")) appendRun noPipeError (by decide)⟩

set_option maxRecDepth 1000000 in
/-- Counterexample to C17 as stated: for the run that `makeScriptRun` builds
for the script of scenario S5, with two outputs, a pipe call that fails at
descriptor 4 ends `makePipes` with that error when readers are attached for
the descriptors 1, 2 and 3 only, not for 4, 5 and 6, and `ExtraFiles` holds
the write end of descriptor 3 only. -/
theorem makePipes_failed_pipe_call :
    Server.makeScriptRun posixEnv calmWorld { Scripts := [], ScriptRuns := [] } appendScript
          (commandRequest (textOf "append.sh"))
        = .ok ({ Scripts := [], ScriptRuns := [appendRun] }, appendRun)
      ∧ appendRun.makePipes (pipeErrorAt 4 (textOf "pipe: too many open files"))
        = some ({ ExtraFiles := [some { fd := 3, write := true }, none, none, none],
                  ExtraPipes := [{ fd := 3, write := false }, { fd := 3, write := true }],
                  readers := [1, 2, 3] },
            some (textOf "pipe: too many open files"))
      ∧ ¬ (∀ fd : Int, fd ∈ ([1, 2, 3] : List Int)
            ↔ 1 ≤ fd ∧ fd ≤ 4 + (appendRun.Outputs.length : Int)) := by
  refine ⟨by decide, by decide, ?_⟩
  intro h
  exact absurd ((h 4).mpr ⟨by decide, by decide⟩) (by decide)

/-! ## Built-in commands -/

theorem builtin_names :
    textOf "status" ≠ textOf "help"
      ∧ textOf "view" ≠ textOf "help" ∧ textOf "view" ≠ textOf "status"
      ∧ textOf "kill" ≠ textOf "help" ∧ textOf "kill" ≠ textOf "status"
      ∧ textOf "kill" ≠ textOf "view"
      ∧ textOf "version" ≠ textOf "help" ∧ textOf "version" ≠ textOf "status"
      ∧ textOf "version" ≠ textOf "view" ∧ textOf "version" ≠ textOf "kill"
      ∧ textOf "purge" ≠ textOf "help" ∧ textOf "purge" ≠ textOf "status"
      ∧ textOf "purge" ≠ textOf "view" ∧ textOf "purge" ≠ textOf "kill"
      ∧ textOf "purge" ≠ textOf "version" := by
  decide

theorem Handle_builtin_value (env : Env) (w : World) (srv : Server) (req : Request) :
    (req.ScriptName = textOf "help" →
        srv.Handle env w req = .ok (srv, okResponse srv.getScriptHelp []))
      ∧ (req.ScriptName = textOf "status" →
        srv.Handle env w req
          = match srv.getRunStatii ((req.Params.get (textOf "id")).getD []) with
            | .error msg => .ok (srv, errorResponse 400 msg)
            | .panic => .panic
            | .ok statii => .ok (srv, okResponse [] statii))
      ∧ (req.ScriptName = textOf "view" →
        srv.Handle env w req
          = match srv.getBashScript ((req.Params.get (textOf "id")).getD []) with
            | .error msg => .ok (srv, errorResponse 400 msg)
            | .panic => .panic
            | .ok bashScript => .ok (srv, okResponse bashScript []))
      ∧ (req.ScriptName = textOf "kill" →
        srv.Handle env w req
          = match srv.killRun w ((req.Params.get (textOf "id")).getD []) with
            | some msg => .ok (srv, errorResponse 400 msg)
            | none => .ok (srv, okResponse
                (textOf "Sent kill to ScriptRun " ++ (req.Params.get (textOf "id")).getD []) []))
      ∧ (req.ScriptName = textOf "version" → srv.Handle env w req = .ok (srv, okResponse VERSION []))
      ∧ (req.ScriptName = textOf "purge" →
        srv.Handle env w req
          = .ok ((srv.purgeScriptRuns w.now 0).1, okResponse
              (textOf "Purged " ++ formatInt (srv.purgeScriptRuns w.now 0).2
                ++ textOf " ScriptRuns from status history") [])) := by
  obtain ⟨n1, n2, n3, n4, n5, n6, n7, n8, n9, n10, n11, n12, n13, n14, n15⟩ := builtin_names
  refine ⟨?_, ?_, ?_, ?_, ?_, ?_⟩ <;> intro h
  · simp only [Server.Handle, h, if_true]
  · simp only [Server.Handle, h, n1, if_false, if_true]
  · simp only [Server.Handle, h, n2, n3, if_false, if_true]
  · simp only [Server.Handle, h, n4, n5, n6, if_false, if_true]
  · simp only [Server.Handle, h, n7, n8, n9, n10, if_false, if_true]
  · simp only [Server.Handle, h, n11, n12, n13, n14, n15, if_false, if_true]

theorem purge_removes_finished (srv : Server) (now : Int) (maxAge : Nat) :
    (srv.purgeScriptRuns now maxAge).1.Scripts = srv.Scripts
      ∧ (srv.purgeScriptRuns now maxAge).1.ScriptRuns.Sublist srv.ScriptRuns
      ∧ ∀ r ∈ srv.ScriptRuns, r ∉ (srv.purgeScriptRuns now maxAge).1.ScriptRuns →
          r.Finished = true := by
  rw [purgeScriptRuns_eq]
  refine ⟨rfl, List.filter_sublist _, ?_⟩
  intro r hr hnot
  simp only [List.mem_filter, hr, true_and, Bool.or_eq_true, Bool.not_eq_true',
    decide_eq_true_eq, not_or] at hnot
  simpa using hnot.1

/-- C18. For every server and every request whose script name is one of
`help`, `status`, `view`, `kill`, `version` and `purge`: the outcome of
`Handle` is that of the built-in branch. It does not depend on the template
engine, the platform or `getUuid`, which only the making of a run uses; for
every name but `help`, whose answer lists the whole catalog, it does not
depend on the catalog either, so that a script of that name in the catalog
changes nothing. When `Handle` returns, the catalog is unchanged, no run has
been added (the registry is a sublist of the old one), every run that is gone
was finished, and for every name but `purge` the server is unchanged. -/
theorem Handle_builtin_frame (env env1 : Env) (w w1 : World) (srv : Server) (req : Request)
    (hname : req.ScriptName ∈ builtins)
    (hnow : w1.now = w.now) (hkill : w1.kill = w.kill) :
    srv.Handle env1 w1 req = srv.Handle env w req
      ∧ (∀ scripts : GoMap Script, req.ScriptName ≠ textOf "help" →
          (srv.Handle env w req = .panic →
              ({ srv with Scripts := scripts }).Handle env w req = .panic)
            ∧ ∀ srv1 resp, srv.Handle env w req = .ok (srv1, resp) →
                ({ srv with Scripts := scripts }).Handle env w req
                  = .ok ({ srv1 with Scripts := scripts }, resp))
      ∧ (∀ msg, srv.Handle env w req ≠ .error msg)
      ∧ ∀ srv1 resp, srv.Handle env w req = .ok (srv1, resp) →
          srv1.Scripts = srv.Scripts
            ∧ srv1.ScriptRuns.Sublist srv.ScriptRuns
            ∧ (∀ r ∈ srv.ScriptRuns, r ∉ srv1.ScriptRuns → r.Finished = true)
            ∧ (req.ScriptName ≠ textOf "purge" → srv1 = srv) := by
  obtain ⟨v1, v2, v3, v4, v5, v6⟩ := Handle_builtin_value env w srv req
  obtain ⟨u1, u2, u3, u4, u5, u6⟩ := Handle_builtin_value env1 w1 srv req
  obtain ⟨n1, n2, n3, n4, n5, n6, n7, n8, n9, n10, n11, n12, n13, n14, n15⟩ := builtin_names
  simp only [builtins, List.mem_cons, List.mem_singleton, List.not_mem_nil, or_false] at hname
  rcases hname with h | h | h | h | h | h
  · rw [u1 h, v1 h]
    refine ⟨rfl, fun _ hne => absurd h hne, fun _ => by simp, ?_⟩
    intro srv1 resp he
    cases he
    exact ⟨rfl, List.Sublist.refl _, fun r hr hn => absurd hr hn, fun _ => rfl⟩
  · rw [u2 h, v2 h]
    refine ⟨rfl, ?_, ?_, ?_⟩
    · intro scripts _
      rw [(Handle_builtin_value env w { srv with Scripts := scripts } req).2.1 h]
      have e : ({ srv with Scripts := scripts } : Server).getRunStatii
          ((req.Params.get (textOf "id")).getD []) = srv.getRunStatii
          ((req.Params.get (textOf "id")).getD []) := rfl
      rw [e]
      cases srv.getRunStatii ((req.Params.get (textOf "id")).getD []) with
      | ok s => exact ⟨fun hp => (by cases hp), fun srv1 resp he => (by cases he; rfl)⟩
      | error m => exact ⟨fun hp => (by cases hp), fun srv1 resp he => (by cases he; rfl)⟩
      | panic => exact ⟨fun _ => rfl, fun srv1 resp he => (by cases he)⟩
    · intro msg
      cases srv.getRunStatii ((req.Params.get (textOf "id")).getD []) <;> simp
    · intro srv1 resp he
      cases hg : srv.getRunStatii ((req.Params.get (textOf "id")).getD []) with
      | ok s =>
        rw [hg] at he; cases he
        exact ⟨rfl, List.Sublist.refl _, fun r hr hn => absurd hr hn, fun _ => rfl⟩
      | error m =>
        rw [hg] at he; cases he
        exact ⟨rfl, List.Sublist.refl _, fun r hr hn => absurd hr hn, fun _ => rfl⟩
      | panic => rw [hg] at he; cases he
  · rw [u3 h, v3 h]
    refine ⟨rfl, ?_, ?_, ?_⟩
    · intro scripts _
      rw [(Handle_builtin_value env w { srv with Scripts := scripts } req).2.2.1 h]
      have e : ({ srv with Scripts := scripts } : Server).getBashScript
          ((req.Params.get (textOf "id")).getD []) = srv.getBashScript
          ((req.Params.get (textOf "id")).getD []) := rfl
      rw [e]
      cases srv.getBashScript ((req.Params.get (textOf "id")).getD []) with
      | ok s => exact ⟨fun hp => (by cases hp), fun srv1 resp he => (by cases he; rfl)⟩
      | error m => exact ⟨fun hp => (by cases hp), fun srv1 resp he => (by cases he; rfl)⟩
      | panic => exact ⟨fun _ => rfl, fun srv1 resp he => (by cases he)⟩
    · intro msg
      cases srv.getBashScript ((req.Params.get (textOf "id")).getD []) <;> simp
    · intro srv1 resp he
      cases hg : srv.getBashScript ((req.Params.get (textOf "id")).getD []) with
      | ok s =>
        rw [hg] at he; cases he
        exact ⟨rfl, List.Sublist.refl _, fun r hr hn => absurd hr hn, fun _ => rfl⟩
      | error m =>
        rw [hg] at he; cases he
        exact ⟨rfl, List.Sublist.refl _, fun r hr hn => absurd hr hn, fun _ => rfl⟩
      | panic => rw [hg] at he; cases he
  · rw [u4 h, v4 h]
    have ek : srv.killRun w1 ((req.Params.get (textOf "id")).getD [])
        = srv.killRun w ((req.Params.get (textOf "id")).getD []) := by
      simp only [Server.killRun, hkill]
    rw [ek]
    refine ⟨rfl, ?_, ?_, ?_⟩
    · intro scripts _
      rw [(Handle_builtin_value env w { srv with Scripts := scripts } req).2.2.2.1 h]
      have e : ({ srv with Scripts := scripts } : Server).killRun w
          ((req.Params.get (textOf "id")).getD []) = srv.killRun w
          ((req.Params.get (textOf "id")).getD []) := rfl
      rw [e]
      cases srv.killRun w ((req.Params.get (textOf "id")).getD []) with
      | some m => exact ⟨fun hp => (by cases hp), fun srv1 resp he => (by cases he; rfl)⟩
      | none => exact ⟨fun hp => (by cases hp), fun srv1 resp he => (by cases he; rfl)⟩
    · intro msg
      cases srv.killRun w ((req.Params.get (textOf "id")).getD []) <;> simp
    · intro srv1 resp he
      cases hg : srv.killRun w ((req.Params.get (textOf "id")).getD []) with
      | some m =>
        rw [hg] at he; cases he
        exact ⟨rfl, List.Sublist.refl _, fun r hr hn => absurd hr hn, fun _ => rfl⟩
      | none =>
        rw [hg] at he; cases he
        exact ⟨rfl, List.Sublist.refl _, fun r hr hn => absurd hr hn, fun _ => rfl⟩
  · rw [u5 h, v5 h]
    refine ⟨rfl, ?_, fun _ => by simp, ?_⟩
    · intro scripts _
      rw [(Handle_builtin_value env w { srv with Scripts := scripts } req).2.2.2.2.1 h]
      exact ⟨fun hp => (by cases hp), fun srv1 resp he => (by cases he; rfl)⟩
    · intro srv1 resp he
      cases he
      exact ⟨rfl, List.Sublist.refl _, fun r hr hn => absurd hr hn, fun _ => rfl⟩
  · rw [u6 h, v6 h, hnow]
    refine ⟨rfl, ?_, fun _ => by simp, ?_⟩
    · intro scripts _
      rw [(Handle_builtin_value env w { srv with Scripts := scripts } req).2.2.2.2.2 h]
      refine ⟨fun hp => (by cases hp), fun srv1 resp he => ?_⟩
      cases he
      simp only [purgeScriptRuns_eq]
    · intro srv1 resp he
      cases he
      obtain ⟨p1, p2, p3⟩ := purge_removes_finished srv w.now 0
      exact ⟨p1, p2, p3, fun hne => absurd h hne⟩

set_option maxRecDepth 1000000 in
/-- Witness for C18: a catalog that holds a script under the name `purge`,
and the request `purge`, which removes the finished run and starts none, also
on another platform and with a failing `getUuid`. -/
theorem Handle_builtin_frame_witness :
    (commandRequest (textOf "purge")).ScriptName ∈ builtins
    ∧ shadowServer.Scripts.get (textOf "purge") = some echoScript
    ∧ shadowServer.Handle posixEnv calmWorld (commandRequest (textOf "purge"))
        = .ok ({ shadowServer with ScriptRuns := [runningRun (textOf "b")] },
            okResponse (textOf "Purged 1 ScriptRuns from status history") [])
    ∧ (shadowServer.Handle { windows := true, tpl := fieldEngine }
          { calmWorld with uuid := .error (textOf "no uuid") } (commandRequest (textOf "purge"))
        = shadowServer.Handle posixEnv calmWorld (commandRequest (textOf "purge"))
      ∧ (∀ scripts : GoMap Script, (commandRequest (textOf "purge")).ScriptName ≠ textOf "help" →
          (shadowServer.Handle posixEnv calmWorld (commandRequest (textOf "purge")) = .panic →
              ({ shadowServer with Scripts := scripts }).Handle posixEnv calmWorld
                (commandRequest (textOf "purge")) = .panic)
            ∧ ∀ srv1 resp,
                shadowServer.Handle posixEnv calmWorld (commandRequest (textOf "purge"))
                    = .ok (srv1, resp) →
                ({ shadowServer with Scripts := scripts }).Handle posixEnv calmWorld
                    (commandRequest (textOf "purge"))
                  = .ok ({ srv1 with Scripts := scripts }, resp))
      ∧ (∀ msg, shadowServer.Handle posixEnv calmWorld (commandRequest (textOf "purge"))
          ≠ .error msg)
      ∧ ∀ srv1 resp,
          shadowServer.Handle posixEnv calmWorld (commandRequest (textOf "purge"))
              = .ok (srv1, resp) →
          srv1.Scripts = shadowServer.Scripts
            ∧ srv1.ScriptRuns.Sublist shadowServer.ScriptRuns
            ∧ (∀ r ∈ shadowServer.ScriptRuns, r ∉ srv1.ScriptRuns → r.Finished = true)
            ∧ ((commandRequest (textOf "purge")).ScriptName ≠ textOf "purge"
                → srv1 = shadowServer)) :=
  ⟨by decide, by decide, by decide,
    Handle_builtin_frame posixEnv { windows := true, tpl := fieldEngine } calmWorld
      { calmWorld with uuid := .error (textOf "no uuid") } shadowServer
      (commandRequest (textOf "purge")) (by decide) rfl rfl⟩

end Gobashd
